import Mathlib

/-!
Sample-collection builder of the depth-forest trainer.

A shallow embedding of `DataPointCollection.cpp` (`createLabelMatrix`,
`DataPointCollection::LoadImages`, `DataPointCollection::LoadMat`).

* A `cv::Mat` is a row-major pixel buffer together with its size and its
  element type tag; `Mat.ptr m r c` reads `m.ptr<T>(r)[c]`.
* `int` values are mathematical integers; the conversions the source
  performs between integer types (`size_t` to `int`, `int` to `uchar`,
  `int` to `uint32_t`) are written out with their modulus.
* `std::vector` is a `List`; `v[i] = x` is a checked write that fails with
  `LoadError.out_of_bounds` when `i` is not below the length.
* Exceptions and out-of-bounds writes are the `Except.error` results.
-/

namespace Sherwood

/-! ## Images -/

/-- Element type tag of a `cv::Mat`, as reported by `IPUtils::getTypeString`:
the two formats the source tests for, and every other format. -/
inductive MatType where
  | CV_8UC1
  | CV_16UC1
  | other
  deriving DecidableEq, Repr

/-- A `cv::Mat`: `rows` by `cols` pixels stored row after row in `data`. -/
structure Mat where
  rows : Nat
  cols : Nat
  type : MatType
  data : List Nat
  deriving DecidableEq, Repr

/-- The default-constructed `cv::Mat()`. -/
instance : Inhabited Mat := ⟨⟨0, 0, MatType.CV_8UC1, []⟩⟩

/-- Pixel read `m.ptr<T>(r)[c]`. -/
def Mat.ptr (m : Mat) (r c : Nat) : Nat := m.data.getD (r * m.cols + c) 0

/-- Conversion of an integer value to `int` (32 bits, two's complement). -/
def toInt32 (x : Int) : Int := (x + 2 ^ 31) % 2 ^ 32 - 2 ^ 31

/-- Conversion of an `int` to `uchar`. -/
def toUchar (x : Int) : Nat := (x % 256).toNat

/-- Loop `for (i = 0; i < n; i++) buf = body i buf` over a pure state. -/
def forRange {σ : Type} (n : Nat) (body : Nat → σ → σ) (init : σ) : σ :=
  (List.range n).foldl (fun s i => body i s) init

/-- Source `createLabelMatrix` (DataPointCollection.cpp lines 7-29). The label
buffer is allocated for `mat_size` and every pixel is then assigned in the
double loop. `max` is `pix_to_label.size() - 1` computed in `size_t` and
converted to `int`. -/
def createLabelMatrix (depth_image : Mat) (pix_to_label : List Int) : Mat :=
  let height := depth_image.rows
  let width := depth_image.cols
  let label_mat : List Nat := List.replicate (height * width) 0
  let max : Int := toInt32 (((pix_to_label.length : Int) - 1) % 2 ^ 64)
  let filled :=
    forRange height (fun r buf =>
      forRange width (fun c buf =>
        let d := depth_image.ptr r c
        if (d : Int) ≤ max then
          buf.set (r * width + c) (toUchar (pix_to_label.getD d 0))
        else
          buf.set (r * width + c) 0) buf) label_mat
  { rows := height, cols := width, type := MatType.CV_8UC1, data := filled }

/-! ## Configuration, collaborators and the collection -/

/-- The split-function selector of the configuration; the source only tests
for `PixelDifference`. -/
inductive SplitFunctionDescriptor where
  | PixelDifference
  | other
  deriving DecidableEq, Repr

/-- The fields of `ProgramParameters` that `LoadImages` reads. -/
structure ProgramParameters where
  InputPrefix : String
  TrainingImagesPath : String
  ImgWidth : Int
  ImgHeight : Int
  PatchSize : Int
  NumberTrainingImages : Int
  TrainingImagesStart : Int
  SplitFunctionType : SplitFunctionDescriptor
  DepthRaw : Bool
  TrainOnZeroIR : Bool
  Bins : Int
  MR : Int
  Webcam : Bool
  Closeup : Bool
  Threshold : Int

/-- The file-name suffix that follows the image index in a frame path. -/
inductive PathSuffix where
  | cam_png
  | ir_png
  | depth_png
  deriving DecidableEq, Repr

/-- The functions `LoadImages` and `LoadMat` call but do not define: the
directory test, `cv::imread` (`none` for a frame whose `data` pointer is
null), the bin-table generator, the histogram peak and the preprocessor.
`imread i sfx` reads the path `path + InputPrefix + to_string(i) + sfx`. -/
structure IPUtils where
  dirExists : String → Bool
  imread : Int → PathSuffix → Option Mat
  generateDepthBinMap : Bool → Int → Int → List Int
  getTallestBin : Mat → Int
  preProcess : Mat → Int → Mat

/-- Errors: the four `std::runtime_error`s of `LoadImages`, the one of
`LoadMat`, `std::length_error` of a `resize` to a negative `int`, and a write
past the end of a vector. -/
inductive LoadError where
  | directory_not_found
  | patch_size_even
  | unexpected_content_type
  | size_mismatch
  | incorrect_image_type
  | length_error
  | out_of_bounds
  deriving DecidableEq, Repr

/-- A `cv::Size`. -/
structure Size where
  width : Int
  height : Int
  deriving DecidableEq, Repr

/-- The members of `DataPointCollection` the two loaders assign. -/
structure DataPointCollection where
  dimension_ : Int
  depth_raw : Bool
  image_size : Size
  step : Int
  data_vec_size : Nat
  train_on_zero : Bool
  low_memory : Bool
  data_ : List Int
  labels_ : List Nat
  targets_ : List Nat
  images_ : List Mat
  pixelLabels_ : List Int
  deriving DecidableEq, Repr

/-- A default-constructed collection: empty vectors, zeroed scalars. -/
def DataPointCollection.new : DataPointCollection :=
  { dimension_ := 0, depth_raw := false, image_size := ⟨0, 0⟩, step := 0,
    data_vec_size := 0, train_on_zero := false, low_memory := false,
    data_ := [], labels_ := [], targets_ := [], images_ := [],
    pixelLabels_ := [] }

/-- Checked element write `v[i] = x`. -/
def vecSet {α : Type} (v : List α) (i : Nat) (x : α) : Except LoadError (List α) :=
  if i < v.length then Except.ok (v.set i x) else Except.error LoadError.out_of_bounds

/-- Call `v.resize(n)` of `std::vector`: truncate, or pad with `fill`. -/
def vecResize {α : Type} (v : List α) (n : Nat) (fill : α) : List α :=
  v.take n ++ List.replicate (n - v.length) fill

/-- A loop whose body may throw: runs `body` on every index in turn and stops
at the first error. -/
def forEachM {ι σ : Type} (body : ι → σ → Except LoadError σ) :
    List ι → σ → Except LoadError σ
  | [], s => Except.ok s
  | i :: rest, s =>
    match body i s with
    | Except.ok s' => forEachM body rest s'
    | Except.error e => Except.error e

/-! ## LoadImages -/

/-- The collection under construction and the four running counters
`img_no`, `label_no`, `target_no`, `datum_no` (all start at 0 and only
count up). -/
structure LoadState where
  result : DataPointCollection
  img_no : Nat
  label_no : Nat
  target_no : Nat
  datum_no : Nat
  deriving DecidableEq, Repr

/-- The flattened address `(img_no * step) + (r * image_size.width) + c`. -/
def flatAddress (s : LoadState) (r c : Nat) : Int :=
  (s.img_no : Int) * s.result.step + (r : Int) * s.result.image_size.width + (c : Int)

/-- Body of the classification pixel loop (lines 184-198). -/
def classificationPixel (depth_labels ir_preprocessed : Mat) (r c : Nat)
    (s : LoadState) : Except LoadError LoadState :=
  if s.result.train_on_zero then
    match vecSet s.result.labels_ s.label_no (depth_labels.ptr r c) with
    | Except.error e => Except.error e
    | Except.ok labels =>
      Except.ok { s with result := { s.result with labels_ := labels },
                         label_no := s.label_no + 1 }
  else if ir_preprocessed.ptr r c ≠ 0 then
    match vecSet s.result.labels_ s.label_no (depth_labels.ptr r c) with
    | Except.error e => Except.error e
    | Except.ok labels =>
      match vecSet s.result.data_ s.datum_no (flatAddress s r c) with
      | Except.error e => Except.error e
      | Except.ok data =>
        Except.ok { s with result := { s.result with labels_ := labels, data_ := data },
                           label_no := s.label_no + 1, datum_no := s.datum_no + 1 }
  else Except.ok s

/-- Body of the regression pixel loop (lines 215-241). -/
def regressionPixel (class_number : Int) (depth_image depth_labels ir_preprocessed : Mat)
    (r c : Nat) (s : LoadState) : Except LoadError LoadState :=
  if class_number = (depth_labels.ptr r c : Int) ∨ class_number = -1 then
    if s.result.train_on_zero then
      match vecSet s.result.targets_ s.target_no (depth_image.ptr r c) with
      | Except.error e => Except.error e
      | Except.ok targets =>
        if !s.result.low_memory then
          match vecSet s.result.data_ s.datum_no (flatAddress s r c) with
          | Except.error e => Except.error e
          | Except.ok data =>
            Except.ok { s with result := { s.result with targets_ := targets, data_ := data },
                               target_no := s.target_no + 1, datum_no := s.datum_no + 1 }
        else
          Except.ok { s with result := { s.result with targets_ := targets },
                             target_no := s.target_no + 1 }
    else if ir_preprocessed.ptr r c ≠ 0 then
      match vecSet s.result.targets_ s.target_no (depth_image.ptr r c) with
      | Except.error e => Except.error e
      | Except.ok targets =>
        match vecSet s.result.data_ s.datum_no (flatAddress s r c) with
        | Except.error e => Except.error e
        | Except.ok data =>
          Except.ok { s with result := { s.result with targets_ := targets, data_ := data },
                             target_no := s.target_no + 1, datum_no := s.datum_no + 1 }
    else Except.ok s
  else Except.ok s

/-- The two nested pixel loops `for r < depth_size.height, for c <
depth_size.width` (lines 176-244) of one image. -/
def pixelLoops (classification : Bool) (class_number : Int)
    (depth_image depth_labels ir_preprocessed : Mat) (s : LoadState) :
    Except LoadError LoadState :=
  if classification then
    forEachM (fun r s =>
      forEachM (fun c s => classificationPixel depth_labels ir_preprocessed r c s)
        (List.range depth_image.cols) s)
      (List.range depth_image.rows) s
  else
    forEachM (fun r s =>
      forEachM (fun c s =>
        regressionPixel class_number depth_image depth_labels ir_preprocessed r c s)
        (List.range depth_image.cols) s)
      (List.range depth_image.rows) s

/-- Body of the image loop for file index `i` (lines 123-245). A `continue`
returns the state unchanged. -/
def loadImage (U : IPUtils) (progParams : ProgramParameters) (classification : Bool)
    (class_number : Int) (i : Int) (s : LoadState) : Except LoadError LoadState :=
  let ir_image := U.imread i (if progParams.Webcam then PathSuffix.cam_png else PathSuffix.ir_png)
  let depth_image := U.imread i PathSuffix.depth_png
  match ir_image with
  | none => Except.ok s
  | some ir_image =>
    match depth_image with
    | none => Except.ok s
    | some depth_image =>
      if ir_image.type ≠ MatType.CV_8UC1 then Except.error LoadError.unexpected_content_type
      else if depth_image.type ≠ MatType.CV_16UC1 then
        Except.error LoadError.unexpected_content_type
      else if (ir_image.cols, ir_image.rows) ≠ (depth_image.cols, depth_image.rows) then
        Except.error LoadError.size_mismatch
      else
        let depth_labels := createLabelMatrix depth_image s.result.pixelLabels_
        if !progParams.Closeup && U.getTallestBin depth_labels == 1 then Except.ok s
        else
          let ir_preprocessed := U.preProcess ir_image progParams.Threshold
          match vecSet s.result.images_ s.img_no ir_preprocessed with
          | Except.error e => Except.error e
          | Except.ok images =>
            match pixelLoops classification class_number depth_image depth_labels
                ir_preprocessed { s with result := { s.result with images_ := images } } with
            | Except.error e => Except.error e
            | Except.ok s' => Except.ok { s' with img_no := s'.img_no + 1 }

/-- The file indices `first, ..., last` visited by the image loop. -/
def imageIndices (progParams : ProgramParameters) : List Int :=
  (List.range progParams.NumberTrainingImages.toNat).map
    (fun (k : Nat) => progParams.TrainingImagesStart + (k : Int))

/-- The collection as set up before the image loop (lines 55-112), with the
vectors preallocated. -/
def initialCollection (U : IPUtils) (progParams : ProgramParameters) (classification : Bool)
    (class_number : Int) : DataPointCollection :=
  let number := progParams.NumberTrainingImages
  let data_vec_size : Nat :=
    ((number * progParams.ImgHeight * progParams.ImgWidth) % 2 ^ 32).toNat
  let low_memory : Bool :=
    progParams.TrainOnZeroIR && (classification || class_number == -1)
  { dimension_ :=
      if progParams.SplitFunctionType = SplitFunctionDescriptor.PixelDifference then
        progParams.PatchSize * progParams.PatchSize
      else progParams.PatchSize
    depth_raw := progParams.DepthRaw
    image_size := ⟨progParams.ImgWidth, progParams.ImgHeight⟩
    step := progParams.ImgHeight * progParams.ImgWidth
    data_vec_size := data_vec_size
    train_on_zero := progParams.TrainOnZeroIR
    low_memory := low_memory
    data_ := if !low_memory then List.replicate data_vec_size 0 else []
    labels_ := if classification then List.replicate data_vec_size 0 else []
    targets_ := if classification then [] else List.replicate data_vec_size 0
    images_ := List.replicate number.toNat default
    pixelLabels_ :=
      U.generateDepthBinMap true progParams.Bins
        (if progParams.DepthRaw then 65000 else progParams.MR) }

/-- The state on entry to the image loop: the four counters are 0. -/
def initialState (U : IPUtils) (progParams : ProgramParameters) (classification : Bool)
    (class_number : Int) : LoadState :=
  { result := initialCollection U progParams classification class_number,
    img_no := 0, label_no := 0, target_no := 0, datum_no := 0 }

/-- The final trim (lines 248-260). -/
def finalTrim (progParams : ProgramParameters) (s : LoadState) : DataPointCollection :=
  if !s.result.low_memory || !progParams.Closeup then
    { s.result with
      data_ := vecResize s.result.data_ s.datum_no 0
      labels_ := vecResize s.result.labels_ s.label_no 0
      targets_ := vecResize s.result.targets_ s.target_no 0
      images_ := vecResize s.result.images_ s.img_no default }
  else s.result

/-- Source `DataPointCollection::LoadImages` (lines 36-263). -/
def LoadImages (U : IPUtils) (progParams : ProgramParameters) (classification : Bool)
    (class_number : Int) : Except LoadError DataPointCollection :=
  if !U.dirExists progParams.TrainingImagesPath then
    Except.error LoadError.directory_not_found
  else if progParams.PatchSize.tmod 2 = 0 then
    Except.error LoadError.patch_size_even
  else if progParams.NumberTrainingImages < 0 then
    Except.error LoadError.length_error
  else
    match forEachM (loadImage U progParams classification class_number)
        (imageIndices progParams)
        (initialState U progParams classification class_number) with
    | Except.error e => Except.error e
    | Except.ok s => Except.ok (finalTrim progParams s)

/-! ## LoadMat -/

/-- Body of the pixel loop of `LoadMat` (lines 306-314) on the index vector
and `datum_no`; `ir` is `result->images_[0]`. The address `(r * cols) + c`
is computed in `int`. -/
def loadMatPixel (ir : Mat) (cols : Int) (r c : Nat) (s : List Int × Nat) :
    Except LoadError (List Int × Nat) :=
  if ir.ptr r c = 0 then Except.ok s
  else
    match vecSet s.1 s.2 (toInt32 (toInt32 ((r : Int) * cols) + (c : Int))) with
    | Except.error e => Except.error e
    | Except.ok data => Except.ok (data, s.2 + 1)

/-- Source `DataPointCollection::LoadMat` (lines 266-323). The products
`img_size.height * img_size.width` and `rows * cols` are computed in `int`;
a negative `rows * cols` makes `resize` throw. -/
def LoadMat (U : IPUtils) (mat_in : Mat) (img_size : Size) (inc_zero pre_process : Bool)
    (pp_value : Int) : Except LoadError DataPointCollection :=
  if mat_in.type ≠ MatType.CV_8UC1 then Except.error LoadError.incorrect_image_type
  else
    let image0 := if pre_process then U.preProcess mat_in pp_value else mat_in
    let result : DataPointCollection :=
      { DataPointCollection.new with
        dimension_ := 1
        image_size := img_size
        images_ := [image0]
        step := toInt32 (img_size.height * img_size.width) }
    if inc_zero then
      Except.ok { result with
        low_memory := true
        data_vec_size := (toInt32 (img_size.height * img_size.width) % 2 ^ 32).toNat }
    else
      let rows := img_size.height
      let cols := img_size.width
      if toInt32 (rows * cols) < 0 then Except.error LoadError.length_error
      else
        match forEachM (fun r s =>
            forEachM (fun c s => loadMatPixel image0 cols r c s) (List.range cols.toNat) s)
            (List.range rows.toNat) (List.replicate (toInt32 (rows * cols)).toNat 0, 0) with
        | Except.error e => Except.error e
        | Except.ok s =>
          Except.ok { result with low_memory := false, data_ := vecResize s.1 s.2 0 }

/-! ## Reference description of the samples

The lists below describe, in the words of the specification, what a
collection should hold; the theorems compare them with what `LoadImages`
and `LoadMat` compute. -/

/-- The values `val r c` of the pixels `(r, c)` of an image of `rows` by
`cols` pixels for which `keep r c` holds, in raster order. -/
def rasterSelect {α : Type} (rows cols : Nat) (keep : Nat → Nat → Bool)
    (val : Nat → Nat → α) : List α :=
  (List.range rows).flatMap fun r => ((List.range cols).filter (keep r)).map (val r)

/-- The bin table of the configuration. -/
def binTable (U : IPUtils) (progParams : ProgramParameters) : List Int :=
  U.generateDepthBinMap true progParams.Bins
    (if progParams.DepthRaw then 65000 else progParams.MR)

/-- The intensity and depth frames of file index `i`, when both files load. -/
def framePair (U : IPUtils) (progParams : ProgramParameters) (i : Int) : Option (Mat × Mat) :=
  match U.imread i (if progParams.Webcam then PathSuffix.cam_png else PathSuffix.ir_png),
        U.imread i PathSuffix.depth_png with
  | some ir_image, some depth_image => some (ir_image, depth_image)
  | _, _ => none

/-- The format checks on a loaded frame pair: 8-bit single-channel intensity,
16-bit single-channel depth, equal sizes. -/
def pairFormatOk (ir_image depth_image : Mat) : Prop :=
  ir_image.type = MatType.CV_8UC1 ∧ depth_image.type = MatType.CV_16UC1 ∧
  ir_image.cols = depth_image.cols ∧ ir_image.rows = depth_image.rows

/-- The format checks can be evaluated. -/
instance (ir_image depth_image : Mat) : Decidable (pairFormatOk ir_image depth_image) := by
  unfold pairFormatOk
  infer_instance

/-- What is kept of a successfully processed image: the preprocessed
intensity frame, the depth frame and its label frame. -/
structure Retained where
  ir_preprocessed : Mat
  depth_image : Mat
  depth_labels : Mat
  deriving DecidableEq, Repr

/-- The retained image of file index `i`: both files load and the image is
not skipped by the histogram test (which runs when `Closeup` is false and
skips on a tallest bin of 1). -/
def retainedAt (U : IPUtils) (progParams : ProgramParameters) (i : Int) : Option Retained :=
  match framePair U progParams i with
  | none => none
  | some (ir_image, depth_image) =>
    if !progParams.Closeup &&
        U.getTallestBin (createLabelMatrix depth_image (binTable U progParams)) == 1 then none
    else
      some { ir_preprocessed := U.preProcess ir_image progParams.Threshold
             depth_image := depth_image
             depth_labels := createLabelMatrix depth_image (binTable U progParams) }

/-- The retained images of the requested range, in file order. -/
def retainedImages (U : IPUtils) (progParams : ProgramParameters) : List Retained :=
  (imageIndices progParams).filterMap (retainedAt U progParams)

/-- The frame pairs of the requested range that load, in file order. -/
def loadedPairs (U : IPUtils) (progParams : ProgramParameters) : List (Mat × Mat) :=
  (imageIndices progParams).filterMap (framePair U progParams)

/-- What is retained of a loaded frame pair: nothing when the histogram test
skips it. -/
def retainPair (U : IPUtils) (progParams : ProgramParameters) (p : Mat × Mat) :
    Option Retained :=
  if !progParams.Closeup &&
      U.getTallestBin (createLabelMatrix p.2 (binTable U progParams)) == 1 then none
  else
    some { ir_preprocessed := U.preProcess p.1 progParams.Threshold
           depth_image := p.2
           depth_labels := createLabelMatrix p.2 (binTable U progParams) }

/-- Whether pixel `(r, c)` of a retained image is a sample: in regression its
bin label must equal the class selector (or the selector is -1), and in both
modes `train_on_zero` must hold or the preprocessed intensity be nonzero. -/
def sampleIncluded (classification train_on_zero : Bool) (class_number : Int)
    (R : Retained) (r c : Nat) : Bool :=
  (classification || decide (class_number = (R.depth_labels.ptr r c : Int)) ||
    decide (class_number = -1)) &&
  (train_on_zero || R.ir_preprocessed.ptr r c != 0)

/-- Whether the flattened address of pixel `(r, c)` is recorded: the pixel is
a sample and, in classification, `train_on_zero` is false; in regression,
the collection is not low-memory. -/
def addressRecorded (classification train_on_zero low_memory : Bool) (class_number : Int)
    (R : Retained) (r c : Nat) : Bool :=
  sampleIncluded classification train_on_zero class_number R r c &&
  (if classification then !train_on_zero else !low_memory)

/-- The flattened address `image_ordinal * step + row * width + col`. -/
def flatAddr (step width : Int) (k r c : Nat) : Int :=
  (k : Int) * step + (r : Int) * width + (c : Int)

/-- The bin labels of the samples of one retained image (classification). -/
def imageLabels (train_on_zero : Bool) (R : Retained) : List Nat :=
  rasterSelect R.depth_image.rows R.depth_image.cols
    (sampleIncluded true train_on_zero 0 R) R.depth_labels.ptr

/-- The raw depth values of the samples of one retained image (regression). -/
def imageTargets (train_on_zero : Bool) (class_number : Int) (R : Retained) : List Nat :=
  rasterSelect R.depth_image.rows R.depth_image.cols
    (sampleIncluded false train_on_zero class_number R) R.depth_image.ptr

/-- The recorded addresses of the `k`-th retained image. -/
def imageAddresses (classification train_on_zero low_memory : Bool) (class_number : Int)
    (step width : Int) (k : Nat) (R : Retained) : List Int :=
  rasterSelect R.depth_image.rows R.depth_image.cols
    (addressRecorded classification train_on_zero low_memory class_number R)
    (flatAddr step width k)

/-- The recorded addresses of a list of retained images whose first has
ordinal `k`. -/
def corpusAddresses (classification train_on_zero low_memory : Bool) (class_number : Int)
    (step width : Int) (k : Nat) (Rs : List Retained) : List Int :=
  (List.enumFrom k Rs).flatMap fun p =>
    imageAddresses classification train_on_zero low_memory class_number step width p.1 p.2

/-- The value `LoadImages` gives to `low_memory`. -/
def lowMemory (progParams : ProgramParameters) (classification : Bool) (class_number : Int) :
    Bool :=
  progParams.TrainOnZeroIR && (classification || class_number == -1)

/-- The labels of a list of retained images (none in regression). -/
def corpusLabels (classification train_on_zero : Bool) (Rs : List Retained) : List Nat :=
  if classification then Rs.flatMap (imageLabels train_on_zero) else []

/-- The targets of a list of retained images (none in classification). -/
def corpusTargets (classification train_on_zero : Bool) (class_number : Int)
    (Rs : List Retained) : List Nat :=
  if classification then [] else Rs.flatMap (imageTargets train_on_zero class_number)

/-- The sample taken at pixel `(r, c)` of a retained image: its bin label in
classification, its raw depth value in regression. -/
def sampleValue (classification : Bool) (R : Retained) (r c : Nat) : Nat :=
  if classification then R.depth_labels.ptr r c else R.depth_image.ptr r c

/-- The configuration passes the checks made before the image loop and the
preallocation is exact: the directory exists, the patch size is odd, the
image count is not negative and `count * height * width` fits `int`. -/
def ValidConfiguration (U : IPUtils) (progParams : ProgramParameters) : Prop :=
  U.dirExists progParams.TrainingImagesPath = true ∧
  progParams.PatchSize % 2 = 1 ∧
  0 ≤ progParams.NumberTrainingImages ∧
  progParams.NumberTrainingImages * progParams.ImgHeight * progParams.ImgWidth < 2 ^ 31

/-- The configuration check can be evaluated. -/
instance (U : IPUtils) (progParams : ProgramParameters) :
    Decidable (ValidConfiguration U progParams) := by
  unfold ValidConfiguration
  infer_instance

/-- Every frame pair of the requested range that loads passes the format
checks. -/
def FramesWellFormed (U : IPUtils) (progParams : ProgramParameters) : Prop :=
  ∀ i ∈ imageIndices progParams, ∀ p ∈ framePair U progParams i, pairFormatOk p.1 p.2

/-- The format condition on the range can be evaluated. -/
instance (U : IPUtils) (progParams : ProgramParameters) :
    Decidable (FramesWellFormed U progParams) := by
  unfold FramesWellFormed
  infer_instance

/-- Every frame pair of the requested range that loads and passes the format
checks has the configured height and width. -/
def FramesSized (U : IPUtils) (progParams : ProgramParameters) : Prop :=
  ∀ i ∈ imageIndices progParams, ∀ p ∈ framePair U progParams i, pairFormatOk p.1 p.2 →
    (p.2.rows : Int) = progParams.ImgHeight ∧ (p.2.cols : Int) = progParams.ImgWidth

/-- The size condition on the range can be evaluated. -/
instance (U : IPUtils) (progParams : ProgramParameters) :
    Decidable (FramesSized U progParams) := by
  unfold FramesSized
  infer_instance

/-- Whether the final trim runs: not both low-memory and `Closeup`. -/
def trimApplies (progParams : ProgramParameters) (classification : Bool) (class_number : Int) :
    Bool :=
  !lowMemory progParams classification class_number || !progParams.Closeup

/-- The number of nonzero pixels of a frame, counted in its pixel buffer. -/
def nonzeroPixels (m : Mat) : Nat := m.data.countP (fun v => v != 0)

/-- The frame `LoadMat` stores in `images_[0]`: the input frame, preprocessed
when `pre_process` is set. -/
def storedFrame (U : IPUtils) (mat_in : Mat) (pre_process : Bool) (pp_value : Int) : Mat :=
  if pre_process then U.preProcess mat_in pp_value else mat_in

/-- The label array of a classification collection, the target array of a
regression collection. -/
def DataPointCollection.samples (classification : Bool) (d : DataPointCollection) : List Nat :=
  if classification then d.labels_ else d.targets_

/-! ## Collaborator models and sample inputs -/

/-- Modelled from the spec: `IPUtils::getTallestBin`, which is not part of the
given sources, "compute the most populous bin": the label that occurs most
often in the label frame, the smallest such label on a tie (0 for a frame
without pixels). -/
def tallestBin (m : Mat) : Int :=
  ((m.data.foldl
    (fun best v =>
      if m.data.count best < m.data.count v ∨
          (m.data.count best = m.data.count v ∧ v < best) then v else best)
    (m.data.headD 0) : Nat) : Int)

/-- Modelled from the spec: `IPUtils::preProcess`, which is not part of the
given sources, "intensity preprocessing (thresholding)" that "returns a
preprocessed frame of identical size and format": pixels below the threshold
become 0. -/
def thresholdToZero (m : Mat) (threshold : Int) : Mat :=
  { m with data := m.data.map fun (v : Nat) => if (v : Int) < threshold then 0 else v }

/-- A well-formed 8-bit frame of 46341 by 46341 pixels, all of value 1; its
pixel count 2147488281 exceeds the largest `int`. -/
def wideFrame : Mat :=
  ⟨46341, 46341, MatType.CV_8UC1, List.replicate 2147488281 1⟩

/-- Sample collaborators: file index 0 holds a 2 by 2 frame pair, no other
index loads; the bin table is `[0, 1, 2]`. -/
def sampleUtils : IPUtils :=
  { dirExists := fun _ => true
    imread := fun i sfx =>
      if i = 0 then
        match sfx with
        | PathSuffix.depth_png => some ⟨2, 2, MatType.CV_16UC1, [0, 1, 2, 5]⟩
        | _ => some ⟨2, 2, MatType.CV_8UC1, [7, 0, 9, 1]⟩
      else none
    generateDepthBinMap := fun _ _ _ => [0, 1, 2]
    getTallestBin := tallestBin
    preProcess := thresholdToZero }

/-- Sample configuration: two requested images of 2 by 2 pixels from index 0,
patch size 5, no training on zero intensity, histogram test on. -/
def sampleParams : ProgramParameters :=
  { InputPrefix := "img", TrainingImagesPath := "train/", ImgWidth := 2, ImgHeight := 2,
    PatchSize := 5, NumberTrainingImages := 2, TrainingImagesStart := 0,
    SplitFunctionType := SplitFunctionDescriptor.PixelDifference, DepthRaw := false,
    TrainOnZeroIR := false, Bins := 3, MR := 2, Webcam := false, Closeup := false,
    Threshold := 0 }

/-- The sample configuration with training on zero intensity and `Closeup`
set, so that the collection is low-memory and the final trim is skipped. -/
def sampleParamsUntrimmed : ProgramParameters :=
  { sampleParams with TrainOnZeroIR := true, Closeup := true }

/-- The sample configuration for the hyperplane feature family. -/
def sampleParamsHyperplane : ProgramParameters :=
  { sampleParams with SplitFunctionType := SplitFunctionDescriptor.other }

/-- The sample configuration with `2 ^ 30` requested images, for which
`count * height * width` is `2 ^ 32` and `data_vec_size` is 0. -/
def sampleParamsOverflow : ProgramParameters :=
  { sampleParams with NumberTrainingImages := 1073741824 }

/-- The sample collaborators with every file index shifted by 5: index 5
holds the frame pair, no other index loads. -/
def shiftedUtils : IPUtils :=
  { sampleUtils with imread := fun i sfx => sampleUtils.imread (i - 5) sfx }

/-- The sample configuration for one image at file index 5. -/
def shiftedParams : ProgramParameters :=
  { sampleParams with NumberTrainingImages := 1, TrainingImagesStart := 5 }

/-- The sample configuration with a configured size of 1 by 1 pixel, smaller
than the 2 by 2 frames of the sample collaborators. -/
def sampleParamsSmall : ProgramParameters :=
  { sampleParams with ImgWidth := 1, ImgHeight := 1 }

/-- The sample configuration with the even patch size 4. -/
def sampleParamsEven : ProgramParameters :=
  { sampleParams with PatchSize := 4 }

/-- Sample collaborators whose depth frame at index 0 is all zero, so that
every label is 0 and the tallest bin is 0. -/
def backgroundUtils : IPUtils :=
  { sampleUtils with
    imread := fun i sfx =>
      if i = 0 then
        match sfx with
        | PathSuffix.depth_png => some ⟨2, 2, MatType.CV_16UC1, [0, 0, 0, 0]⟩
        | _ => some ⟨2, 2, MatType.CV_8UC1, [7, 0, 9, 1]⟩
      else none }

/-- Sample collaborators whose depth frame at index 0 is 8-bit, which fails
the format check. -/
def malformedUtils : IPUtils :=
  { sampleUtils with
    imread := fun i sfx =>
      if i = 0 then
        match sfx with
        | PathSuffix.depth_png => some ⟨2, 2, MatType.CV_8UC1, [0, 1, 2, 5]⟩
        | _ => some ⟨2, 2, MatType.CV_8UC1, [7, 0, 9, 1]⟩
      else none }

/-- The collection `LoadImages` returns for the sample inputs in
classification mode. -/
def sampleCollection : DataPointCollection :=
  { dimension_ := 25, depth_raw := false, image_size := ⟨2, 2⟩, step := 4,
    data_vec_size := 8, train_on_zero := false, low_memory := false,
    data_ := [0, 2, 3], labels_ := [0, 2, 0], targets_ := [],
    images_ := [⟨2, 2, MatType.CV_8UC1, [7, 0, 9, 1]⟩], pixelLabels_ := [0, 1, 2] }

/-! ## Loop bookkeeping -/

/-- The scalar members of a collection (its four vectors blanked). -/
def DataPointCollection.header (d : DataPointCollection) : DataPointCollection :=
  { d with data_ := [], labels_ := [], targets_ := [], images_ := [] }

/-- Vector `v` with counter `n` became `v'` with counter `n'` by writing the
elements `xs` at the positions `n, n + 1, ...`: the filled part grew by `xs`,
the allocated length did not change and nothing past the new counter was
touched. -/
def Appended {α : Type} (v : List α) (n : Nat) (v' : List α) (n' : Nat) (xs : List α) : Prop :=
  n' = n + xs.length ∧ v'.length = v.length ∧ v'.take n' = v.take n ++ xs ∧
  v'.drop n' = v.drop n'

/-- State `s` became `s'` by storing the images `I`, labels `L`, targets `T`
and addresses `D`, leaving the scalar members alone. -/
structure Progress (s s' : LoadState) (I : List Mat) (L T : List Nat) (D : List Int) :
    Prop where
  header : s'.result.header = s.result.header
  images : Appended s.result.images_ s.img_no s'.result.images_ s'.img_no I
  labels : Appended s.result.labels_ s.label_no s'.result.labels_ s'.label_no L
  targets : Appended s.result.targets_ s.target_no s'.result.targets_ s'.target_no T
  data : Appended s.result.data_ s.datum_no s'.result.data_ s'.datum_no D

/-- The vectors of `s` have room for `nI` more images, `nL` more labels, `nT`
more targets and `nD` more addresses. -/
structure Room (s : LoadState) (nI nL nT nD : Nat) : Prop where
  images : s.img_no + nI ≤ s.result.images_.length
  labels : s.label_no + nL ≤ s.result.labels_.length
  targets : s.target_no + nT ≤ s.result.targets_.length
  data : s.datum_no + nD ≤ s.result.data_.length

/-- The vectors of `s` that the mode allocates have room for `n` more images
of `hw` pixels each. -/
def Capacity (classification : Bool) (s : LoadState) (n hw : Nat) : Prop :=
  s.img_no + n ≤ s.result.images_.length ∧
  s.label_no + (if classification then n * hw else 0) ≤ s.result.labels_.length ∧
  s.target_no + (if classification then 0 else n * hw) ≤ s.result.targets_.length ∧
  s.datum_no + (if s.result.low_memory then 0 else n * hw) ≤ s.result.data_.length

/-- The vectors of `s` have the lengths `nI`, `nL`, `nT`, `nD` and no counter
is past the length of its vector. -/
def CountersWithin (s : LoadState) (nI nL nT nD : Nat) : Prop :=
  s.result.images_.length = nI ∧ s.result.labels_.length = nL ∧
  s.result.targets_.length = nT ∧ s.result.data_.length = nD ∧
  s.img_no ≤ nI ∧ s.label_no ≤ nL ∧ s.target_no ≤ nT ∧ s.datum_no ≤ nD

/-- The index counter tracks the label counter (classification) or the target
counter (regression) whenever the collection is not low-memory, and
`low_memory` is as `LoadImages` sets it. -/
def CountersAgree (classification : Bool) (class_number : Int) (s : LoadState) : Prop :=
  s.result.low_memory = (s.result.train_on_zero && (classification || class_number == -1)) ∧
  (s.result.low_memory = false →
    s.datum_no = if classification then s.label_no else s.target_no)

/-! ## Feature response functions

A shallow embedding of `FeatureResponseFunctions.h`. The random source
`Random` (its header is not among the sources) is a state with the two draws
the file uses; every function that draws returns the new state. A `double`
or `float` is a dyadic rational. The offset bounds are computed exactly;
`randn` rounds the result of every operation to its format. `sqrt` and the
Box-Muller factor `sqrt(-2 * log(w) / w)` come from the C library and are
parameters. -/

/-- A `double` or `float` value `num / 2 ^ exp`. -/
structure Dyadic where
  num : Int
  exp : Nat
  deriving DecidableEq, Repr

/-- The value `2 * x`. -/
def Dyadic.twice (x : Dyadic) : Dyadic := ⟨2 * x.num, x.exp⟩

/-- The value `x - 1`. -/
def Dyadic.subOne (x : Dyadic) : Dyadic := ⟨x.num - 2 ^ x.exp, x.exp⟩

/-- The value `x / 2`. -/
def Dyadic.half (x : Dyadic) : Dyadic := ⟨x.num, x.exp + 1⟩

/-- The value `x * y`. -/
def Dyadic.mul (x y : Dyadic) : Dyadic := ⟨x.num * y.num, x.exp + y.exp⟩

/-- The value `x + y`. -/
def Dyadic.add (x y : Dyadic) : Dyadic :=
  ⟨x.num * 2 ^ y.exp + y.num * 2 ^ x.exp, x.exp + y.exp⟩

/-- The test `x == 0`. -/
def Dyadic.isZero (x : Dyadic) : Bool := x.num == 0

/-- The test `x > 1`. -/
def Dyadic.gtOne (x : Dyadic) : Bool := decide ((2 : Int) ^ x.exp < x.num)

/-- The integer `ceil(x)`. -/
def Dyadic.ceil (x : Dyadic) : Int := -((-x.num) / 2 ^ x.exp)

/-- The conversion `(int)x`, which truncates toward zero. -/
def Dyadic.toInt (x : Dyadic) : Int :=
  if 0 ≤ x.num then x.num / 2 ^ x.exp else -((-x.num) / 2 ^ x.exp)

/-- A `cv::Point`. -/
structure Point where
  x : Int
  y : Int
  deriving DecidableEq, Repr

/-- The random source: `Next(lb, ub)` and `NextDouble()` on a state `σ`. -/
structure Random (σ : Type) where
  Next : Int → Int → σ → Int × σ
  NextDouble : σ → Dyadic × σ

/-- The contract of `Next` the specification states: the result lies in the
closed range `[lb, ub]`. -/
def Random.ClosedRange {σ : Type} (random : Random σ) : Prop :=
  ∀ (lb ub : Int) (s : σ), lb ≤ ub → lb ≤ (random.Next lb ub s).1 ∧ (random.Next lb ub s).1 ≤ ub

/-- The state after one call `Next(lb, ub)`. -/
def Random.afterNext {σ : Type} (random : Random σ) (lb ub : Int) (s : σ) : σ :=
  (random.Next lb ub s).2

/-- What a correctly rounded `sqrt` guarantees on an unsigned 32-bit argument
`d`: the double it returns compares with every natural number `k` as the real
square root of `d` does (the root is `k` itself or lies strictly between two
consecutive integers, and rounding does not reach them). -/
def SqrtFaithful (sqrt : Nat → Dyadic) : Prop :=
  ∀ d k : Nat,
    (((k : Int) * 2 ^ (sqrt d).exp ≤ (sqrt d).num) ↔ k * k ≤ d) ∧
    (((sqrt d).num ≤ (k : Int) * 2 ^ (sqrt d).exp) ↔ d ≤ k * k)

/-- The expression `cv::Point(random.Next(lb, ub), random.Next(lb, ub))`. The
order in which the two arguments are evaluated is chosen by the compiler:
`xFirst` tells whether the first draw becomes `x`. -/
def drawPoint {σ : Type} (xFirst : Bool) (random : Random σ) (lb ub : Int) (s : σ) :
    Point × σ :=
  let a := random.Next lb ub s
  let b := random.Next lb ub a.2
  if xFirst then (⟨a.1, b.1⟩, b.2) else (⟨b.1, a.1⟩, b.2)

/-- The number of binary digits of `n` (0 for 0); `fuel` bounds the number
of digits. -/
def bitLength : Nat → Nat → Nat
  | 0, _ => 0
  | fuel + 1, n => if n = 0 then 0 else bitLength fuel (n / 2) + 1

/-- Rounding of the exact value `x` to a binary floating-point format with
`prec` significant bits and least positive value `2 ^ (-minExp)`: the
nearest value of the format, the one with an even significand on a tie (the
IEEE 754 default). `2 ^ e` is the leading bit of `x` and `2 ^ t` the spacing
of the format around `x`. Overflow to infinity is left out: the values
`randn` tests are at most 2 in magnitude. -/
def roundNearestEven (prec minExp : Nat) (x : Dyadic) : Dyadic :=
  let a := x.num.natAbs
  if a = 0 then x
  else
    let e : Int := (bitLength a a : Int) - 1 - (x.exp : Int)
    let t : Int := max (e - (prec : Int) + 1) (-(minExp : Int))
    let shift : Int := t + (x.exp : Int)
    if shift ≤ 0 then x
    else
      let k := shift.toNat
      let m := a / 2 ^ k
      let r := a % 2 ^ k
      let m' := if 2 * r < 2 ^ k then m
        else if 2 * r = 2 ^ k then (if m % 2 = 0 then m else m + 1) else m + 1
      let signed : Int := if x.num < 0 then -(m' : Int) else (m' : Int)
      if 0 ≤ t then ⟨signed * 2 ^ t.toNat, 0⟩ else ⟨signed, (-t).toNat⟩

/-- The floating-point arithmetic of the platform: the `double` and the
`float` to which the exact result of an operation is rounded. -/
structure FloatRounding where
  toDouble : Dyadic → Dyadic
  toFloat : Dyadic → Dyadic

/-- IEEE 754 arithmetic: `double` is binary64 (53 bits, least value
`2 ^ (-1074)`), `float` is binary32 (24 bits, least value `2 ^ (-149)`),
both rounded to nearest even. -/
def ieeeRounding : FloatRounding :=
  { toDouble := roundNearestEven 53 1074, toFloat := roundNearestEven 24 149 }

/-- Source `randn` (FeatureResponseFunctions.h lines 29-40). The recursion
depth available to the run is `depth`; `none` means that it was used up.
`2 * NextDouble() - 1` is computed in `double` and stored in a `float`;
`u * u + v * v` and `u * x` are computed in `float`. `boxMuller w` is the
`float x = sqrt(-2 * log(w) / w)`. -/
def randn {σ : Type} (fp : FloatRounding) (boxMuller : Dyadic → Dyadic) (random : Random σ) :
    Nat → σ → Option (Dyadic × σ)
  | 0, _ => none
  | depth + 1, s =>
    let d1 := random.NextDouble s
    let u := fp.toFloat (fp.toDouble (fp.toDouble d1.1.twice).subOne)
    let d2 := random.NextDouble d1.2
    let v := fp.toFloat (fp.toDouble (fp.toDouble d2.1.twice).subOne)
    let w := fp.toFloat ((fp.toFloat (u.mul u)).add (fp.toFloat (v.mul v)))
    if w.isZero || w.gtOne then randn fp boxMuller random depth d2.2
    else some (fp.toFloat (u.mul (boxMuller w)), d2.2)

/-- Class `RandomHyperplaneFeatureResponse`. -/
structure RandomHyperplaneFeatureResponse where
  offset : List Point
  dimensions : Nat
  deriving DecidableEq, Repr

/-- The default constructor (lines 52-54). -/
def RandomHyperplaneFeatureResponse.new : RandomHyperplaneFeatureResponse :=
  { offset := [], dimensions := 0 }

/-- The bound `(int)((sqrt(dimensions) - 1) / 2)` (line 66). -/
def hyperplaneBound (sqrt : Nat → Dyadic) (dimensions : Nat) : Int :=
  (sqrt dimensions).subOne.half.toInt

/-- The randomized constructor (lines 60-72): `offset.resize(dimensions)`,
then one drawn point per index. -/
def RandomHyperplaneFeatureResponse.newRandom {σ : Type} (sqrt : Nat → Dyadic)
    (xFirst : Bool) (random : Random σ) (s : σ) (dimensions : Nat) :
    RandomHyperplaneFeatureResponse × σ :=
  let offset : List Point := List.replicate dimensions ⟨0, 0⟩
  let ub : Int := hyperplaneBound sqrt dimensions
  let lb : Int := 0 - ub
  let filled :=
    forRange dimensions (fun c (st : List Point × σ) =>
      let p := drawPoint xFirst random lb ub st.2
      (st.1.set c p.1, p.2)) (offset, s)
  ({ offset := filled.1, dimensions := dimensions }, filled.2)

/-- Class `PixelSubtractionResponse`. -/
structure PixelSubtractionResponse where
  offset_0 : Point
  offset_1 : Point
  dimensions : Nat
  deriving DecidableEq, Repr

/-- The default constructor (lines 94-98). -/
def PixelSubtractionResponse.new : PixelSubtractionResponse :=
  { offset_0 := ⟨0, 0⟩, offset_1 := ⟨0, 0⟩, dimensions := 0 }

/-- The bound `(int)ceil(sqrt(dimensions) / 2)` (line 108). -/
def pixelSubtractionBound (sqrt : Nat → Dyadic) (dimensions : Nat) : Int :=
  (sqrt dimensions).half.ceil

/-- The randomized constructor (lines 103-113). -/
def PixelSubtractionResponse.newRandom {σ : Type} (sqrt : Nat → Dyadic) (xFirst : Bool)
    (random : Random σ) (s : σ) (dimensions : Nat) : PixelSubtractionResponse × σ :=
  let ub : Int := pixelSubtractionBound sqrt dimensions
  let lb : Int := 0 - ub
  let p0 := drawPoint xFirst random lb ub s
  let p1 := drawPoint xFirst random lb ub p0.2
  ({ offset_0 := p0.1, offset_1 := p1.1, dimensions := dimensions }, p1.2)

/-- Modelled from the spec: `RandomHyperplaneFeatureResponse::GetResponse`,
declared in the header and defined outside the given sources, "Response = sum
of intensity values at `sample_pixel + offset` over all offsets";
`intensity data index offset` is the collection's intensity at the pixel of
sample `index` displaced by `offset`. -/
def RandomHyperplaneFeatureResponse.GetResponse
    (intensity : DataPointCollection → Nat → Point → Int)
    (f : RandomHyperplaneFeatureResponse) (data : DataPointCollection) (index : Nat) : Int :=
  (f.offset.map (intensity data index)).sum

/-- Modelled from the spec: `PixelSubtractionResponse::GetResponse`, declared
in the header and defined outside the given sources, "Response = intensity at
`sample_pixel + offset0` minus intensity at `sample_pixel + offset1`". -/
def PixelSubtractionResponse.GetResponse
    (intensity : DataPointCollection → Nat → Point → Int)
    (f : PixelSubtractionResponse) (data : DataPointCollection) (index : Nat) : Int :=
  intensity data index f.offset_0 - intensity data index f.offset_1

/-- Two random sources give the same outputs from states related by `R`:
related states answer every `Next(lb, ub)` alike and stay related. -/
def SameOutputs {σ₁ σ₂ : Type} (random₁ : Random σ₁) (random₂ : Random σ₂)
    (R : σ₁ → σ₂ → Prop) : Prop :=
  ∀ s₁ s₂, R s₁ s₂ → ∀ lb ub : Int,
    (random₁.Next lb ub s₁).1 = (random₂.Next lb ub s₂).1 ∧
    R (random₁.Next lb ub s₁).2 (random₂.Next lb ub s₂).2

/-- The state after the two `NextDouble` calls of one attempt of `randn`. -/
def Random.afterPair {σ : Type} (random : Random σ) (s : σ) : σ :=
  (random.NextDouble (random.NextDouble s).2).2

/-- The `float u` of the attempt of `randn` that starts in state `s`. -/
def attemptU {σ : Type} (fp : FloatRounding) (random : Random σ) (s : σ) : Dyadic :=
  fp.toFloat (fp.toDouble (fp.toDouble (random.NextDouble s).1.twice).subOne)

/-- The `float v` of the attempt of `randn` that starts in state `s`. -/
def attemptV {σ : Type} (fp : FloatRounding) (random : Random σ) (s : σ) : Dyadic :=
  fp.toFloat (fp.toDouble
    (fp.toDouble (random.NextDouble (random.NextDouble s).2).1.twice).subOne)

/-- The `float w = u * u + v * v` of the attempt of `randn` that starts in
state `s`. -/
def attemptW {σ : Type} (fp : FloatRounding) (random : Random σ) (s : σ) : Dyadic :=
  fp.toFloat
    ((fp.toFloat ((attemptU fp random s).mul (attemptU fp random s))).add
      (fp.toFloat ((attemptV fp random s).mul (attemptV fp random s))))

/-- Whether the attempt that starts in state `s` is rejected: `w == 0 || w > 1`. -/
def attemptRejected {σ : Type} (fp : FloatRounding) (random : Random σ) (s : σ) : Bool :=
  (attemptW fp random s).isZero || (attemptW fp random s).gtOne

/-! ## Sample collaborators of the feature responses -/

/-- The largest `n ≤ bound` with `n * n ≤ d` (0 when there is none above 0). -/
def isqrtBelow (d : Nat) : Nat → Nat
  | 0 => 0
  | bound + 1 => if (bound + 1) * (bound + 1) ≤ d then bound + 1 else isqrtBelow d bound

/-- A faithful `sqrt`: the exact root of a perfect square, and `n + 1/2`
between the consecutive squares `n * n` and `(n + 1) * (n + 1)`. -/
def sampleSqrt (d : Nat) : Dyadic :=
  if isqrtBelow d d * isqrtBelow d d = d then ⟨(isqrtBelow d d : Int), 0⟩
  else ⟨2 * (isqrtBelow d d : Int) + 1, 1⟩

/-- A random source that always returns the upper bound, and 1/2 as double. -/
def upperSource : Random Unit :=
  { Next := fun _ ub s => (ub, s), NextDouble := fun s => (⟨1, 1⟩, s) }

/-- A random source whose state counts the calls; `Next` returns the lower
bound, `NextDouble` returns 3/4. -/
def countingSource : Random Nat :=
  { Next := fun lb _ s => (lb, s + 1), NextDouble := fun s => (⟨3, 2⟩, s + 1) }

/-- A random source whose state counts the calls; call number `s` of `Next`
returns `lb + s mod (ub - lb + 1)`, so successive draws differ. -/
def cyclingSource : Random Nat :=
  { Next := fun lb ub s => (lb + (s : Int) % (ub - lb + 1), s + 1)
    NextDouble := fun s => (⟨1, 1⟩, s + 1) }

/-- A random source whose `NextDouble` is constantly 0. -/
def zeroSource : Random Unit :=
  { Next := fun lb _ s => (lb, s), NextDouble := fun s => (⟨0, 0⟩, s) }

/-- A random source whose state counts the calls; `NextDouble` returns 0 on
the first two calls and 3/4 from then on. -/
def retrySource : Random Nat :=
  { Next := fun lb _ s => (lb, s + 1)
    NextDouble := fun s => (if s < 2 then ⟨0, 0⟩ else ⟨3, 2⟩, s + 1) }

/-- A random source whose state counts the calls; `NextDouble` returns 0 on
the even calls and `1/2 + 2 ^ (-21)` on the odd ones. -/
def boundarySource : Random Nat :=
  { Next := fun lb _ s => (lb, s + 1)
    NextDouble := fun s => (if s % 2 = 0 then ⟨0, 0⟩ else ⟨1048577, 21⟩, s + 1) }

/-! # Theorems -/

/-! ## Depth binning -/

/-- Unrolling the last iteration of a pure loop. -/
theorem forRange_succ {σ : Type} (n : Nat) (body : Nat → σ → σ) (init : σ) :
    forRange (n + 1) body init = body n (forRange n body init) := by
  simp [forRange, List.range_succ, List.foldl_append]

/-- A pure loop over no index returns its initial state. -/
theorem forRange_zero {σ : Type} (body : Nat → σ → σ) (init : σ) :
    forRange 0 body init = init := rfl

/-- One row of a raster fill only changes the cells of that row. -/
theorem rowFill_spec {α : Type} (w r : Nat) (f : Nat → α) (C : Nat) (buf : List α) :
    (forRange C (fun c b => b.set (r * w + c) (f c)) buf).length = buf.length ∧
    ∀ i, (forRange C (fun c b => b.set (r * w + c) (f c)) buf)[i]? =
      if r * w ≤ i ∧ i < r * w + C ∧ i < buf.length then some (f (i - r * w)) else buf[i]? := by
  induction C with
  | zero =>
    refine ⟨rfl, fun i => ?_⟩
    rw [forRange_zero]
    have : ¬ (r * w ≤ i ∧ i < r * w + 0 ∧ i < buf.length) := by omega
    rw [if_neg this]
  | succ C ih =>
    rw [forRange_succ]
    obtain ⟨hl, hg⟩ := ih
    refine ⟨by simp [hl], fun i => ?_⟩
    rw [List.getElem?_set, hg i, hl]
    by_cases h1 : r * w + C = i
    · subst h1
      by_cases h2 : r * w + C < buf.length
      · simp [h2]
      · simp [h2]
        omega
    · rw [if_neg h1]
      by_cases h3 : r * w ≤ i ∧ i < r * w + C ∧ i < buf.length
      · rw [if_pos h3, if_pos (by omega)]
      · rw [if_neg h3, if_neg (by omega)]

/-- A raster fill assigns every cell of an `h` by `w` buffer. -/
theorem rasterFill_spec {α : Type} (h w : Nat) (f : Nat → Nat → α) (buf : List α)
    (hlen : buf.length = h * w) (R : Nat) (hR : R ≤ h) :
    (forRange R (fun r b => forRange w (fun c b => b.set (r * w + c) (f r c)) b) buf).length
      = h * w ∧
    ∀ r c, r < R → c < w →
      (forRange R (fun r b => forRange w (fun c b => b.set (r * w + c) (f r c)) b) buf)[r * w + c]?
        = some (f r c) := by
  induction R with
  | zero => exact ⟨hlen, fun r c hr => absurd hr (Nat.not_lt_zero r)⟩
  | succ R ih =>
    obtain ⟨hl, hg⟩ := ih (by omega)
    rw [forRange_succ]
    obtain ⟨hl2, hg2⟩ := rowFill_spec w R (f R) w
      (forRange R (fun r b => forRange w (fun c b => b.set (r * w + c) (f r c)) b) buf)
    refine ⟨by rw [hl2, hl], fun r c hr hc => ?_⟩
    rw [hg2, hl]
    have hRw : R * w + w ≤ h * w := by
      have := Nat.mul_le_mul_right w (show R + 1 ≤ h from hR)
      rw [Nat.add_mul, Nat.one_mul] at this
      exact this
    by_cases hrR : r = R
    · subst hrR
      rw [if_pos (by omega)]
      congr 2
      omega
    · have hlt : r < R := by omega
      have h1 : r * w + w ≤ R * w := by
        have := Nat.mul_le_mul_right w (show r + 1 ≤ R from hlt)
        rw [Nat.add_mul, Nat.one_mul] at this
        exact this
      rw [if_neg (by omega)]
      exact hg r c hlt hc

/-- Conversion to `int` is exact on the `int` range. -/
theorem toInt32_of_small (x : Int) (h0 : -2 ^ 31 ≤ x) (h1 : x < 2 ^ 31) : toInt32 x = x := by
  unfold toInt32
  omega

/-- The buffer of `createLabelMatrix` as a raster fill. -/
theorem createLabelMatrix_data (D : Mat) (T : List Int) :
    (createLabelMatrix D T).data =
      forRange D.rows (fun r b => forRange D.cols (fun c b => b.set (r * D.cols + c)
        (if (D.ptr r c : Int) ≤ toInt32 (((T.length : Int) - 1) % 2 ^ 64)
          then toUchar (T.getD (D.ptr r c) 0) else 0)) b)
        (List.replicate (D.rows * D.cols) 0) := by
  unfold createLabelMatrix
  simp only
  congr 1
  funext r b
  congr 1
  funext c b
  split <;> simp_all

/-- The pixel that `createLabelMatrix` stores at `(r, c)`, as the source computes it. -/
theorem createLabelMatrix_ptr (D : Mat) (T : List Int) (r c : Nat) (hr : r < D.rows)
    (hc : c < D.cols) :
    (createLabelMatrix D T).ptr r c =
      if (D.ptr r c : Int) ≤ toInt32 (((T.length : Int) - 1) % 2 ^ 64)
        then toUchar (T.getD (D.ptr r c) 0) else 0 := by
  have h := (rasterFill_spec D.rows D.cols
    (fun r c => if (D.ptr r c : Int) ≤ toInt32 (((T.length : Int) - 1) % 2 ^ 64)
        then toUchar (T.getD (D.ptr r c) 0) else 0)
    (List.replicate (D.rows * D.cols) 0) (by simp) D.rows (le_refl _)).2 r c hr hc
  unfold Mat.ptr
  rw [List.getD_eq_getElem?_getD, createLabelMatrix_data]
  have hcols : (createLabelMatrix D T).cols = D.cols := rfl
  rw [hcols, h]
  rfl

/-- C1 (as amended): for every depth frame `D` and every table `T` of at most
`2 ^ 31` entries (the empty table included), `createLabelMatrix` returns a
frame of the height and width of `D` whose label at pixel `(r, c)` is
`T[D[r, c]]` reduced modulo 256 (the 8-bit store) when `D[r, c] < len T`, and
0 otherwise. -/
theorem createLabelMatrix_lookup (D : Mat) (T : List Int) (r c : Nat)
    (hT : T.length ≤ 2 ^ 31) (hr : r < D.rows) (hc : c < D.cols) :
    (createLabelMatrix D T).rows = D.rows ∧ (createLabelMatrix D T).cols = D.cols ∧
    (createLabelMatrix D T).type = MatType.CV_8UC1 ∧
    (((createLabelMatrix D T).ptr r c : Nat) : Int) =
      if D.ptr r c < T.length then T.getD (D.ptr r c) 0 % 256 else 0 := by
  refine ⟨rfl, rfl, rfl, ?_⟩
  rw [createLabelMatrix_ptr D T r c hr hc]
  have hm : toInt32 (((T.length : Int) - 1) % 2 ^ 64) = (T.length : Int) - 1 := by
    by_cases h0 : T.length = 0
    · rw [h0]; decide
    · have h1 : (1 : Int) ≤ (T.length : Int) := by omega
      have h2 : ((T.length : Int) - 1) % 2 ^ 64 = (T.length : Int) - 1 := by
        apply Int.emod_eq_of_lt <;> omega
      rw [h2]
      apply toInt32_of_small <;> omega
  rw [hm]
  by_cases hd : D.ptr r c < T.length
  · rw [if_pos hd, if_pos (by omega)]
    unfold toUchar
    exact Int.toNat_of_nonneg (Int.emod_nonneg _ (by decide))
  · rw [if_neg hd, if_neg (by omega)]
    rfl

/-- Witness for C1: a 2 by 2 frame, a three-entry table, pixel `(1, 0)`. -/
theorem createLabelMatrix_lookup_witness :
    (createLabelMatrix ⟨2, 2, MatType.CV_16UC1, [0, 1, 2, 5]⟩ [0, 1, 258]).rows = 2 ∧
    (createLabelMatrix ⟨2, 2, MatType.CV_16UC1, [0, 1, 2, 5]⟩ [0, 1, 258]).cols = 2 ∧
    (createLabelMatrix ⟨2, 2, MatType.CV_16UC1, [0, 1, 2, 5]⟩ [0, 1, 258]).type
      = MatType.CV_8UC1 ∧
    (((createLabelMatrix ⟨2, 2, MatType.CV_16UC1, [0, 1, 2, 5]⟩ [0, 1, 258]).ptr 1 0 : Nat) : Int)
      = if Mat.ptr ⟨2, 2, MatType.CV_16UC1, [0, 1, 2, 5]⟩ 1 0 < ([0, 1, 258] : List Int).length
        then ([0, 1, 258] : List Int).getD (Mat.ptr ⟨2, 2, MatType.CV_16UC1, [0, 1, 2, 5]⟩ 1 0) 0
          % 256
        else 0 :=
  createLabelMatrix_lookup ⟨2, 2, MatType.CV_16UC1, [0, 1, 2, 5]⟩ [0, 1, 258] 1 0
    (by decide) (by decide) (by decide)

/-- C1 (as stated) fails: with the one-entry table `[256]` and the one-pixel
frame `[0]` the depth is below the table length, yet the stored label is 0
and not `T[D[p]] = 256`. -/
theorem createLabelMatrix_lookup_counterexample :
    ¬ ((((createLabelMatrix ⟨1, 1, MatType.CV_16UC1, [0]⟩ [256]).ptr 0 0 : Nat) : Int) =
      if Mat.ptr ⟨1, 1, MatType.CV_16UC1, [0]⟩ 0 0 < ([256] : List Int).length
      then ([256] : List Int).getD (Mat.ptr ⟨1, 1, MatType.CV_16UC1, [0]⟩ 0 0) 0 else 0) := by
  decide

/-! ## Loop lemmas -/

/-- Writing nothing leaves a vector and its counter as they are. -/
theorem appended_refl {α : Type} (v : List α) (n : Nat) : Appended v n v n [] := by
  simp [Appended]

/-- Two runs of writes compose into one. -/
theorem appended_trans {α : Type} {v v' v'' : List α} {n n' n'' : Nat} {xs ys : List α}
    (h1 : Appended v n v' n' xs) (h2 : Appended v' n' v'' n'' ys) :
    Appended v n v'' n'' (xs ++ ys) := by
  obtain ⟨a1, b1, c1, d1⟩ := h1
  obtain ⟨a2, b2, c2, d2⟩ := h2
  refine ⟨?_, by rw [b2, b1], ?_, ?_⟩
  · rw [a2, a1, List.length_append, Nat.add_assoc]
  · rw [c2, c1, List.append_assoc]
  · rw [d2]
    have h := congrArg (List.drop ys.length) d1
    rw [List.drop_drop, List.drop_drop] at h
    rw [a2]
    exact h

/-- One in-bounds write at the counter appends one element to the filled part. -/
theorem appended_write {α : Type} (v : List α) (n : Nat) (x : α) (h : n < v.length) :
    Appended v n (v.set n x) (n + 1) [x] := by
  refine ⟨rfl, by simp, ?_, ?_⟩
  · rw [List.take_succ, List.getElem?_set_self h, List.set_take]
    simp [List.set_eq_of_length_le]
  · rw [List.drop_set_of_lt _ _ (Nat.lt_succ_self n)]

/-- A run that writes nothing changes neither the vector nor the counter. -/
theorem appended_eq_of_nil {α : Type} {v v' : List α} {n n' : Nat}
    (h : Appended v n v' n' []) : n' = n ∧ v' = v := by
  obtain ⟨a, _, c, d⟩ := h
  have hn : n' = n := by simpa using a
  subst hn
  refine ⟨rfl, ?_⟩
  rw [← List.take_append_drop n' v', c, d, List.append_nil, List.take_append_drop]

/-- A write below the length succeeds. -/
theorem vecSet_ok {α : Type} (v : List α) (n : Nat) (x : α) (h : n < v.length) :
    vecSet v n x = Except.ok (v.set n x) := by
  simp [vecSet, h]

/-- A state is its own successor when nothing is stored. -/
theorem progress_refl (s : LoadState) : Progress s s [] [] [] [] :=
  ⟨rfl, appended_refl _ _, appended_refl _ _, appended_refl _ _, appended_refl _ _⟩

/-- Progress composes. -/
theorem progress_trans {s s' s'' : LoadState} {I I' : List Mat} {L L' T T' : List Nat}
    {D D' : List Int} (h1 : Progress s s' I L T D) (h2 : Progress s' s'' I' L' T' D') :
    Progress s s'' (I ++ I') (L ++ L') (T ++ T') (D ++ D') :=
  ⟨h2.header.trans h1.header, appended_trans h1.images h2.images,
    appended_trans h1.labels h2.labels, appended_trans h1.targets h2.targets,
    appended_trans h1.data h2.data⟩

/-- Progress that stores no image keeps `img_no`. -/
theorem progress_img_no_eq {s s' : LoadState} {L T : List Nat} {D : List Int}
    (h : Progress s s' [] L T D) : s'.img_no = s.img_no := h.images.1

/-- A loop whose body stores `eL i`, `eT i`, `eD i` at index `i` stores their
concatenation, provided the vectors have room for all of it. -/
theorem forEachM_progress {ι : Type} (body : ι → LoadState → Except LoadError LoadState)
    (eL eT : ι → List Nat) (eD : ι → List Int) (s0 : LoadState)
    (hbody : ∀ i s, s.result.header = s0.result.header → s.img_no = s0.img_no →
      Room s 0 (eL i).length (eT i).length (eD i).length →
      ∃ s', body i s = Except.ok s' ∧ Progress s s' [] (eL i) (eT i) (eD i)) :
    ∀ (xs : List ι) (s : LoadState), s.result.header = s0.result.header →
      s.img_no = s0.img_no →
      Room s 0 (xs.flatMap eL).length (xs.flatMap eT).length (xs.flatMap eD).length →
      ∃ s', forEachM body xs s = Except.ok s' ∧
        Progress s s' [] (xs.flatMap eL) (xs.flatMap eT) (xs.flatMap eD) := by
  intro xs
  induction xs with
  | nil =>
    intro s _ _ _
    exact ⟨s, rfl, progress_refl s⟩
  | cons i rest ih =>
    intro s hh hi hroom
    simp only [List.flatMap_cons, List.length_append] at hroom ⊢
    obtain ⟨rI, rL, rT, rD⟩ := hroom
    obtain ⟨s1, hb, hp⟩ := hbody i s hh hi ⟨rI, by omega, by omega, by omega⟩
    have hroom1 : Room s1 0 (rest.flatMap eL).length (rest.flatMap eT).length
        (rest.flatMap eD).length := by
      refine ⟨?_, ?_, ?_, ?_⟩
      · rw [hp.images.1, hp.images.2.1]; simpa using rI
      · rw [hp.labels.1, hp.labels.2.1]; omega
      · rw [hp.targets.1, hp.targets.2.1]; omega
      · rw [hp.data.1, hp.data.2.1]; omega
    obtain ⟨s2, hb2, hp2⟩ :=
      ih s1 (hp.header.trans hh) ((progress_img_no_eq hp).trans hi) hroom1
    refine ⟨s2, ?_, ?_⟩
    · simp only [forEachM, hb, hb2]
    · exact progress_trans hp hp2

/-- Concatenating the optional singletons of a list is filtering and mapping it. -/
theorem flatMap_ite_singleton {α β : Type} (xs : List α) (keep : α → Bool) (val : α → β) :
    xs.flatMap (fun x => if keep x then [val x] else []) = (xs.filter keep).map val := by
  induction xs with
  | nil => rfl
  | cons x rest ih =>
    rw [List.flatMap_cons, ih, List.filter_cons]
    cases keep x <;> simp

/-- A selection of pixels has at most `rows * cols` elements. -/
theorem rasterSelect_length_le {α : Type} (rows cols : Nat) (keep : Nat → Nat → Bool)
    (val : Nat → Nat → α) : (rasterSelect rows cols keep val).length ≤ rows * cols := by
  unfold rasterSelect
  induction rows with
  | zero => simp
  | succ n ih =>
    rw [List.range_succ, List.flatMap_append, List.length_append]
    simp only [List.flatMap_cons, List.flatMap_nil, List.append_nil, List.length_map]
    have := List.length_filter_le (keep n) (List.range cols)
    rw [List.length_range] at this
    rw [Nat.add_mul, Nat.one_mul]
    omega

/-- One iteration of the classification pixel loop: with room in the vectors it succeeds and
stores the label of an included pixel, and its address when `train_on_zero` is false. -/
theorem classificationPixel_progress (R : Retained) (cn : Int) (r c : Nat) (s : LoadState)
    (hroom : Room s 0
      (if sampleIncluded true s.result.train_on_zero cn R r c
        then [R.depth_labels.ptr r c] else []).length 0
      (if addressRecorded true s.result.train_on_zero s.result.low_memory cn R r c
        then [flatAddr s.result.step s.result.image_size.width s.img_no r c] else []).length) :
    ∃ s', classificationPixel R.depth_labels R.ir_preprocessed r c s = Except.ok s' ∧
      Progress s s' []
        (if sampleIncluded true s.result.train_on_zero cn R r c
          then [R.depth_labels.ptr r c] else []) []
        (if addressRecorded true s.result.train_on_zero s.result.low_memory cn R r c
          then [flatAddr s.result.step s.result.image_size.width s.img_no r c] else []) := by
  obtain ⟨_, rL, _, rD⟩ := hroom
  by_cases htz : s.result.train_on_zero = true
  · have e1 : sampleIncluded true s.result.train_on_zero cn R r c = true := by
      simp [sampleIncluded, htz]
    have e2 : addressRecorded true s.result.train_on_zero s.result.low_memory cn R r c
        = false := by
      simp [addressRecorded, htz]
    rw [e1] at rL
    rw [e1, e2]
    simp only [if_true, List.length_singleton] at rL
    unfold classificationPixel
    rw [if_pos htz, vecSet_ok _ _ _ (by omega)]
    exact ⟨_, rfl, ⟨rfl, appended_refl _ _, appended_write _ _ _ (by omega), appended_refl _ _,
      appended_refl _ _⟩⟩
  · by_cases hz : R.ir_preprocessed.ptr r c = 0
    · have e1 : sampleIncluded true s.result.train_on_zero cn R r c = false := by
        simp [sampleIncluded, htz, hz]
      have e2 : addressRecorded true s.result.train_on_zero s.result.low_memory cn R r c
          = false := by
        simp [addressRecorded, sampleIncluded, htz, hz]
      rw [e1, e2]
      unfold classificationPixel
      rw [if_neg htz, if_neg (by simpa using hz)]
      exact ⟨_, rfl, progress_refl s⟩
    · have e1 : sampleIncluded true s.result.train_on_zero cn R r c = true := by
        simp [sampleIncluded, htz, hz]
      have e2 : addressRecorded true s.result.train_on_zero s.result.low_memory cn R r c
          = true := by
        simp [addressRecorded, sampleIncluded, htz, hz]
      rw [e1] at rL
      rw [e2] at rD
      rw [e1, e2]
      simp only [if_true, List.length_singleton] at rL rD
      unfold classificationPixel
      rw [if_neg htz, if_pos (by simpa using hz), vecSet_ok _ _ _ (by omega),
        vecSet_ok _ _ _ (by omega)]
      exact ⟨_, rfl, ⟨rfl, appended_refl _ _, appended_write _ _ _ (by omega),
        appended_refl _ _, appended_write _ _ _ (by omega)⟩⟩

/-- One iteration of the regression pixel loop: with room in the vectors it succeeds and stores
the depth of an included pixel, and its address unless the collection is low-memory. -/
theorem regressionPixel_progress (R : Retained) (cn : Int) (r c : Nat) (s : LoadState)
    (hlm : s.result.train_on_zero = false → s.result.low_memory = false)
    (hroom : Room s 0 0
      (if sampleIncluded false s.result.train_on_zero cn R r c
        then [R.depth_image.ptr r c] else []).length
      (if addressRecorded false s.result.train_on_zero s.result.low_memory cn R r c
        then [flatAddr s.result.step s.result.image_size.width s.img_no r c] else []).length) :
    ∃ s', regressionPixel cn R.depth_image R.depth_labels R.ir_preprocessed r c s
        = Except.ok s' ∧
      Progress s s' [] []
        (if sampleIncluded false s.result.train_on_zero cn R r c
          then [R.depth_image.ptr r c] else [])
        (if addressRecorded false s.result.train_on_zero s.result.low_memory cn R r c
          then [flatAddr s.result.step s.result.image_size.width s.img_no r c] else []) := by
  obtain ⟨_, _, rT, rD⟩ := hroom
  by_cases hsel : cn = (R.depth_labels.ptr r c : Int) ∨ cn = -1
  · have hselb : (decide (cn = (R.depth_labels.ptr r c : Int)) || decide (cn = -1)) = true := by
      simpa using hsel
    by_cases htz : s.result.train_on_zero = true
    · have e1 : sampleIncluded false s.result.train_on_zero cn R r c = true := by
        simp only [sampleIncluded, Bool.false_or, hselb, htz, Bool.true_or, Bool.and_self]
      rw [e1] at rT
      simp only [if_true, List.length_singleton] at rT
      by_cases hl : s.result.low_memory = true
      · have e2 : addressRecorded false s.result.train_on_zero s.result.low_memory cn R r c
            = false := by
          simp [addressRecorded, hl]
        rw [e1, e2]
        unfold regressionPixel
        rw [if_pos hsel, if_pos htz, vecSet_ok _ _ _ (by omega)]
        dsimp only
        rw [if_neg (by simp [hl])]
        exact ⟨_, rfl, ⟨rfl, appended_refl _ _, appended_refl _ _,
          appended_write _ _ _ (by omega), appended_refl _ _⟩⟩
      · have e2 : addressRecorded false s.result.train_on_zero s.result.low_memory cn R r c
            = true := by
          rw [addressRecorded, e1]
          simpa using hl
        rw [e2] at rD
        rw [e1, e2]
        simp only [if_true, List.length_singleton] at rD
        unfold regressionPixel
        rw [if_pos hsel, if_pos htz, vecSet_ok _ _ _ (by omega)]
        dsimp only
        rw [if_pos (by simpa using hl), vecSet_ok _ _ _ (by omega)]
        exact ⟨_, rfl, ⟨rfl, appended_refl _ _, appended_refl _ _,
          appended_write _ _ _ (by omega), appended_write _ _ _ (by omega)⟩⟩
    · have hl := hlm (by simpa using htz)
      by_cases hz : R.ir_preprocessed.ptr r c = 0
      · have e1 : sampleIncluded false s.result.train_on_zero cn R r c = false := by
          simp [sampleIncluded, htz, hz]
        have e2 : addressRecorded false s.result.train_on_zero s.result.low_memory cn R r c
            = false := by
          rw [addressRecorded, e1]; rfl
        rw [e1, e2]
        unfold regressionPixel
        rw [if_pos hsel, if_neg htz, if_neg (by simpa using hz)]
        exact ⟨_, rfl, progress_refl s⟩
      · have e1 : sampleIncluded false s.result.train_on_zero cn R r c = true := by
          simp only [sampleIncluded, Bool.false_or, hselb, Bool.true_and]
          simp [hz]
        have e2 : addressRecorded false s.result.train_on_zero s.result.low_memory cn R r c
            = true := by
          rw [addressRecorded, e1, hl]; rfl
        rw [e1] at rT
        rw [e2] at rD
        rw [e1, e2]
        simp only [if_true, List.length_singleton] at rT rD
        unfold regressionPixel
        rw [if_pos hsel, if_neg htz, if_pos (by simpa using hz), vecSet_ok _ _ _ (by omega),
          vecSet_ok _ _ _ (by omega)]
        exact ⟨_, rfl, ⟨rfl, appended_refl _ _, appended_refl _ _,
          appended_write _ _ _ (by omega), appended_write _ _ _ (by omega)⟩⟩
  · have hselb : (decide (cn = (R.depth_labels.ptr r c : Int)) || decide (cn = -1)) = false := by
      simpa using hsel
    have e1 : sampleIncluded false s.result.train_on_zero cn R r c = false := by
      simp only [sampleIncluded, Bool.false_or, hselb, Bool.false_and]
    have e2 : addressRecorded false s.result.train_on_zero s.result.low_memory cn R r c
        = false := by
      rw [addressRecorded, e1]; rfl
    rw [e1, e2]
    unfold regressionPixel
    rw [if_neg hsel]
    exact ⟨_, rfl, progress_refl s⟩

/-- Concatenating empty lists gives the empty list. -/
theorem flatMap_nil_fun {α β : Type} (xs : List α) :
    xs.flatMap (fun _ => ([] : List β)) = [] := by
  induction xs with
  | nil => rfl
  | cons x rest ih => rw [List.flatMap_cons, ih]; rfl

/-- Equal headers have equal scalar members. -/
theorem header_fields {d d' : DataPointCollection} (h : d.header = d'.header) :
    d.train_on_zero = d'.train_on_zero ∧ d.low_memory = d'.low_memory ∧ d.step = d'.step ∧
    d.image_size = d'.image_size ∧ d.pixelLabels_ = d'.pixelLabels_ :=
  ⟨congrArg (fun x => x.train_on_zero) h, congrArg (fun x => x.low_memory) h,
    congrArg (fun x => x.step) h, congrArg (fun x => x.image_size) h,
    congrArg (fun x => x.pixelLabels_) h⟩

/-- The two nested classification loops over one image store `imageLabels` and
`imageAddresses`. -/
theorem classificationLoops_progress (R : Retained) (cn : Int) (s : LoadState)
    (hroom : Room s 0 (imageLabels s.result.train_on_zero R).length 0
      (imageAddresses true s.result.train_on_zero s.result.low_memory cn s.result.step
        s.result.image_size.width s.img_no R).length) :
    ∃ s', pixelLoops true cn R.depth_image R.depth_labels R.ir_preprocessed s = Except.ok s' ∧
      Progress s s' [] (imageLabels s.result.train_on_zero R) []
        (imageAddresses true s.result.train_on_zero s.result.low_memory cn s.result.step
          s.result.image_size.width s.img_no R) := by
  have hinner : ∀ r s1, s1.result.header = s.result.header → s1.img_no = s.img_no →
      Room s1 0
        (((List.range R.depth_image.cols).filter
          (sampleIncluded true s.result.train_on_zero 0 R r)).map (R.depth_labels.ptr r)).length
        ([] : List Nat).length
        (((List.range R.depth_image.cols).filter
          (addressRecorded true s.result.train_on_zero s.result.low_memory cn R r)).map
          (flatAddr s.result.step s.result.image_size.width s.img_no r)).length →
      ∃ s', forEachM (fun c s => classificationPixel R.depth_labels R.ir_preprocessed r c s)
          (List.range R.depth_image.cols) s1 = Except.ok s' ∧
        Progress s1 s' []
          (((List.range R.depth_image.cols).filter
            (sampleIncluded true s.result.train_on_zero 0 R r)).map (R.depth_labels.ptr r))
          []
          (((List.range R.depth_image.cols).filter
            (addressRecorded true s.result.train_on_zero s.result.low_memory cn R r)).map
            (flatAddr s.result.step s.result.image_size.width s.img_no r)) := by
    intro r s1 hh hi hroom1
    have hpix : ∀ c s2, s2.result.header = s.result.header → s2.img_no = s.img_no →
        Room s2 0
          (if sampleIncluded true s.result.train_on_zero 0 R r c
            then [R.depth_labels.ptr r c] else []).length
          ((fun _ => ([] : List Nat)) c).length
          (if addressRecorded true s.result.train_on_zero s.result.low_memory cn R r c
            then [flatAddr s.result.step s.result.image_size.width s.img_no r c] else []).length →
        ∃ s', classificationPixel R.depth_labels R.ir_preprocessed r c s2 = Except.ok s' ∧
          Progress s2 s' []
            (if sampleIncluded true s.result.train_on_zero 0 R r c
              then [R.depth_labels.ptr r c] else [])
            ((fun _ => ([] : List Nat)) c)
            (if addressRecorded true s.result.train_on_zero s.result.low_memory cn R r c
              then [flatAddr s.result.step s.result.image_size.width s.img_no r c] else []) := by
      intro c s2 hh2 hi2 hroom2
      obtain ⟨e1, e2, e3, e4, _⟩ := header_fields hh2
      have key := classificationPixel_progress R cn r c s2
      rw [e1, e2, e3, e4, hi2] at key
      have hsame : sampleIncluded true s.result.train_on_zero cn R r c
          = sampleIncluded true s.result.train_on_zero 0 R r c := by
        simp [sampleIncluded]
      rw [hsame] at key
      exact key hroom2
    have := forEachM_progress _ _ _ _ s hpix (List.range R.depth_image.cols) s1 hh hi
    rw [flatMap_ite_singleton, flatMap_ite_singleton, flatMap_nil_fun] at this
    exact this hroom1
  have := forEachM_progress _ _ _ _ s hinner (List.range R.depth_image.rows) s rfl rfl
  rw [flatMap_nil_fun] at this
  unfold pixelLoops
  rw [if_pos rfl]
  exact this hroom

/-- The two nested regression loops over one image store `imageTargets` and
`imageAddresses`. -/
theorem regressionLoops_progress (R : Retained) (cn : Int) (s : LoadState)
    (hlm : s.result.train_on_zero = false → s.result.low_memory = false)
    (hroom : Room s 0 0 (imageTargets s.result.train_on_zero cn R).length
      (imageAddresses false s.result.train_on_zero s.result.low_memory cn s.result.step
        s.result.image_size.width s.img_no R).length) :
    ∃ s', pixelLoops false cn R.depth_image R.depth_labels R.ir_preprocessed s = Except.ok s' ∧
      Progress s s' [] [] (imageTargets s.result.train_on_zero cn R)
        (imageAddresses false s.result.train_on_zero s.result.low_memory cn s.result.step
          s.result.image_size.width s.img_no R) := by
  have hinner : ∀ r s1, s1.result.header = s.result.header → s1.img_no = s.img_no →
      Room s1 0 ([] : List Nat).length
        (((List.range R.depth_image.cols).filter
          (sampleIncluded false s.result.train_on_zero cn R r)).map (R.depth_image.ptr r)).length
        (((List.range R.depth_image.cols).filter
          (addressRecorded false s.result.train_on_zero s.result.low_memory cn R r)).map
          (flatAddr s.result.step s.result.image_size.width s.img_no r)).length →
      ∃ s', forEachM (fun c s =>
            regressionPixel cn R.depth_image R.depth_labels R.ir_preprocessed r c s)
          (List.range R.depth_image.cols) s1 = Except.ok s' ∧
        Progress s1 s' [] []
          (((List.range R.depth_image.cols).filter
            (sampleIncluded false s.result.train_on_zero cn R r)).map (R.depth_image.ptr r))
          (((List.range R.depth_image.cols).filter
            (addressRecorded false s.result.train_on_zero s.result.low_memory cn R r)).map
            (flatAddr s.result.step s.result.image_size.width s.img_no r)) := by
    intro r s1 hh hi hroom1
    have hpix : ∀ c s2, s2.result.header = s.result.header → s2.img_no = s.img_no →
        Room s2 0 ((fun _ => ([] : List Nat)) c).length
          (if sampleIncluded false s.result.train_on_zero cn R r c
            then [R.depth_image.ptr r c] else []).length
          (if addressRecorded false s.result.train_on_zero s.result.low_memory cn R r c
            then [flatAddr s.result.step s.result.image_size.width s.img_no r c] else []).length →
        ∃ s', regressionPixel cn R.depth_image R.depth_labels R.ir_preprocessed r c s2
            = Except.ok s' ∧
          Progress s2 s' [] ((fun _ => ([] : List Nat)) c)
            (if sampleIncluded false s.result.train_on_zero cn R r c
              then [R.depth_image.ptr r c] else [])
            (if addressRecorded false s.result.train_on_zero s.result.low_memory cn R r c
              then [flatAddr s.result.step s.result.image_size.width s.img_no r c] else []) := by
      intro c s2 hh2 hi2 hroom2
      obtain ⟨e1, e2, e3, e4, _⟩ := header_fields hh2
      have key := regressionPixel_progress R cn r c s2 (by rw [e1, e2]; exact hlm)
      rw [e1, e2, e3, e4, hi2] at key
      exact key hroom2
    have := forEachM_progress _ _ _ _ s hpix (List.range R.depth_image.cols) s1 hh hi
    rw [flatMap_ite_singleton, flatMap_ite_singleton, flatMap_nil_fun] at this
    exact this hroom1
  have := forEachM_progress _ _ _ _ s hinner (List.range R.depth_image.rows) s rfl rfl
  rw [flatMap_nil_fun] at this
  unfold pixelLoops
  rw [if_neg (by simp)]
  exact this hroom

/-! ## The image loop -/

/-- A selection that keeps no pixel is empty. -/
theorem rasterSelect_false {α : Type} (rows cols : Nat) (keep : Nat → Nat → Bool)
    (val : Nat → Nat → α) (h : ∀ r c, keep r c = false) :
    rasterSelect rows cols keep val = [] := by
  unfold rasterSelect
  have : ∀ r, ((List.range cols).filter (keep r)).map (val r) = [] := by
    intro r
    have hk : keep r = fun _ => false := funext (h r)
    rw [hk]
    simp
  simp only [this]
  exact flatMap_nil_fun _

/-- An index of which a file does not load is skipped: the state is returned unchanged. -/
theorem loadImage_not_loaded (U : IPUtils) (P : ProgramParameters) (cl : Bool) (cn : Int)
    (i : Int) (s : LoadState) (h : framePair U P i = none) :
    loadImage U P cl cn i s = Except.ok s := by
  unfold framePair at h
  unfold loadImage
  cases h1 : U.imread i (if P.Webcam then PathSuffix.cam_png else PathSuffix.ir_png) with
  | none => rfl
  | some ir =>
    cases h2 : U.imread i PathSuffix.depth_png with
    | none => rfl
    | some d => rw [h1, h2] at h; simp at h

/-- A frame pair is the pair of the two frames read for the index. -/
theorem framePair_some (U : IPUtils) (P : ProgramParameters) (i : Int) (ir d : Mat)
    (h : framePair U P i = some (ir, d)) :
    U.imread i (if P.Webcam then PathSuffix.cam_png else PathSuffix.ir_png) = some ir ∧
    U.imread i PathSuffix.depth_png = some d := by
  unfold framePair at h
  cases h1 : U.imread i (if P.Webcam then PathSuffix.cam_png else PathSuffix.ir_png) with
  | none => rw [h1] at h; simp at h
  | some ir' =>
    cases h2 : U.imread i PathSuffix.depth_png with
    | none => rw [h1, h2] at h; simp at h
    | some d' =>
      rw [h1, h2] at h
      simp only [Option.some.injEq, Prod.mk.injEq] at h
      rw [h.1, h.2]
      exact ⟨rfl, rfl⟩

/-- A loaded pair that fails a format check makes the loop body throw a format error. -/
theorem loadImage_bad_format (U : IPUtils) (P : ProgramParameters) (cl : Bool) (cn : Int)
    (i : Int) (s : LoadState) (ir d : Mat) (h : framePair U P i = some (ir, d))
    (hbad : ¬ pairFormatOk ir d) :
    ∃ e, loadImage U P cl cn i s = Except.error e ∧
      (e = LoadError.unexpected_content_type ∨ e = LoadError.size_mismatch) := by
  obtain ⟨h1, h2⟩ := framePair_some U P i ir d h
  unfold loadImage
  simp only [h1, h2]
  unfold pairFormatOk at hbad
  by_cases t1 : ir.type = MatType.CV_8UC1
  · by_cases t2 : d.type = MatType.CV_16UC1
    · have t3 : (ir.cols, ir.rows) ≠ (d.cols, d.rows) := by
        intro heq
        simp only [Prod.mk.injEq] at heq
        exact hbad ⟨t1, t2, heq.1, heq.2⟩
      rw [if_neg (by simpa using t1), if_neg (by simpa using t2), if_pos t3]
      exact ⟨_, rfl, Or.inr rfl⟩
    · rw [if_neg (by simpa using t1), if_pos t2]
      exact ⟨_, rfl, Or.inl rfl⟩
  · rw [if_pos t1]
    exact ⟨_, rfl, Or.inl rfl⟩

/-- The loop body on a loaded pair that passes the format checks, in terms of `retainedAt`. -/
theorem loadImage_good (U : IPUtils) (P : ProgramParameters) (cl : Bool) (cn : Int)
    (i : Int) (s : LoadState) (ir d : Mat) (h : framePair U P i = some (ir, d))
    (hok : pairFormatOk ir d) (hpl : s.result.pixelLabels_ = binTable U P) :
    loadImage U P cl cn i s =
      match retainedAt U P i with
      | none => Except.ok s
      | some R =>
        match vecSet s.result.images_ s.img_no R.ir_preprocessed with
        | Except.error e => Except.error e
        | Except.ok images =>
          match pixelLoops cl cn R.depth_image R.depth_labels R.ir_preprocessed
              { s with result := { s.result with images_ := images } } with
          | Except.error e => Except.error e
          | Except.ok s' => Except.ok { s' with img_no := s'.img_no + 1 } := by
  obtain ⟨h1, h2⟩ := framePair_some U P i ir d h
  obtain ⟨t1, t2, t3, t4⟩ := hok
  unfold loadImage retainedAt
  simp only [h1, h2, h, hpl]
  rw [if_neg (by simpa using t1), if_neg (by simpa using t2), if_neg (by simp [t3, t4])]
  split <;> rfl

/-- The pixel loops of one image, in either mode. -/
theorem pixelLoops_progress (cl : Bool) (R : Retained) (cn : Int) (s : LoadState)
    (hlm : s.result.train_on_zero = false → s.result.low_memory = false)
    (hroom : Room s 0 (if cl then imageLabels s.result.train_on_zero R else []).length
      (if cl then [] else imageTargets s.result.train_on_zero cn R).length
      (imageAddresses cl s.result.train_on_zero s.result.low_memory cn s.result.step
        s.result.image_size.width s.img_no R).length) :
    ∃ s', pixelLoops cl cn R.depth_image R.depth_labels R.ir_preprocessed s = Except.ok s' ∧
      Progress s s' [] (if cl then imageLabels s.result.train_on_zero R else [])
        (if cl then [] else imageTargets s.result.train_on_zero cn R)
        (imageAddresses cl s.result.train_on_zero s.result.low_memory cn s.result.step
          s.result.image_size.width s.img_no R) := by
  cases cl with
  | true => exact classificationLoops_progress R cn s hroom
  | false => exact regressionLoops_progress R cn s hlm hroom

/-- The loop body on a retained image: with room in the vectors it stores the preprocessed
frame and the samples of the image and advances `img_no`. -/
theorem loadImage_retained (U : IPUtils) (P : ProgramParameters) (cl : Bool) (cn : Int)
    (i : Int) (s : LoadState) (ir d : Mat) (R : Retained)
    (h : framePair U P i = some (ir, d)) (hok : pairFormatOk ir d)
    (hpl : s.result.pixelLabels_ = binTable U P) (hR : retainedAt U P i = some R)
    (hlm : s.result.train_on_zero = false → s.result.low_memory = false)
    (hroom : Room s 1 (if cl then imageLabels s.result.train_on_zero R else []).length
      (if cl then [] else imageTargets s.result.train_on_zero cn R).length
      (imageAddresses cl s.result.train_on_zero s.result.low_memory cn s.result.step
        s.result.image_size.width s.img_no R).length) :
    ∃ s', loadImage U P cl cn i s = Except.ok s' ∧
      Progress s s' [R.ir_preprocessed]
        (if cl then imageLabels s.result.train_on_zero R else [])
        (if cl then [] else imageTargets s.result.train_on_zero cn R)
        (imageAddresses cl s.result.train_on_zero s.result.low_memory cn s.result.step
          s.result.image_size.width s.img_no R) := by
  obtain ⟨rI, rL, rT, rD⟩ := hroom
  rw [loadImage_good U P cl cn i s ir d h hok hpl, hR]
  simp only
  rw [vecSet_ok _ _ _ (by omega)]
  simp only
  obtain ⟨s1, hs1, hp⟩ := pixelLoops_progress cl R cn
    { s with result := { s.result with
        images_ := s.result.images_.set s.img_no R.ir_preprocessed } } hlm
    ⟨by simp only [List.length_set]; omega, rL, rT, rD⟩
  rw [hs1]
  refine ⟨_, rfl, ⟨hp.header, ?_, hp.labels, hp.targets, hp.data⟩⟩
  obtain ⟨e1, e2⟩ := appended_eq_of_nil hp.images
  simp only at e1 e2 ⊢
  rw [e1, e2]
  exact appended_write _ _ _ (by omega)

/-- A low-memory collection records no address. -/
theorem imageAddresses_low_memory (cl tz : Bool) (cn : Int) (step width : Int) (k : Nat)
    (R : Retained) (h : (tz && (cl || cn == -1)) = true) :
    imageAddresses cl tz (tz && (cl || cn == -1)) cn step width k R = [] := by
  unfold imageAddresses
  apply rasterSelect_false
  intro r c
  have htz : tz = true := by
    cases tz <;> simp_all
  unfold addressRecorded
  rw [h, htz]
  cases cl <;> simp

/-- An image records at most one address per pixel. -/
theorem imageAddresses_length_le (cl tz lm : Bool) (cn : Int) (step width : Int) (k : Nat)
    (R : Retained) :
    (imageAddresses cl tz lm cn step width k R).length
      ≤ R.depth_image.rows * R.depth_image.cols :=
  rasterSelect_length_le _ _ _ _

/-- An image yields at most one label per pixel. -/
theorem imageLabels_length_le (tz : Bool) (R : Retained) :
    (imageLabels tz R).length ≤ R.depth_image.rows * R.depth_image.cols :=
  rasterSelect_length_le _ _ _ _

/-- An image yields at most one target per pixel. -/
theorem imageTargets_length_le (tz : Bool) (cn : Int) (R : Retained) :
    (imageTargets tz cn R).length ≤ R.depth_image.rows * R.depth_image.cols :=
  rasterSelect_length_le _ _ _ _

/-- The labels of a list of images, one image at a time. -/
theorem corpusLabels_cons (cl tz : Bool) (R : Retained) (Rs : List Retained) :
    corpusLabels cl tz (R :: Rs) =
      (if cl then imageLabels tz R else []) ++ corpusLabels cl tz Rs := by
  unfold corpusLabels
  cases cl <;> simp

/-- The targets of a list of images, one image at a time. -/
theorem corpusTargets_cons (cl tz : Bool) (cn : Int) (R : Retained) (Rs : List Retained) :
    corpusTargets cl tz cn (R :: Rs) =
      (if cl then [] else imageTargets tz cn R) ++ corpusTargets cl tz cn Rs := by
  unfold corpusTargets
  cases cl <;> simp

/-- The addresses of a list of images, one image at a time. -/
theorem corpusAddresses_cons (cl tz lm : Bool) (cn : Int) (step width : Int) (k : Nat)
    (R : Retained) (Rs : List Retained) :
    corpusAddresses cl tz lm cn step width k (R :: Rs) =
      imageAddresses cl tz lm cn step width k R ++
        corpusAddresses cl tz lm cn step width (k + 1) Rs := by
  unfold corpusAddresses
  rw [List.enumFrom_cons, List.flatMap_cons]

/-- The depth frame of a retained image is the depth frame read for its index. -/
theorem retainedAt_depth (U : IPUtils) (P : ProgramParameters) (i : Int) (ir d : Mat)
    (R : Retained) (h : framePair U P i = some (ir, d)) (hR : retainedAt U P i = some R) :
    R.depth_image = d := by
  unfold retainedAt at hR
  rw [h] at hR
  simp only at hR
  split at hR
  · simp at hR
  · simp only [Option.some.injEq] at hR
    rw [← hR]

/-- An index of which a file does not load retains nothing. -/
theorem retainedAt_none_of_not_loaded (U : IPUtils) (P : ProgramParameters) (i : Int)
    (h : framePair U P i = none) : retainedAt U P i = none := by
  unfold retainedAt
  rw [h]

/-- The scalar members `LoadImages` sets before the loop. -/
theorem initial_header (U : IPUtils) (P : ProgramParameters) (cl : Bool) (cn : Int)
    (s : LoadState) (h : s.result.header = (initialCollection U P cl cn).header) :
    s.result.train_on_zero = P.TrainOnZeroIR ∧ s.result.low_memory = lowMemory P cl cn ∧
    s.result.step = P.ImgHeight * P.ImgWidth ∧ s.result.image_size.width = P.ImgWidth ∧
    s.result.pixelLabels_ = binTable U P := by
  obtain ⟨e1, e2, e3, e4, e5⟩ := header_fields h
  exact ⟨e1, e2, e3, congrArg Size.width e4, e5⟩

/-- Room for one more image than needed is room enough. -/
theorem capacity_mono {cl : Bool} {s : LoadState} {n hw : Nat} (h : Capacity cl s (n + 1) hw) :
    Capacity cl s n hw := by
  obtain ⟨a, b, c, d⟩ := h
  rw [Nat.succ_mul] at b c d
  refine ⟨by omega, ?_, ?_, ?_⟩
  · split at b <;> [(rw [if_pos (by assumption)]; omega); (rw [if_neg (by assumption)]; omega)]
  · split at c <;> [(rw [if_pos (by assumption)]; omega); (rw [if_neg (by assumption)]; omega)]
  · split at d <;> [(rw [if_pos (by assumption)]; omega); (rw [if_neg (by assumption)]; omega)]

/-- The image loop: when every loaded pair passes the format checks it stores
exactly the retained images and their samples; when some loaded pair fails
them it throws a format error. Pairs that pass the checks have `h` by `w`
pixels and the vectors have room for one such image per index. -/
theorem imageLoop_spec (U : IPUtils) (P : ProgramParameters) (cl : Bool) (cn : Int)
    (h w : Nat) :
    ∀ (xs : List Int) (s : LoadState),
      s.result.header = (initialCollection U P cl cn).header →
      Capacity cl s xs.length (h * w) →
      (∀ i ∈ xs, ∀ ir d, framePair U P i = some (ir, d) → pairFormatOk ir d →
        d.rows = h ∧ d.cols = w) →
      ((∀ i ∈ xs, ∀ ir d, framePair U P i = some (ir, d) → pairFormatOk ir d) →
        ∃ s', forEachM (loadImage U P cl cn) xs s = Except.ok s' ∧
          Progress s s' ((xs.filterMap (retainedAt U P)).map Retained.ir_preprocessed)
            (corpusLabels cl P.TrainOnZeroIR (xs.filterMap (retainedAt U P)))
            (corpusTargets cl P.TrainOnZeroIR cn (xs.filterMap (retainedAt U P)))
            (corpusAddresses cl P.TrainOnZeroIR (lowMemory P cl cn) cn
              (P.ImgHeight * P.ImgWidth) P.ImgWidth s.img_no
              (xs.filterMap (retainedAt U P)))) ∧
      ((∃ i ∈ xs, ∃ ir d, framePair U P i = some (ir, d) ∧ ¬ pairFormatOk ir d) →
        ∃ e, forEachM (loadImage U P cl cn) xs s = Except.error e ∧
          (e = LoadError.unexpected_content_type ∨ e = LoadError.size_mismatch)) := by
  intro xs
  induction xs with
  | nil =>
    intro s _ _ _
    refine ⟨fun _ => ⟨s, rfl, ?_⟩, fun ⟨i, hi, _⟩ => absurd hi (List.not_mem_nil i)⟩
    have := progress_refl s
    simpa [corpusLabels, corpusTargets, corpusAddresses] using this
  | cons i rest ih =>
    intro s hhd hcap hsized
    obtain ⟨etz, elm, estep, ewidth, epl⟩ := initial_header U P cl cn s hhd
    have hsized' : ∀ j ∈ rest, ∀ ir d, framePair U P j = some (ir, d) → pairFormatOk ir d →
        d.rows = h ∧ d.cols = w :=
      fun j hj => hsized j (List.mem_cons_of_mem i hj)
    simp only [List.length_cons] at hcap
    cases hfp : framePair U P i with
    | none =>
      have hstep := loadImage_not_loaded U P cl cn i s hfp
      have hR := retainedAt_none_of_not_loaded U P i hfp
      obtain ⟨ih1, ih2⟩ := ih s hhd (capacity_mono hcap) hsized'
      simp only [forEachM, hstep, List.filterMap_cons, hR]
      refine ⟨fun hall => ih1 (fun j hj => hall j (List.mem_cons_of_mem i hj)), ?_⟩
      rintro ⟨j, hj, ir, d, hjp, hjb⟩
      rcases List.mem_cons.mp hj with rfl | hj'
      · rw [hfp] at hjp; simp at hjp
      · exact ih2 ⟨j, hj', ir, d, hjp, hjb⟩
    | some pr =>
      obtain ⟨ir, d⟩ := pr
      by_cases hok : pairFormatOk ir d
      · obtain ⟨hrows, hcols⟩ := hsized i (List.mem_cons_self i rest) ir d hfp hok
        have hbadrest : (∃ j ∈ i :: rest, ∃ ir d, framePair U P j = some (ir, d) ∧
            ¬ pairFormatOk ir d) →
            ∃ j ∈ rest, ∃ ir d, framePair U P j = some (ir, d) ∧ ¬ pairFormatOk ir d := by
          rintro ⟨j, hj, ir', d', hjp, hjb⟩
          rcases List.mem_cons.mp hj with rfl | hj'
          · rw [hfp] at hjp
            simp only [Option.some.injEq, Prod.mk.injEq] at hjp
            rw [← hjp.1, ← hjp.2] at hjb
            exact absurd hok hjb
          · exact ⟨j, hj', ir', d', hjp, hjb⟩
        cases hR : retainedAt U P i with
        | none =>
          have hstep : loadImage U P cl cn i s = Except.ok s := by
            rw [loadImage_good U P cl cn i s ir d hfp hok epl, hR]
          obtain ⟨ih1, ih2⟩ := ih s hhd (capacity_mono hcap) hsized'
          simp only [forEachM, hstep, List.filterMap_cons, hR]
          exact ⟨fun hall => ih1 (fun j hj => hall j (List.mem_cons_of_mem i hj)),
            fun hb => ih2 (hbadrest hb)⟩
        | some R =>
          have hRd := retainedAt_depth U P i ir d R hfp hR
          have hpix : R.depth_image.rows * R.depth_image.cols = h * w := by
            rw [hRd, hrows, hcols]
          obtain ⟨cI, cL, cT, cD⟩ := hcap
          rw [Nat.succ_mul] at cL cT cD
          have hlm : s.result.train_on_zero = false → s.result.low_memory = false := by
            intro hz
            rw [elm, lowMemory, ← etz, hz]
            rfl
          have lenL : (if cl then imageLabels s.result.train_on_zero R else []).length
              ≤ (if cl then h * w else 0) := by
            cases cl
            · simp
            · simpa [hpix] using imageLabels_length_le s.result.train_on_zero R
          have lenT : (if cl then [] else imageTargets s.result.train_on_zero cn R).length
              ≤ (if cl then 0 else h * w) := by
            cases cl
            · simpa [hpix] using imageTargets_length_le s.result.train_on_zero cn R
            · simp
          have lenD : (imageAddresses cl s.result.train_on_zero s.result.low_memory cn
              s.result.step s.result.image_size.width s.img_no R).length
              ≤ (if s.result.low_memory then 0 else h * w) := by
            cases hl : s.result.low_memory
            · simpa [hpix] using imageAddresses_length_le cl s.result.train_on_zero false cn
                s.result.step s.result.image_size.width s.img_no R
            · have hl' : (P.TrainOnZeroIR && (cl || cn == -1)) = true := by
                rw [← hl, elm]; rfl
              have := imageAddresses_low_memory cl P.TrainOnZeroIR cn s.result.step
                s.result.image_size.width s.img_no R hl'
              rw [hl'] at this
              rw [etz, this]
              simp
          have hroom : Room s 1 (if cl then imageLabels s.result.train_on_zero R else []).length
              (if cl then [] else imageTargets s.result.train_on_zero cn R).length
              (imageAddresses cl s.result.train_on_zero s.result.low_memory cn s.result.step
                s.result.image_size.width s.img_no R).length := by
            refine ⟨by omega, ?_, ?_, ?_⟩
            · cases hc : cl <;> rw [hc] at lenL cL <;> simp only [if_true, Bool.false_eq_true,
                if_false] at lenL cL ⊢ <;> omega
            · cases hc : cl <;> rw [hc] at lenT cT <;> simp only [if_true, Bool.false_eq_true,
                if_false] at lenT cT ⊢ <;> omega
            · cases hl : s.result.low_memory <;> rw [hl] at lenD cD <;>
                simp only [if_true, Bool.false_eq_true, if_false] at lenD cD <;> omega
          obtain ⟨s1, hstep, hp⟩ := loadImage_retained U P cl cn i s ir d R hfp hok epl hR hlm hroom
          have hcap1 : Capacity cl s1 rest.length (h * w) := by
            have hl1 : s1.result.low_memory = s.result.low_memory :=
              (header_fields hp.header).2.1
            refine ⟨?_, ?_, ?_, ?_⟩
            · rw [hp.images.1, hp.images.2.1]; simp only [List.length_singleton]; omega
            · rw [hp.labels.1, hp.labels.2.1]
              cases hc : cl <;> rw [hc] at lenL cL <;> simp only [if_true, Bool.false_eq_true,
                if_false] at lenL cL ⊢ <;> omega
            · rw [hp.targets.1, hp.targets.2.1]
              cases hc : cl <;> rw [hc] at lenT cT <;> simp only [if_true, Bool.false_eq_true,
                if_false] at lenT cT ⊢ <;> omega
            · rw [hp.data.1, hp.data.2.1, hl1]
              cases hl : s.result.low_memory <;> rw [hl] at lenD cD <;>
                simp only [if_true, Bool.false_eq_true, if_false] at lenD cD ⊢ <;> omega
          obtain ⟨ih1, ih2⟩ := ih s1 (hp.header.trans hhd) hcap1 hsized'
          simp only [forEachM, hstep, List.filterMap_cons, hR]
          refine ⟨fun hall => ?_, fun hb => ih2 (hbadrest hb)⟩
          obtain ⟨s2, hs2, hp2⟩ := ih1 (fun j hj => hall j (List.mem_cons_of_mem i hj))
          refine ⟨s2, hs2, ?_⟩
          have hi1 : s1.img_no = s.img_no + 1 := hp.images.1
          rw [hi1] at hp2
          rw [etz, elm, estep, ewidth] at hp
          have := progress_trans hp hp2
          rw [List.map_cons, corpusLabels_cons, corpusTargets_cons, corpusAddresses_cons]
          exact this
      · obtain ⟨e, he, hkind⟩ := loadImage_bad_format U P cl cn i s ir d hfp hok
        refine ⟨fun hall => absurd (hall i (List.mem_cons_self i rest) ir d hfp) hok, fun _ => ?_⟩
        exact ⟨e, by simp only [forEachM, he], hkind⟩

/-! ## The whole of LoadImages -/

/-- The preallocated length `(uint32_t)(number * height * width)` holds `number` images of
`height * width` pixels when the product fits `int`. -/
theorem capacity_bound (N H W : Int) (h0 : 0 ≤ N) (h31 : N * H * W < 2 ^ 31) :
    N.toNat * (H.toNat * W.toNat) ≤ ((N * H * W) % 2 ^ 32).toNat := by
  have h1 : N * H * W < 2 ^ 32 := lt_trans h31 (by norm_num)
  by_cases hH : H < 0
  · have : H.toNat = 0 := by omega
    rw [this]; simp
  by_cases hW : W < 0
  · have : W.toNat = 0 := by omega
    rw [this]; simp
  have hH' : 0 ≤ H := by omega
  have hW' : 0 ≤ W := by omega
  have hp : 0 ≤ N * H * W := Int.mul_nonneg (Int.mul_nonneg h0 hH') hW'
  rw [Int.emod_eq_of_lt hp h1]
  have e : ((N.toNat * (H.toNat * W.toNat) : Nat) : Int) = N * H * W := by
    push_cast
    rw [Int.toNat_of_nonneg h0, Int.toNat_of_nonneg hH', Int.toNat_of_nonneg hW', mul_assoc]
  omega

/-- The parity test `PatchSize % 2 == 0` of the source, on mathematical integers. -/
theorem patch_odd_iff (x : Int) : x.tmod 2 = 0 ↔ ¬ x % 2 = 1 := by
  constructor
  · intro h
    have := Int.emod_eq_zero_of_dvd (Int.dvd_of_tmod_eq_zero h)
    omega
  · intro h
    apply Int.tmod_eq_zero_of_dvd
    apply Int.dvd_of_emod_eq_zero
    omega

/-- The loop visits `NumberTrainingImages` indices. -/
theorem imageIndices_length (P : ProgramParameters) :
    (imageIndices P).length = P.NumberTrainingImages.toNat := by
  unfold imageIndices
  rw [List.length_map, List.length_range]

/-- The preallocation has room for every requested image. -/
theorem initial_capacity (U : IPUtils) (P : ProgramParameters) (cl : Bool) (cn : Int)
    (hv : ValidConfiguration U P) :
    Capacity cl (initialState U P cl cn) (imageIndices P).length
      (P.ImgHeight.toNat * P.ImgWidth.toNat) := by
  obtain ⟨_, _, h0, h1⟩ := hv
  have hb := capacity_bound _ _ _ h0 h1
  norm_num at hb
  rw [imageIndices_length]
  unfold Capacity initialState initialCollection
  simp only [Nat.zero_add, List.length_replicate, le_refl, true_and]
  refine ⟨?_, ?_, ?_⟩
  · cases cl <;> simp [hb]
  · cases cl <;> simp [hb]
  · cases hl : (P.TrainOnZeroIR && (cl || cn == -1)) <;> simp [hb]

/-- On a valid configuration `LoadImages` is the image loop followed by the final trim. -/
theorem LoadImages_eq_loop (U : IPUtils) (P : ProgramParameters) (cl : Bool) (cn : Int)
    (hv : ValidConfiguration U P) :
    LoadImages U P cl cn =
      match forEachM (loadImage U P cl cn) (imageIndices P) (initialState U P cl cn) with
      | Except.error e => Except.error e
      | Except.ok s => Except.ok (finalTrim P s) := by
  obtain ⟨hd, ho, h0, _⟩ := hv
  unfold LoadImages
  rw [if_neg (by simp [hd]), if_neg (by rw [patch_odd_iff]; simpa using ho),
    if_neg (by omega)]

/-- The whole of `LoadImages` on a valid configuration with frames of the
configured size: with well-formed frame pairs the loop ends in a state that
holds exactly the retained images and their samples and the trimmed
collection is returned; otherwise a format error is thrown. -/
theorem LoadImages_run (U : IPUtils) (P : ProgramParameters) (cl : Bool) (cn : Int)
    (hv : ValidConfiguration U P) (hs : FramesSized U P) :
    (FramesWellFormed U P →
      ∃ s, LoadImages U P cl cn = Except.ok (finalTrim P s) ∧
        Progress (initialState U P cl cn) s
          ((retainedImages U P).map Retained.ir_preprocessed)
          (corpusLabels cl P.TrainOnZeroIR (retainedImages U P))
          (corpusTargets cl P.TrainOnZeroIR cn (retainedImages U P))
          (corpusAddresses cl P.TrainOnZeroIR (lowMemory P cl cn) cn
            (P.ImgHeight * P.ImgWidth) P.ImgWidth 0 (retainedImages U P))) ∧
    (¬ FramesWellFormed U P →
      ∃ e, LoadImages U P cl cn = Except.error e ∧
        (e = LoadError.unexpected_content_type ∨ e = LoadError.size_mismatch)) := by
  have hsz : ∀ i ∈ imageIndices P, ∀ ir d, framePair U P i = some (ir, d) → pairFormatOk ir d →
      d.rows = P.ImgHeight.toNat ∧ d.cols = P.ImgWidth.toNat := by
    intro i hi ir d hfp hok
    have := hs i hi (ir, d) (by rw [hfp]; rfl) hok
    simp only at this
    omega
  obtain ⟨h1, h2⟩ := imageLoop_spec U P cl cn P.ImgHeight.toNat P.ImgWidth.toNat
    (imageIndices P) (initialState U P cl cn) rfl (initial_capacity U P cl cn hv) hsz
  rw [LoadImages_eq_loop U P cl cn hv]
  constructor
  · intro hw
    obtain ⟨s, hs1, hp⟩ := h1 (fun i hi ir d hfp => hw i hi (ir, d) (by rw [hfp]; rfl))
    exact ⟨s, by rw [hs1], hp⟩
  · intro hw
    unfold FramesWellFormed at hw
    push_neg at hw
    obtain ⟨i, hi, p, hp, hbad⟩ := hw
    obtain ⟨e, he, hk⟩ := h2 ⟨i, hi, p.1, p.2, by simpa using hp, hbad⟩
    exact ⟨e, by rw [he], hk⟩

/-- A vector written from position 0: resizing it to its counter gives the written elements,
and it is those elements followed by the untouched rest of the allocation. -/
theorem appended_from_zero {α : Type} {v v' : List α} {n' : Nat} {xs : List α} (fill : α)
    (h : Appended v 0 v' n' xs) :
    n' = xs.length ∧ vecResize v' n' fill = xs ∧ v'.length = v.length ∧
    v' = xs ++ v.drop xs.length := by
  obtain ⟨a, b, c, d⟩ := h
  simp only [Nat.zero_add, List.take_zero, List.nil_append] at a c
  subst a
  have hle : xs.length ≤ v'.length := by
    have := congrArg List.length c
    rw [List.length_take] at this
    omega
  refine ⟨rfl, ?_, b, ?_⟩
  · unfold vecResize
    rw [c, Nat.sub_eq_zero_of_le hle]
    simp
  · rw [← d]
    conv_lhs => rw [← List.take_append_drop xs.length v', c]

/-! ## Counter agreement -/

/-- A property preserved by every successful iteration holds after a successful loop. -/
theorem forEachM_invariant {ι σ : Type} (J : σ → Prop) (body : ι → σ → Except LoadError σ)
    (hbody : ∀ i s s', J s → body i s = Except.ok s' → J s') :
    ∀ (xs : List ι) (s s' : σ), J s → forEachM body xs s = Except.ok s' → J s' := by
  intro xs
  induction xs with
  | nil =>
    intro s s' hJ h
    simp only [forEachM, Except.ok.injEq] at h
    exact h ▸ hJ
  | cons i rest ih =>
    intro s s' hJ h
    simp only [forEachM] at h
    cases hb : body i s with
    | error e => rw [hb] at h; exact absurd h (by simp)
    | ok s1 =>
      rw [hb] at h
      exact ih s1 s' (hbody i s s1 hJ hb) h

/-- The classification pixel body keeps the counters in agreement. -/
theorem classificationPixel_countersAgree (cn : Int) (L I : Mat) (r c : Nat)
    (s s' : LoadState) (hJ : CountersAgree true cn s)
    (h : classificationPixel L I r c s = Except.ok s') : CountersAgree true cn s' := by
  obtain ⟨h1, h2⟩ := hJ
  unfold classificationPixel vecSet at h
  unfold CountersAgree at *
  split at h
  · split at h
    · simp at h
    · rename_i hh
      split at hh
      · simp only [Except.ok.injEq] at hh h
        subst h
        simp_all
      · simp at hh
  · split at h
    · split at h
      · simp at h
      · rename_i hh
        split at hh <;> [skip; simp at hh]
        split at h
        · simp at h
        · rename_i hd
          split at hd <;> [skip; simp at hd]
          simp only [Except.ok.injEq] at hh hd h
          subst h
          simp_all
    · simp only [Except.ok.injEq] at h
      subst h
      exact ⟨h1, h2⟩

/-- The regression pixel body keeps the counters in agreement. -/
theorem regressionPixel_countersAgree (cn : Int) (Dm L I : Mat) (r c : Nat)
    (s s' : LoadState) (hJ : CountersAgree false cn s)
    (h : regressionPixel cn Dm L I r c s = Except.ok s') : CountersAgree false cn s' := by
  obtain ⟨h1, h2⟩ := hJ
  unfold regressionPixel vecSet at h
  unfold CountersAgree at *
  split at h
  · split at h
    · split at h
      · simp at h
      · rename_i hh
        split at hh <;> [skip; simp at hh]
        split at h
        · split at h
          · simp at h
          · rename_i hd
            split at hd <;> [skip; simp at hd]
            simp only [Except.ok.injEq] at hh hd h
            subst h
            simp_all
        · simp only [Except.ok.injEq] at hh h
          subst h
          simp_all
    · split at h
      · split at h
        · simp at h
        · rename_i hh
          split at hh <;> [skip; simp at hh]
          split at h
          · simp at h
          · rename_i hd
            split at hd <;> [skip; simp at hd]
            simp only [Except.ok.injEq] at hh hd h
            subst h
            simp_all
      · simp only [Except.ok.injEq] at h
        subst h
        exact ⟨h1, h2⟩
  · simp only [Except.ok.injEq] at h
    subst h
    exact ⟨h1, h2⟩

/-- The pixel loops keep the counters in agreement. -/
theorem pixelLoops_countersAgree (cl : Bool) (cn : Int) (Dm L I : Mat)
    (s s' : LoadState) (hJ : CountersAgree cl cn s)
    (h : pixelLoops cl cn Dm L I s = Except.ok s') : CountersAgree cl cn s' := by
  unfold pixelLoops at h
  cases cl with
  | true =>
    simp only [if_true] at h
    refine forEachM_invariant (CountersAgree true cn) _ ?_ _ s s' hJ h
    intro r s1 s2 hJ1 h1
    refine forEachM_invariant (CountersAgree true cn) _ ?_ _ s1 s2 hJ1 h1
    intro c s3 s4 hJ3 h3
    exact classificationPixel_countersAgree cn L I r c s3 s4 hJ3 h3
  | false =>
    simp only [Bool.false_eq_true, if_false] at h
    refine forEachM_invariant (CountersAgree false cn) _ ?_ _ s s' hJ h
    intro r s1 s2 hJ1 h1
    refine forEachM_invariant (CountersAgree false cn) _ ?_ _ s1 s2 hJ1 h1
    intro c s3 s4 hJ3 h3
    exact regressionPixel_countersAgree cn Dm L I r c s3 s4 hJ3 h3

/-- The image loop body keeps the counters in agreement. -/
theorem loadImage_countersAgree (U : IPUtils) (P : ProgramParameters) (cl : Bool) (cn : Int)
    (i : Int) (s s' : LoadState) (hJ : CountersAgree cl cn s)
    (h : loadImage U P cl cn i s = Except.ok s') : CountersAgree cl cn s' := by
  unfold loadImage at h
  simp only at h
  split at h
  · simp only [Except.ok.injEq] at h; exact h ▸ hJ
  · split at h
    · simp only [Except.ok.injEq] at h; exact h ▸ hJ
    · split at h
      · simp at h
      · split at h
        · simp at h
        · split at h
          · simp at h
          · split at h
            · simp only [Except.ok.injEq] at h; exact h ▸ hJ
            · split at h
              · simp at h
              · split at h
                · simp at h
                · rename_i images hi e s1 hp
                  simp only [Except.ok.injEq] at h
                  have := pixelLoops_countersAgree cl cn _ _ _ _ s1 (by exact hJ) hp
                  subst h
                  exact this

/-- A vector resized to `n` has length `n`. -/
theorem vecResize_length {α : Type} (v : List α) (n : Nat) (fill : α) :
    (vecResize v n fill).length = n := by
  unfold vecResize
  simp only [List.length_append, List.length_take, List.length_replicate]
  omega

/-! ## Samples of a batch -/

/-- On a valid configuration with well-formed frames of the configured size
`LoadImages` returns a collection; its four vectors hold the retained images
and their samples, followed, when the final trim is skipped, by the unused
part of the preallocation. -/
theorem LoadImages_fields (U : IPUtils) (P : ProgramParameters) (cl : Bool) (cn : Int)
    (hv : ValidConfiguration U P) (hw : FramesWellFormed U P) (hs : FramesSized U P) :
    ∃ coll, LoadImages U P cl cn = Except.ok coll ∧
      coll.header = (initialCollection U P cl cn).header ∧
      coll.images_ = (retainedImages U P).map Retained.ir_preprocessed ++
        (if trimApplies P cl cn then []
          else (initialCollection U P cl cn).images_.drop (retainedImages U P).length) ∧
      coll.labels_ = corpusLabels cl P.TrainOnZeroIR (retainedImages U P) ++
        (if trimApplies P cl cn then []
          else (initialCollection U P cl cn).labels_.drop
            (corpusLabels cl P.TrainOnZeroIR (retainedImages U P)).length) ∧
      coll.targets_ = corpusTargets cl P.TrainOnZeroIR cn (retainedImages U P) ++
        (if trimApplies P cl cn then []
          else (initialCollection U P cl cn).targets_.drop
            (corpusTargets cl P.TrainOnZeroIR cn (retainedImages U P)).length) ∧
      coll.data_ = corpusAddresses cl P.TrainOnZeroIR (lowMemory P cl cn) cn
          (P.ImgHeight * P.ImgWidth) P.ImgWidth 0 (retainedImages U P) ++
        (if trimApplies P cl cn then []
          else (initialCollection U P cl cn).data_.drop
            (corpusAddresses cl P.TrainOnZeroIR (lowMemory P cl cn) cn
              (P.ImgHeight * P.ImgWidth) P.ImgWidth 0 (retainedImages U P)).length) := by
  obtain ⟨s, hrun, hp⟩ := (LoadImages_run U P cl cn hv hs).1 hw
  refine ⟨finalTrim P s, hrun, ?_⟩
  obtain ⟨i1, i2, i3, i4⟩ := appended_from_zero default hp.images
  obtain ⟨l1, l2, l3, l4⟩ := appended_from_zero 0 hp.labels
  obtain ⟨t1, t2, t3, t4⟩ := appended_from_zero 0 hp.targets
  obtain ⟨d1, d2, d3, d4⟩ := appended_from_zero 0 hp.data
  have hlm : s.result.low_memory = lowMemory P cl cn := (header_fields hp.header).2.1
  unfold finalTrim
  rw [hlm]
  by_cases htrim : trimApplies P cl cn = true
  · have htrim' : (!lowMemory P cl cn || !P.Closeup) = true := htrim
    rw [if_pos htrim', if_pos htrim, if_pos htrim, if_pos htrim, if_pos htrim]
    simp only [List.append_nil]
    exact ⟨hp.header, i2, l2, t2, d2⟩
  · have htrim' : ¬ (!lowMemory P cl cn || !P.Closeup) = true := htrim
    rw [if_neg htrim', if_neg htrim, if_neg htrim, if_neg htrim, if_neg htrim]
    rw [List.length_map] at i4
    exact ⟨hp.header, i4, l4, t4, d4⟩

/-- C2: every collection returned by `LoadImages` with `low_memory` false
has an index array of exactly the length of its label array
(classification) or target array (regression). -/
theorem LoadImages_index_length (U : IPUtils) (progParams : ProgramParameters)
    (classification : Bool) (class_number : Int) (coll : DataPointCollection)
    (hret : LoadImages U progParams classification class_number = Except.ok coll)
    (hlow : coll.low_memory = false) :
    coll.data_.length =
      if classification then coll.labels_.length else coll.targets_.length := by
  unfold LoadImages at hret
  split at hret
  · simp at hret
  · split at hret
    · simp at hret
    · split at hret
      · simp at hret
      · split at hret
        · simp at hret
        · rename_i s hs
          simp only [Except.ok.injEq] at hret
          have hJ0 : CountersAgree classification class_number
              (initialState U progParams classification class_number) := by
            unfold CountersAgree initialState initialCollection
            simp
          have hJ := forEachM_invariant (CountersAgree classification class_number) _
            (fun i s s' => loadImage_countersAgree U progParams classification class_number i s s')
            _ _ s hJ0 hs
          subst hret
          unfold finalTrim at hlow ⊢
          obtain ⟨h1, h2⟩ := hJ
          by_cases hl : s.result.low_memory = false
          · simp only [hl, Bool.not_false, Bool.true_or, if_true, vecResize_length]
            rw [h2 hl]
          · simp only [Bool.not_eq_false] at hl
            simp only [hl] at hlow
            split at hlow <;> simp_all

/-- Witness for C2: the sample batch in classification mode. -/
theorem LoadImages_index_length_witness :
    LoadImages sampleUtils sampleParams true 0 = Except.ok sampleCollection ∧
    sampleCollection.low_memory = false ∧
    sampleCollection.data_.length =
      if true then sampleCollection.labels_.length else sampleCollection.targets_.length :=
  ⟨rfl, rfl, LoadImages_index_length sampleUtils sampleParams true 0 sampleCollection rfl rfl⟩

/-- A selection that keeps no pixel of the image is empty. -/
theorem rasterSelect_nil_of_forall {α : Type} (rows cols : Nat) (keep : Nat → Nat → Bool)
    (val : Nat → Nat → α) (h : ∀ r c, r < rows → c < cols → keep r c = false) :
    rasterSelect rows cols keep val = [] := by
  unfold rasterSelect
  rw [List.flatMap_eq_nil_iff]
  intro r hr
  rw [List.map_eq_nil_iff, List.filter_eq_nil_iff]
  intro c hc
  rw [h r c (List.mem_range.mp hr) (List.mem_range.mp hc)]
  simp

/-- A concatenation of empty lists is empty. -/
theorem flatMap_nil_of_forall {α β : Type} (xs : List α) (f : α → List β)
    (h : ∀ x ∈ xs, f x = []) : xs.flatMap f = [] := by
  rw [List.flatMap_eq_nil_iff]
  exact h

/-- C3: in classification mode, on a valid configuration whose frame pairs
are well formed and of the configured size and with the final trim applied,
`LoadImages` returns a collection whose `labels_` is the concatenation over
the retained images, in raster order, of the bin labels of the pixels with
`train_on_zero` or nonzero preprocessed intensity, and whose `data_` holds
the flattened addresses of exactly the included pixels when `train_on_zero`
is false (none otherwise); with `train_on_zero` false and all-zero
preprocessed frames both are empty. -/
theorem LoadImages_classification_samples (U : IPUtils) (progParams : ProgramParameters)
    (class_number : Int) (hv : ValidConfiguration U progParams)
    (hw : FramesWellFormed U progParams) (hs : FramesSized U progParams)
    (htrim : trimApplies progParams true class_number = true) :
    ∃ coll, LoadImages U progParams true class_number = Except.ok coll ∧
      coll.labels_ =
        (retainedImages U progParams).flatMap (imageLabels progParams.TrainOnZeroIR) ∧
      (progParams.TrainOnZeroIR = false →
        coll.data_ =
          (List.enumFrom 0 (retainedImages U progParams)).flatMap fun p =>
            rasterSelect p.2.depth_image.rows p.2.depth_image.cols
              (sampleIncluded true progParams.TrainOnZeroIR class_number p.2)
              (flatAddr (progParams.ImgHeight * progParams.ImgWidth) progParams.ImgWidth p.1)) ∧
      (progParams.TrainOnZeroIR = true → coll.data_ = []) ∧
      (progParams.TrainOnZeroIR = false →
        (∀ R ∈ retainedImages U progParams, ∀ r c, r < R.depth_image.rows →
          c < R.depth_image.cols → R.ir_preprocessed.ptr r c = 0) →
        coll.labels_ = [] ∧ coll.data_ = []) := by
  obtain ⟨coll, hret, _, _, hl, _, hd⟩ :=
    LoadImages_fields U progParams true class_number hv hw hs
  rw [if_pos htrim, List.append_nil] at hl hd
  have hl' : coll.labels_ =
      (retainedImages U progParams).flatMap (imageLabels progParams.TrainOnZeroIR) := by
    rw [hl]; rfl
  refine ⟨coll, hret, hl', ?_, ?_, ?_⟩
  · intro htz
    rw [hd, htz]
    unfold corpusAddresses imageAddresses
    congr 1
    funext p
    congr 1
    funext r c
    simp [addressRecorded]
  · intro htz
    rw [hd]
    unfold corpusAddresses
    apply flatMap_nil_of_forall
    intro p _
    apply rasterSelect_nil_of_forall
    intro r c _ _
    simp [addressRecorded, htz]
  · intro htz hzero
    constructor
    · rw [hl']
      apply flatMap_nil_of_forall
      intro R hR
      apply rasterSelect_nil_of_forall
      intro r c hr hc
      simp [sampleIncluded, htz, hzero R hR r c hr hc]
    · rw [hd]
      unfold corpusAddresses
      apply flatMap_nil_of_forall
      intro p hp
      have hmem : p.2 ∈ retainedImages U progParams := by
        have := List.mem_map_of_mem Prod.snd hp
        rwa [List.enumFrom_map_snd] at this
      apply rasterSelect_nil_of_forall
      intro r c hr hc
      simp [addressRecorded, sampleIncluded, htz, hzero p.2 hmem r c hr hc]

/-- Witness for C3: the sample batch in classification mode. -/
theorem LoadImages_classification_samples_witness :
    ValidConfiguration sampleUtils sampleParams ∧ FramesWellFormed sampleUtils sampleParams ∧
    FramesSized sampleUtils sampleParams ∧ trimApplies sampleParams true 0 = true ∧
    ∃ coll, LoadImages sampleUtils sampleParams true 0 = Except.ok coll ∧
      coll.labels_ =
        (retainedImages sampleUtils sampleParams).flatMap
          (imageLabels sampleParams.TrainOnZeroIR) ∧
      (sampleParams.TrainOnZeroIR = false →
        coll.data_ =
          (List.enumFrom 0 (retainedImages sampleUtils sampleParams)).flatMap fun p =>
            rasterSelect p.2.depth_image.rows p.2.depth_image.cols
              (sampleIncluded true sampleParams.TrainOnZeroIR 0 p.2)
              (flatAddr (sampleParams.ImgHeight * sampleParams.ImgWidth)
                sampleParams.ImgWidth p.1)) ∧
      (sampleParams.TrainOnZeroIR = true → coll.data_ = []) ∧
      (sampleParams.TrainOnZeroIR = false →
        (∀ R ∈ retainedImages sampleUtils sampleParams, ∀ r c, r < R.depth_image.rows →
          c < R.depth_image.cols → R.ir_preprocessed.ptr r c = 0) →
        coll.labels_ = [] ∧ coll.data_ = []) :=
  ⟨by decide, by decide, by decide, by decide,
    LoadImages_classification_samples sampleUtils sampleParams 0 (by decide) (by decide)
      (by decide) (by decide)⟩

/-- C4: in regression mode, on a valid configuration whose frame pairs are
well formed and of the configured size and with the final trim applied,
`LoadImages` returns a collection whose `targets_` is the concatenation over
the retained images, in raster order, of the raw depth values of the pixels
whose bin label equals the class selector (or the selector is -1) and for
which `train_on_zero` holds or the preprocessed intensity is nonzero; `data_`
holds the flattened addresses of exactly those pixels, or nothing when the
collection is low-memory. -/
theorem LoadImages_regression_samples (U : IPUtils) (progParams : ProgramParameters)
    (class_number : Int) (hv : ValidConfiguration U progParams)
    (hw : FramesWellFormed U progParams) (hs : FramesSized U progParams)
    (htrim : trimApplies progParams false class_number = true) :
    ∃ coll, LoadImages U progParams false class_number = Except.ok coll ∧
      coll.low_memory = lowMemory progParams false class_number ∧
      coll.targets_ =
        (retainedImages U progParams).flatMap
          (imageTargets progParams.TrainOnZeroIR class_number) ∧
      (coll.low_memory = false →
        coll.data_ =
          (List.enumFrom 0 (retainedImages U progParams)).flatMap fun p =>
            rasterSelect p.2.depth_image.rows p.2.depth_image.cols
              (sampleIncluded false progParams.TrainOnZeroIR class_number p.2)
              (flatAddr (progParams.ImgHeight * progParams.ImgWidth) progParams.ImgWidth p.1)) ∧
      (coll.low_memory = true → coll.data_ = []) := by
  obtain ⟨coll, hret, hh, _, _, ht, hd⟩ :=
    LoadImages_fields U progParams false class_number hv hw hs
  rw [if_pos htrim, List.append_nil] at ht hd
  have hlm : coll.low_memory = lowMemory progParams false class_number :=
    (header_fields hh).2.1
  refine ⟨coll, hret, hlm, by rw [ht]; rfl, ?_, ?_⟩
  · intro hl
    rw [hd, ← hlm, hl]
    unfold corpusAddresses imageAddresses
    congr 1
    funext p
    congr 1
    funext r c
    simp [addressRecorded]
  · intro hl
    rw [hd, ← hlm, hl]
    unfold corpusAddresses
    apply flatMap_nil_of_forall
    intro p _
    apply rasterSelect_nil_of_forall
    intro r c _ _
    simp [addressRecorded]

/-- Witness for C4: the sample batch in regression mode with class selector 2. -/
theorem LoadImages_regression_samples_witness :
    ValidConfiguration sampleUtils sampleParams ∧ FramesWellFormed sampleUtils sampleParams ∧
    FramesSized sampleUtils sampleParams ∧ trimApplies sampleParams false 2 = true ∧
    ∃ coll, LoadImages sampleUtils sampleParams false 2 = Except.ok coll ∧
      coll.low_memory = lowMemory sampleParams false 2 ∧
      coll.targets_ =
        (retainedImages sampleUtils sampleParams).flatMap
          (imageTargets sampleParams.TrainOnZeroIR 2) ∧
      (coll.low_memory = false →
        coll.data_ =
          (List.enumFrom 0 (retainedImages sampleUtils sampleParams)).flatMap fun p =>
            rasterSelect p.2.depth_image.rows p.2.depth_image.cols
              (sampleIncluded false sampleParams.TrainOnZeroIR 2 p.2)
              (flatAddr (sampleParams.ImgHeight * sampleParams.ImgWidth)
                sampleParams.ImgWidth p.1)) ∧
      (coll.low_memory = true → coll.data_ = []) :=
  ⟨by decide, by decide, by decide, by decide,
    LoadImages_regression_samples sampleUtils sampleParams 2 (by decide) (by decide)
      (by decide) (by decide)⟩

/-! ## LoadMat -/

/-- Entry `k * m + j` of a concatenation of blocks of length `m` is entry `j`
of block `k`. -/
theorem flatMap_getElem?_block {α β : Type} (f : α → List β) (m : Nat) :
    ∀ (xs : List α), (∀ x ∈ xs, (f x).length = m) → ∀ k j, j < m →
      (xs.flatMap f)[k * m + j]? = (xs[k]?).bind (fun x => (f x)[j]?) := by
  intro xs
  induction xs with
  | nil => intro _ k j _; simp
  | cons x rest ih =>
    intro hlen k j hj
    have hx : (f x).length = m := hlen x (List.mem_cons_self x rest)
    rw [List.flatMap_cons]
    cases k with
    | zero =>
      rw [Nat.zero_mul, Nat.zero_add, List.getElem?_append_left (by omega)]
      simp
    | succ k =>
      have hge : (f x).length ≤ (k + 1) * m + j := by
        rw [hx, Nat.succ_mul]; omega
      rw [List.getElem?_append_right hge]
      have : (k + 1) * m + j - (f x).length = k * m + j := by
        rw [hx, Nat.succ_mul]; omega
      rw [this, ih (fun y hy => hlen y (List.mem_cons_of_mem x hy)) k j hj]
      simp

/-- A concatenation of `n` blocks of length `m` has length `n * m`. -/
theorem flatMap_length_block {α β : Type} (f : α → List β) (m : Nat) :
    ∀ (xs : List α), (∀ x ∈ xs, (f x).length = m) → (xs.flatMap f).length = xs.length * m := by
  intro xs
  induction xs with
  | nil => intro _; simp
  | cons x rest ih =>
    intro hlen
    rw [List.flatMap_cons, List.length_append, hlen x (List.mem_cons_self x rest),
      ih (fun y hy => hlen y (List.mem_cons_of_mem x hy)), List.length_cons, Nat.succ_mul]
    omega

/-- The raster listing of all pixels of an image. -/
theorem raster_getElem? {α : Type} (h w : Nat) (g : Nat → Nat → α) (r c : Nat) (hr : r < h)
    (hc : c < w) :
    ((List.range h).flatMap fun r => (List.range w).map (g r))[r * w + c]? = some (g r c) := by
  rw [flatMap_getElem?_block (fun r => (List.range w).map (g r)) w (List.range h)
    (fun x _ => by simp) r c hc]
  rw [List.getElem?_range hr]
  simp [List.getElem?_range hc]

/-- The raster listing of an image has `h * w` entries. -/
theorem raster_length {α : Type} (h w : Nat) (g : Nat → Nat → α) :
    ((List.range h).flatMap fun r => (List.range w).map (g r)).length = h * w := by
  rw [flatMap_length_block (fun r => (List.range w).map (g r)) w (List.range h)
    (fun x _ => by simp), List.length_range]

/-- The pixel buffer of a well-formed frame is the raster listing of its pixels. -/
theorem Mat_data_raster (m : Mat) (hwf : m.data.length = m.rows * m.cols) :
    m.data = (List.range m.rows).flatMap fun r => (List.range m.cols).map (m.ptr r) := by
  apply List.ext_getElem?
  intro i
  by_cases hi : i < m.rows * m.cols
  · have hw : 0 < m.cols := by
      rcases Nat.eq_zero_or_pos m.cols with h0 | h0
      · rw [h0] at hi; simp at hi
      · exact h0
    have hr : i / m.cols < m.rows := by
      rw [Nat.div_lt_iff_lt_mul hw]; exact hi
    have hc : i % m.cols < m.cols := Nat.mod_lt _ hw
    have hsplit : i / m.cols * m.cols + i % m.cols = i := by
      rw [Nat.mul_comm]; exact Nat.div_add_mod i m.cols
    have := raster_getElem? m.rows m.cols m.ptr (i / m.cols) (i % m.cols) hr hc
    rw [hsplit] at this
    rw [this]
    unfold Mat.ptr
    rw [hsplit, List.getD_eq_getElem?_getD, List.getElem?_eq_getElem (by omega)]
    simp
  · rw [List.getElem?_eq_none (by omega), List.getElem?_eq_none (by rw [raster_length]; omega)]

/-- The number of selected nonzero pixels of a well-formed frame is the number of nonzero
entries of its buffer. -/
theorem rasterSelect_length_countP {α : Type} (m : Mat) (hwf : m.data.length = m.rows * m.cols)
    (val : Nat → Nat → α) :
    (rasterSelect m.rows m.cols (fun r c => m.ptr r c != 0) val).length = nonzeroPixels m := by
  unfold nonzeroPixels
  conv_rhs => rw [Mat_data_raster m hwf]
  unfold rasterSelect
  generalize List.range m.rows = xs
  induction xs with
  | nil => rfl
  | cons x rest ih =>
    rw [List.flatMap_cons, List.flatMap_cons, List.length_append, List.countP_append, ih,
      List.length_map, List.countP_map]
    congr 1
    rw [List.countP_eq_length_filter]
    rfl

/-- A loop over a vector and its counter whose body appends `e i` appends their concatenation. -/
theorem forEachM_appended {ι α : Type} (body : ι → List α × Nat → Except LoadError (List α × Nat))
    (e : ι → List α)
    (hbody : ∀ i s, s.2 + (e i).length ≤ s.1.length →
      ∃ s', body i s = Except.ok s' ∧ Appended s.1 s.2 s'.1 s'.2 (e i)) :
    ∀ (xs : List ι) (s : List α × Nat), s.2 + (xs.flatMap e).length ≤ s.1.length →
      ∃ s', forEachM body xs s = Except.ok s' ∧ Appended s.1 s.2 s'.1 s'.2 (xs.flatMap e) := by
  intro xs
  induction xs with
  | nil => intro s _; exact ⟨s, rfl, appended_refl _ _⟩
  | cons i rest ih =>
    intro s hroom
    simp only [List.flatMap_cons, List.length_append] at hroom ⊢
    obtain ⟨s1, hb, hp⟩ := hbody i s (by omega)
    obtain ⟨s2, hb2, hp2⟩ := ih s1 (by rw [hp.1, hp.2.1]; omega)
    exact ⟨s2, by simp only [forEachM, hb, hb2], appended_trans hp hp2⟩

/-- One iteration of the pixel loop of `LoadMat` appends the address of a nonzero pixel. -/
theorem loadMatPixel_appended (ir : Mat) (cols : Int) (r c : Nat) (s : List Int × Nat)
    (hroom : s.2 + (if ir.ptr r c != 0 then [toInt32 (toInt32 ((r : Int) * cols) + (c : Int))]
      else []).length ≤ s.1.length) :
    ∃ s', loadMatPixel ir cols r c s = Except.ok s' ∧
      Appended s.1 s.2 s'.1 s'.2
        (if ir.ptr r c != 0 then [toInt32 (toInt32 ((r : Int) * cols) + (c : Int))]
          else []) := by
  unfold loadMatPixel
  by_cases hz : ir.ptr r c = 0
  · rw [if_pos hz]
    have : (ir.ptr r c != 0) = false := by simp [hz]
    rw [this]
    exact ⟨s, rfl, appended_refl _ _⟩
  · have hb : (ir.ptr r c != 0) = true := by simpa using hz
    rw [hb] at hroom ⊢
    simp only [if_true, List.length_singleton] at hroom ⊢
    rw [if_neg hz, vecSet_ok _ _ _ (by omega)]
    exact ⟨_, rfl, appended_write _ _ _ (by omega)⟩

/-- The loop bounds of `LoadMat` stay within the allocation `rows * cols`. -/
theorem toNat_mul_le (H W : Int) (h : 0 ≤ H * W) : H.toNat * W.toNat ≤ (H * W).toNat := by
  by_cases hH : H < 0
  · have : H.toNat = 0 := by omega
    rw [this]; simp
  by_cases hW : W < 0
  · have : W.toNat = 0 := by omega
    rw [this]; simp
  have e : ((H.toNat * W.toNat : Nat) : Int) = H * W := by
    push_cast
    rw [Int.toNat_of_nonneg (by omega), Int.toNat_of_nonneg (by omega)]
  omega

/-- The frame `LoadMat` stores in `images_[0]` and its index array, for a
size whose pixel count fits `int`. -/
theorem LoadMat_index (U : IPUtils) (mat_in : Mat) (img_size : Size) (pre_process : Bool)
    (pp_value : Int) (htype : mat_in.type = MatType.CV_8UC1)
    (hsize : 0 ≤ img_size.height * img_size.width)
    (hfits : img_size.height * img_size.width < 2 ^ 31) :
    ∃ coll, LoadMat U mat_in img_size false pre_process pp_value = Except.ok coll ∧
      coll.images_ = [if pre_process then U.preProcess mat_in pp_value else mat_in] ∧
      coll.low_memory = false ∧
      coll.data_ = rasterSelect img_size.height.toNat img_size.width.toNat
        (fun r c => (if pre_process then U.preProcess mat_in pp_value else mat_in).ptr r c != 0)
        (fun r c => toInt32 (toInt32 ((r : Int) * img_size.width) + (c : Int))) := by
  have hexact : toInt32 (img_size.height * img_size.width) = img_size.height * img_size.width :=
    toInt32_of_small _ (by omega) hfits
  unfold LoadMat
  rw [if_neg (by simp [htype])]
  simp only [Bool.false_eq_true, if_false]
  rw [hexact, if_neg (by omega)]
  have hinner : ∀ r (s : List Int × Nat),
      s.2 + (((List.range img_size.width.toNat).filter
        (fun c => (if pre_process then U.preProcess mat_in pp_value else mat_in).ptr r c != 0)).map
        (fun (c : Nat) => toInt32 (toInt32 ((r : Int) * img_size.width) + (c : Int)))).length
        ≤ s.1.length →
      ∃ s', forEachM (fun c s =>
          loadMatPixel (if pre_process then U.preProcess mat_in pp_value else mat_in)
            img_size.width r c s) (List.range img_size.width.toNat) s = Except.ok s' ∧
        Appended s.1 s.2 s'.1 s'.2
          (((List.range img_size.width.toNat).filter
            (fun c => (if pre_process then U.preProcess mat_in pp_value else mat_in).ptr r c
              != 0)).map
            (fun (c : Nat) => toInt32 (toInt32 ((r : Int) * img_size.width) + (c : Int)))) := by
    intro r s hroom
    have := forEachM_appended _ _
      (fun c s => loadMatPixel_appended
        (if pre_process then U.preProcess mat_in pp_value else mat_in) img_size.width r c s)
      (List.range img_size.width.toNat) s
    rw [flatMap_ite_singleton] at this
    exact this hroom
  have hlen := rasterSelect_length_le img_size.height.toNat img_size.width.toNat
    (fun r c => (if pre_process then U.preProcess mat_in pp_value else mat_in).ptr r c != 0)
    (fun r c => toInt32 (toInt32 ((r : Int) * img_size.width) + (c : Int)))
  have hcap := toNat_mul_le _ _ hsize
  obtain ⟨s, hs, hp⟩ := forEachM_appended _ _ hinner (List.range img_size.height.toNat)
    (List.replicate (img_size.height * img_size.width).toNat 0, 0)
    (by
      simp only [Nat.zero_add, List.length_replicate]
      exact le_trans hlen hcap)
  rw [hs]
  obtain ⟨_, h2, _, _⟩ := appended_from_zero 0 hp
  exact ⟨_, rfl, rfl, rfl, h2⟩

/-- When the `int` product `rows * cols` is negative `LoadMat` throws from
`resize`. -/
theorem LoadMat_length_error (U : IPUtils) (mat_in : Mat) (img_size : Size)
    (pre_process : Bool) (pp_value : Int) (htype : mat_in.type = MatType.CV_8UC1)
    (hneg : toInt32 (img_size.height * img_size.width) < 0) :
    LoadMat U mat_in img_size false pre_process pp_value =
      Except.error LoadError.length_error := by
  unfold LoadMat
  rw [if_neg (by simp [htype])]
  simp only [Bool.false_eq_true, if_false]
  rw [if_pos hneg]

/-- C5 (as amended): for an 8-bit single-channel input, when the frame that
`LoadMat` stores in `images_[0]` (the input itself, or its preprocessed
version when `pre_process` is set) has the size `img_size` and fewer than
`2 ^ 31` pixels, `LoadMat` with `inc_zero = false` returns a collection whose
index array has as many entries as the stored frame has nonzero pixels, each
entry being `r * cols + c` for a pixel `(r, c)` of the stored frame with
nonzero value. -/
theorem LoadMat_nonzero_indices (U : IPUtils) (mat_in : Mat) (img_size : Size)
    (pre_process : Bool) (pp_value : Int) (htype : mat_in.type = MatType.CV_8UC1)
    (hrows : ((storedFrame U mat_in pre_process pp_value).rows : Int) = img_size.height)
    (hcols : ((storedFrame U mat_in pre_process pp_value).cols : Int) = img_size.width)
    (hwf : (storedFrame U mat_in pre_process pp_value).data.length =
      (storedFrame U mat_in pre_process pp_value).rows *
        (storedFrame U mat_in pre_process pp_value).cols)
    (hfits : img_size.height * img_size.width < 2 ^ 31) :
    ∃ coll, LoadMat U mat_in img_size false pre_process pp_value = Except.ok coll ∧
      coll.images_ = [storedFrame U mat_in pre_process pp_value] ∧
      coll.data_.length = nonzeroPixels (storedFrame U mat_in pre_process pp_value) ∧
      ∀ idx ∈ coll.data_, ∃ r c, r < (storedFrame U mat_in pre_process pp_value).rows ∧
        c < (storedFrame U mat_in pre_process pp_value).cols ∧
        idx = (r : Int) * ((storedFrame U mat_in pre_process pp_value).cols : Int) + (c : Int) ∧
        (storedFrame U mat_in pre_process pp_value).ptr r c ≠ 0 := by
  have hnn : 0 ≤ img_size.height * img_size.width := by
    rw [← hrows, ← hcols]
    exact Int.mul_nonneg (Int.ofNat_nonneg _) (Int.ofNat_nonneg _)
  obtain ⟨coll, hret, himg, _, hdata⟩ :=
    LoadMat_index U mat_in img_size pre_process pp_value htype hnn hfits
  have hr : img_size.height.toNat = (storedFrame U mat_in pre_process pp_value).rows := by
    omega
  have hc : img_size.width.toNat = (storedFrame U mat_in pre_process pp_value).cols := by
    omega
  have hdata' : coll.data_ = rasterSelect (storedFrame U mat_in pre_process pp_value).rows
      (storedFrame U mat_in pre_process pp_value).cols
      (fun r c => (storedFrame U mat_in pre_process pp_value).ptr r c != 0)
      (fun r c => toInt32 (toInt32 ((r : Int) * img_size.width) + (c : Int))) := by
    rw [hdata, hr, hc]; rfl
  refine ⟨coll, hret, himg, ?_, ?_⟩
  · rw [hdata']
    exact rasterSelect_length_countP _ hwf _
  · intro idx hidx
    rw [hdata'] at hidx
    unfold rasterSelect at hidx
    rw [List.mem_flatMap] at hidx
    obtain ⟨r, hrm, hmem⟩ := hidx
    rw [List.mem_map] at hmem
    obtain ⟨c, hcm, hidx⟩ := hmem
    rw [List.mem_filter] at hcm
    have hrlt := List.mem_range.mp hrm
    have hclt := List.mem_range.mp hcm.1
    refine ⟨r, c, hrlt, hclt, ?_, by simpa using hcm.2⟩
    rw [← hidx, hcols]
    have h1 : ((r : Int) + 1) * img_size.width ≤ img_size.height * img_size.width :=
      Int.mul_le_mul_of_nonneg_right (by omega) (by omega)
    have h2 : ((r : Int) + 1) * img_size.width = r * img_size.width + img_size.width := by
      ring
    have h3 : (0 : Int) ≤ (r : Int) * img_size.width :=
      Int.mul_nonneg (Int.ofNat_nonneg _) (by omega)
    have hc' : (c : Int) < img_size.width := by omega
    show toInt32 (toInt32 ((r : Int) * img_size.width) + (c : Int)) = _
    rw [toInt32_of_small ((r : Int) * img_size.width) (by omega) (by omega),
      toInt32_of_small _ (by omega) (by omega)]

/-- Witness for C5: a 2 by 2 frame with three nonzero pixels, no preprocessing. -/
theorem LoadMat_nonzero_indices_witness :
    (Mat.mk 2 2 MatType.CV_8UC1 [7, 0, 9, 1]).type = MatType.CV_8UC1 ∧
    ∃ coll, LoadMat sampleUtils ⟨2, 2, MatType.CV_8UC1, [7, 0, 9, 1]⟩ ⟨2, 2⟩ false false 0
        = Except.ok coll ∧
      coll.images_ = [storedFrame sampleUtils ⟨2, 2, MatType.CV_8UC1, [7, 0, 9, 1]⟩ false 0] ∧
      coll.data_.length =
        nonzeroPixels (storedFrame sampleUtils ⟨2, 2, MatType.CV_8UC1, [7, 0, 9, 1]⟩ false 0) ∧
      ∀ idx ∈ coll.data_, ∃ r c,
        r < (storedFrame sampleUtils ⟨2, 2, MatType.CV_8UC1, [7, 0, 9, 1]⟩ false 0).rows ∧
        c < (storedFrame sampleUtils ⟨2, 2, MatType.CV_8UC1, [7, 0, 9, 1]⟩ false 0).cols ∧
        idx = (r : Int) *
          ((storedFrame sampleUtils ⟨2, 2, MatType.CV_8UC1, [7, 0, 9, 1]⟩ false 0).cols : Int)
          + (c : Int) ∧
        (storedFrame sampleUtils ⟨2, 2, MatType.CV_8UC1, [7, 0, 9, 1]⟩ false 0).ptr r c ≠ 0 :=
  ⟨rfl, LoadMat_nonzero_indices sampleUtils ⟨2, 2, MatType.CV_8UC1, [7, 0, 9, 1]⟩ ⟨2, 2⟩ false 0
    rfl (by decide) (by decide) (by decide) (by decide)⟩

/-- C5 (as stated) fails in two ways. With preprocessing on and a
thresholding preprocessor, the one-pixel frame `[5]` and threshold 10 give an
empty index array although the input frame has one nonzero pixel. And for
the well-formed frame of 46341 by 46341 nonzero pixels, of the size
`img_size`, the `int` product `rows * cols` is negative and `LoadMat` throws
from `resize` instead of returning a collection. -/
theorem LoadMat_nonzero_indices_counterexample :
    (¬ ∃ coll, LoadMat sampleUtils ⟨1, 1, MatType.CV_8UC1, [5]⟩ ⟨1, 1⟩ false true 10
        = Except.ok coll ∧
      coll.data_.length = nonzeroPixels ⟨1, 1, MatType.CV_8UC1, [5]⟩) ∧
    (wideFrame.type = MatType.CV_8UC1 ∧ (wideFrame.rows : Int) = 46341 ∧
      (wideFrame.cols : Int) = 46341 ∧
      wideFrame.data.length = wideFrame.rows * wideFrame.cols ∧
      toInt32 (46341 * 46341) = -2147479015 ∧
      LoadMat sampleUtils wideFrame ⟨46341, 46341⟩ false false 0 =
        Except.error LoadError.length_error) := by
  constructor
  · rintro ⟨coll, hret, hlen⟩
    have e : LoadMat sampleUtils ⟨1, 1, MatType.CV_8UC1, [5]⟩ ⟨1, 1⟩ false true 10 =
        Except.ok { DataPointCollection.new with
          dimension_ := 1, image_size := ⟨1, 1⟩, step := 1,
          images_ := [⟨1, 1, MatType.CV_8UC1, [0]⟩] } := rfl
    rw [e] at hret
    simp only [Except.ok.injEq] at hret
    rw [← hret] at hlen
    revert hlen
    decide
  · refine ⟨rfl, rfl, rfl, ?_, by decide, ?_⟩
    · show (List.replicate 2147488281 1).length = 46341 * 46341
      rw [List.length_replicate]
    · exact LoadMat_length_error sampleUtils wideFrame ⟨46341, 46341⟩ false 0 rfl (by decide)

/-! ## Errors of LoadImages -/

/-- C6 (as amended): `LoadImages` fails with a configuration error, whatever
the image files are, when the directory does not exist or the patch size is
even; for an odd patch size with an existing directory, a non-negative image
count whose preallocation fits `int`, and well-formed frame pairs of the
configured size it returns a collection. -/
theorem LoadImages_configuration_check (U : IPUtils) (progParams : ProgramParameters)
    (classification : Bool) (class_number : Int) :
    ((U.dirExists progParams.TrainingImagesPath = false ∨ progParams.PatchSize % 2 = 0) →
      ∃ e, (e = LoadError.directory_not_found ∨ e = LoadError.patch_size_even) ∧
        ∀ imread', LoadImages { U with imread := imread' } progParams classification
          class_number = Except.error e) ∧
    (ValidConfiguration U progParams → FramesWellFormed U progParams →
      FramesSized U progParams →
      ∃ coll, LoadImages U progParams classification class_number = Except.ok coll) := by
  constructor
  · intro h
    by_cases hd : U.dirExists progParams.TrainingImagesPath = false
    · refine ⟨LoadError.directory_not_found, Or.inl rfl, fun imread' => ?_⟩
      unfold LoadImages
      rw [if_pos (by simp [hd])]
    · have hev : progParams.PatchSize % 2 = 0 := by
        rcases h with h | h
        · exact absurd h hd
        · exact h
      refine ⟨LoadError.patch_size_even, Or.inr rfl, fun imread' => ?_⟩
      unfold LoadImages
      rw [if_neg (by simpa using hd), if_pos (by rw [patch_odd_iff]; omega)]
  · intro hv hw hs
    obtain ⟨coll, hret, _⟩ := LoadImages_fields U progParams classification class_number hv hw hs
    exact ⟨coll, hret⟩

/-- Witness for C6: patch size 4 fails with the patch-size error, patch size 5
returns a collection. -/
theorem LoadImages_configuration_check_witness :
    (∃ e, (e = LoadError.directory_not_found ∨ e = LoadError.patch_size_even) ∧
        ∀ imread', LoadImages { sampleUtils with imread := imread' } sampleParamsEven true 0
          = Except.error e) ∧
    (∃ coll, LoadImages sampleUtils sampleParams true 0 = Except.ok coll) :=
  ⟨(LoadImages_configuration_check sampleUtils sampleParamsEven true 0).1 (Or.inr (by decide)),
    (LoadImages_configuration_check sampleUtils sampleParams true 0).2 (by decide) (by decide)
      (by decide)⟩

/-- C6 (as stated) fails: an existing directory, patch size 5 and a
well-formed 2 by 2 frame pair, with a configured size of 1 by 1. The vectors
are preallocated for two images of one pixel; the third label of the frame
is written past the end and no collection is returned. -/
theorem LoadImages_configuration_check_counterexample :
    sampleUtils.dirExists sampleParamsSmall.TrainingImagesPath = true ∧
    sampleParamsSmall.PatchSize % 2 = 1 ∧
    FramesWellFormed sampleUtils sampleParamsSmall ∧
    LoadImages sampleUtils sampleParamsSmall true 0 = Except.error LoadError.out_of_bounds ∧
    ¬ ∃ coll, LoadImages sampleUtils sampleParamsSmall true 0 = Except.ok coll := by
  have e : LoadImages sampleUtils sampleParamsSmall true 0 =
      Except.error LoadError.out_of_bounds := rfl
  refine ⟨by decide, by decide, by decide, e, ?_⟩
  rintro ⟨coll, h⟩
  rw [e] at h
  exact absurd h (by simp)

/-- C7 (as amended): on a valid configuration with frames of the configured size,
`LoadImages` ends in an error exactly when some frame pair of the range loads
and fails a format check (intensity not 8-bit single-channel, depth not
16-bit single-channel, or differing sizes); the error is then a format
error, and an index of which a file does not load leaves the state as it is. -/
theorem LoadImages_format_errors (U : IPUtils) (progParams : ProgramParameters)
    (classification : Bool) (class_number : Int) (hv : ValidConfiguration U progParams)
    (hs : FramesSized U progParams) :
    ((∃ e, LoadImages U progParams classification class_number = Except.error e) ↔
      ∃ i ∈ imageIndices progParams, ∃ ir d, framePair U progParams i = some (ir, d) ∧
        ¬ pairFormatOk ir d) ∧
    (∀ e, LoadImages U progParams classification class_number = Except.error e →
      e = LoadError.unexpected_content_type ∨ e = LoadError.size_mismatch) ∧
    (∀ i s, framePair U progParams i = none →
      loadImage U progParams classification class_number i s = Except.ok s) := by
  obtain ⟨h1, h2⟩ := LoadImages_run U progParams classification class_number hv hs
  have hiff : ¬ FramesWellFormed U progParams ↔
      ∃ i ∈ imageIndices progParams, ∃ ir d, framePair U progParams i = some (ir, d) ∧
        ¬ pairFormatOk ir d := by
    unfold FramesWellFormed
    constructor
    · intro h
      push_neg at h
      obtain ⟨i, hi, p, hp, hbad⟩ := h
      exact ⟨i, hi, p.1, p.2, by simpa using hp, hbad⟩
    · rintro ⟨i, hi, ir, d, hfp, hbad⟩ h
      exact hbad (h i hi (ir, d) (by rw [hfp]; rfl))
  refine ⟨⟨?_, ?_⟩, ?_, ?_⟩
  · rintro ⟨e, he⟩
    by_contra hno
    have hwf : FramesWellFormed U progParams := by
      by_contra hnw
      exact hno (hiff.mp hnw)
    obtain ⟨s, hsok, _⟩ := h1 hwf
    rw [hsok] at he
    simp at he
  · intro hbad
    obtain ⟨e, he, _⟩ := h2 (hiff.mpr hbad)
    exact ⟨e, he⟩
  · intro e he
    by_cases hwf : FramesWellFormed U progParams
    · obtain ⟨s, hsok, _⟩ := h1 hwf
      rw [hsok] at he
      simp at he
    · obtain ⟨e', he', hk⟩ := h2 hwf
      rw [he'] at he
      simp only [Except.error.injEq] at he
      rw [← he]
      exact hk
  · intro i s hfp
    exact loadImage_not_loaded U progParams classification class_number i s hfp

/-- Witness for C7: the sample batch with an 8-bit depth frame at index 0. -/
theorem LoadImages_format_errors_witness :
    ValidConfiguration malformedUtils sampleParams ∧ FramesSized malformedUtils sampleParams ∧
    ((∃ e, LoadImages malformedUtils sampleParams true 0 = Except.error e) ↔
      ∃ i ∈ imageIndices sampleParams, ∃ ir d,
        framePair malformedUtils sampleParams i = some (ir, d) ∧ ¬ pairFormatOk ir d) ∧
    (∀ e, LoadImages malformedUtils sampleParams true 0 = Except.error e →
      e = LoadError.unexpected_content_type ∨ e = LoadError.size_mismatch) ∧
    (∀ i s, framePair malformedUtils sampleParams i = none →
      loadImage malformedUtils sampleParams true 0 i s = Except.ok s) :=
  ⟨by decide, by decide,
    LoadImages_format_errors malformedUtils sampleParams true 0 (by decide) (by decide)⟩

/-- C7 (as stated) fails: a valid configuration (existing directory, patch
size 5, two images of 1 by 1 pixel) whose only frame pair, of 2 by 2 pixels,
passes every format check. In regression mode with selector -1 the third
target of the frame is written past the end: `LoadImages` ends in an error
although no loaded pair fails a format check. -/
theorem LoadImages_format_errors_counterexample :
    ValidConfiguration sampleUtils sampleParamsSmall ∧
    (¬ ∃ i ∈ imageIndices sampleParamsSmall, ∃ ir d,
      framePair sampleUtils sampleParamsSmall i = some (ir, d) ∧ ¬ pairFormatOk ir d) ∧
    LoadImages sampleUtils sampleParamsSmall false (-1) =
      Except.error LoadError.out_of_bounds := by
  have hwf : FramesWellFormed sampleUtils sampleParamsSmall := by decide
  refine ⟨by decide, ?_, rfl⟩
  rintro ⟨i, hi, ir, d, hfp, hbad⟩
  exact hbad (hwf i hi (ir, d) (by rw [hfp]; rfl))

/-! ## The histogram skip -/

/-- The classification pixel body does not change `img_no`. -/
theorem classificationPixel_img_no (L I : Mat) (r c : Nat) (s s' : LoadState)
    (h : classificationPixel L I r c s = Except.ok s') : s'.img_no = s.img_no := by
  unfold classificationPixel vecSet at h
  split at h
  · split at h
    · simp at h
    · simp only [Except.ok.injEq] at h
      rw [← h]
  · split at h
    · split at h
      · simp at h
      · split at h
        · simp at h
        · simp only [Except.ok.injEq] at h
          rw [← h]
    · simp only [Except.ok.injEq] at h
      rw [← h]

/-- The regression pixel body does not change `img_no`. -/
theorem regressionPixel_img_no (cn : Int) (Dm L I : Mat) (r c : Nat) (s s' : LoadState)
    (h : regressionPixel cn Dm L I r c s = Except.ok s') : s'.img_no = s.img_no := by
  unfold regressionPixel vecSet at h
  split at h
  · split at h
    · split at h
      · simp at h
      · split at h
        · split at h
          · simp at h
          · simp only [Except.ok.injEq] at h
            rw [← h]
        · simp only [Except.ok.injEq] at h
          rw [← h]
    · split at h
      · split at h
        · simp at h
        · split at h
          · simp at h
          · simp only [Except.ok.injEq] at h
            rw [← h]
      · simp only [Except.ok.injEq] at h
        rw [← h]
  · simp only [Except.ok.injEq] at h
    rw [← h]

/-- The pixel loops do not change `img_no`. -/
theorem pixelLoops_img_no (cl : Bool) (cn : Int) (Dm L I : Mat) (s s' : LoadState)
    (h : pixelLoops cl cn Dm L I s = Except.ok s') : s'.img_no = s.img_no := by
  unfold pixelLoops at h
  cases cl with
  | true =>
    simp only [if_true] at h
    refine forEachM_invariant (fun t => t.img_no = s.img_no) _ ?_ _ s s' rfl h
    intro r s1 s2 hJ1 h1
    refine forEachM_invariant (fun t => t.img_no = s.img_no) _ ?_ _ s1 s2 hJ1 h1
    intro c s3 s4 hJ3 h3
    exact (classificationPixel_img_no L I r c s3 s4 h3).trans hJ3
  | false =>
    simp only [Bool.false_eq_true, if_false] at h
    refine forEachM_invariant (fun t => t.img_no = s.img_no) _ ?_ _ s s' rfl h
    intro r s1 s2 hJ1 h1
    refine forEachM_invariant (fun t => t.img_no = s.img_no) _ ?_ _ s1 s2 hJ1 h1
    intro c s3 s4 hJ3 h3
    exact (regressionPixel_img_no cn Dm L I r c s3 s4 h3).trans hJ3

/-- C8 (as amended): for a frame pair that loads and passes the format
checks, the body of the image loop leaves the state untouched (no label,
target, index or corpus slot) exactly when `Closeup` is false and the bin
reported by `getTallestBin` for the label frame is 1; for every other
reported bin, 0 included, and whenever `Closeup` is true, the image is not
skipped. -/
theorem loadImage_skip_iff (U : IPUtils) (progParams : ProgramParameters)
    (classification : Bool) (class_number : Int) (i : Int) (s : LoadState) (ir d : Mat)
    (hfp : framePair U progParams i = some (ir, d)) (hok : pairFormatOk ir d)
    (hpl : s.result.pixelLabels_ = binTable U progParams) :
    loadImage U progParams classification class_number i s = Except.ok s ↔
      (progParams.Closeup = false ∧
        U.getTallestBin (createLabelMatrix d (binTable U progParams)) = 1) := by
  rw [loadImage_good U progParams classification class_number i s ir d hfp hok hpl]
  unfold retainedAt
  rw [hfp]
  simp only
  by_cases hskip : (!progParams.Closeup &&
      U.getTallestBin (createLabelMatrix d (binTable U progParams)) == 1) = true
  · rw [if_pos hskip]
    simp only [true_iff]
    simpa using hskip
  · rw [if_neg hskip]
    have hrhs : ¬ (progParams.Closeup = false ∧
        U.getTallestBin (createLabelMatrix d (binTable U progParams)) = 1) := by
      intro h
      apply hskip
      simp [h.1, h.2]
    simp only [hrhs, iff_false]
    intro h
    split at h
    · simp at h
    · split at h
      · simp at h
      · rename_i s1 hs1
        have h1 := pixelLoops_img_no _ _ _ _ _ _ s1 hs1
        simp only [Except.ok.injEq] at h
        have h2 := congrArg LoadState.img_no h
        simp only at h1 h2
        omega

/-- Witness for C8: the sample pair at index 0, whose tallest bin is 0. -/
theorem loadImage_skip_iff_witness :
    framePair sampleUtils sampleParams 0 =
      some (⟨2, 2, MatType.CV_8UC1, [7, 0, 9, 1]⟩, ⟨2, 2, MatType.CV_16UC1, [0, 1, 2, 5]⟩) ∧
    pairFormatOk ⟨2, 2, MatType.CV_8UC1, [7, 0, 9, 1]⟩ ⟨2, 2, MatType.CV_16UC1, [0, 1, 2, 5]⟩ ∧
    (initialState sampleUtils sampleParams true 0).result.pixelLabels_
      = binTable sampleUtils sampleParams ∧
    (loadImage sampleUtils sampleParams true 0 0 (initialState sampleUtils sampleParams true 0)
        = Except.ok (initialState sampleUtils sampleParams true 0) ↔
      (sampleParams.Closeup = false ∧
        sampleUtils.getTallestBin
          (createLabelMatrix ⟨2, 2, MatType.CV_16UC1, [0, 1, 2, 5]⟩
            (binTable sampleUtils sampleParams)) = 1)) :=
  ⟨rfl, by decide, rfl,
    loadImage_skip_iff sampleUtils sampleParams true 0 0
      (initialState sampleUtils sampleParams true 0) _ _ rfl (by decide) rfl⟩

/-- C8 (as stated) fails: with the histogram test on, the image of the
all-background batch, whose most populous bin is label 0, is not skipped. -/
theorem loadImage_skip_iff_counterexample :
    ¬ (loadImage backgroundUtils sampleParams true 0 0
          (initialState backgroundUtils sampleParams true 0)
        = Except.ok (initialState backgroundUtils sampleParams true 0) ↔
      backgroundUtils.getTallestBin
        (createLabelMatrix ⟨2, 2, MatType.CV_16UC1, [0, 0, 0, 0]⟩
          (binTable backgroundUtils sampleParams)) = 0) := by
  intro h
  have h1 := h.mpr (by decide)
  have e : (loadImage backgroundUtils sampleParams true 0 0
      (initialState backgroundUtils sampleParams true 0)).toOption.map LoadState.img_no
      = some 1 := by rfl
  rw [h1] at e
  revert e
  decide

/-! ## The image corpus and low-memory collections -/

/-- C9 (as amended): on a valid configuration with well-formed frame pairs of
the configured size, `LoadImages` returns a collection whose `images_` is,
when the final trim applies, exactly the list of preprocessed intensity
frames of the retained images in file order (so its length is their number);
when the trim is skipped (low-memory with `Closeup` set) those frames are
followed by the unused default frames of the preallocation, up to the
requested image count. -/
theorem LoadImages_corpus (U : IPUtils) (progParams : ProgramParameters)
    (classification : Bool) (class_number : Int) (hv : ValidConfiguration U progParams)
    (hw : FramesWellFormed U progParams) (hs : FramesSized U progParams) :
    ∃ coll, LoadImages U progParams classification class_number = Except.ok coll ∧
      (trimApplies progParams classification class_number = true →
        coll.images_ = (retainedImages U progParams).map Retained.ir_preprocessed ∧
        coll.images_.length = (retainedImages U progParams).length) ∧
      (trimApplies progParams classification class_number = false →
        coll.images_ = (retainedImages U progParams).map Retained.ir_preprocessed ++
          List.replicate
            (progParams.NumberTrainingImages.toNat - (retainedImages U progParams).length)
            default ∧
        coll.images_.length = progParams.NumberTrainingImages.toNat) := by
  obtain ⟨coll, hret, _, hi, _⟩ :=
    LoadImages_fields U progParams classification class_number hv hw hs
  have hle : (retainedImages U progParams).length ≤ progParams.NumberTrainingImages.toNat := by
    rw [← imageIndices_length]
    exact List.length_filterMap_le _ _
  refine ⟨coll, hret, ?_, ?_⟩
  · intro ht
    rw [if_pos ht, List.append_nil] at hi
    exact ⟨hi, by rw [hi, List.length_map]⟩
  · intro ht
    rw [if_neg (by simp [ht])] at hi
    have hinit : (initialCollection U progParams classification class_number).images_
        = List.replicate progParams.NumberTrainingImages.toNat default := rfl
    rw [hinit, List.drop_replicate] at hi
    refine ⟨hi, ?_⟩
    rw [hi, List.length_append, List.length_map, List.length_replicate]
    omega

/-- Witness for C9: the sample batch, classification, trim applied. -/
theorem LoadImages_corpus_witness :
    ValidConfiguration sampleUtils sampleParams ∧ FramesWellFormed sampleUtils sampleParams ∧
    FramesSized sampleUtils sampleParams ∧
    ∃ coll, LoadImages sampleUtils sampleParams true 0 = Except.ok coll ∧
      (trimApplies sampleParams true 0 = true →
        coll.images_ = (retainedImages sampleUtils sampleParams).map Retained.ir_preprocessed ∧
        coll.images_.length = (retainedImages sampleUtils sampleParams).length) ∧
      (trimApplies sampleParams true 0 = false →
        coll.images_ = (retainedImages sampleUtils sampleParams).map Retained.ir_preprocessed ++
          List.replicate
            (sampleParams.NumberTrainingImages.toNat
              - (retainedImages sampleUtils sampleParams).length)
            default ∧
        coll.images_.length = sampleParams.NumberTrainingImages.toNat) :=
  ⟨by decide, by decide, by decide,
    LoadImages_corpus sampleUtils sampleParams true 0 (by decide) (by decide) (by decide)⟩

/-- C9 (as stated) fails: in the low-memory sample batch with `Closeup` set
the second frame pair does not load, one image is retained, and `images_`
keeps its two preallocated slots. -/
theorem LoadImages_corpus_counterexample :
    ¬ ∃ coll, LoadImages sampleUtils sampleParamsUntrimmed true 0 = Except.ok coll ∧
      coll.images_ =
        (retainedImages sampleUtils sampleParamsUntrimmed).map Retained.ir_preprocessed := by
  rintro ⟨coll, hret, himg⟩
  have e : (LoadImages sampleUtils sampleParamsUntrimmed true 0).toOption.map
      (fun c => c.images_.length) = some 2 := by rfl
  rw [hret] at e
  have h2 : coll.images_.length = 2 := by simpa [Except.toOption] using e
  rw [himg] at h2
  revert h2
  decide

/-- Retained images have the configured size. -/
theorem retained_sized (U : IPUtils) (P : ProgramParameters) (hw : FramesWellFormed U P)
    (hs : FramesSized U P) (R : Retained) (hR : R ∈ retainedImages U P) :
    R.depth_image.rows = P.ImgHeight.toNat ∧ R.depth_image.cols = P.ImgWidth.toNat := by
  unfold retainedImages at hR
  rw [List.mem_filterMap] at hR
  obtain ⟨i, hi, hri⟩ := hR
  cases hfp : framePair U P i with
  | none => rw [retainedAt_none_of_not_loaded U P i hfp] at hri; simp at hri
  | some p =>
    obtain ⟨ir, d⟩ := p
    have hd := retainedAt_depth U P i ir d R hfp hri
    have hok := hw i hi (ir, d) (by rw [hfp]; rfl)
    have := hs i hi (ir, d) (by rw [hfp]; rfl) hok
    simp only at this
    rw [hd]
    omega

/-- The search `isqrtBelow d b` returns the largest `n ≤ b` with `n * n ≤ d`. -/
theorem isqrtBelow_spec (d : Nat) : ∀ b : Nat,
    isqrtBelow d b * isqrtBelow d b ≤ d ∧ isqrtBelow d b ≤ b ∧
    ∀ n, n ≤ b → n * n ≤ d → n ≤ isqrtBelow d b := by
  intro b
  induction b with
  | zero =>
    refine ⟨by simp [isqrtBelow], by simp [isqrtBelow], fun n hn _ => by simpa [isqrtBelow] using hn⟩
  | succ b ih =>
    obtain ⟨h1, h2, h3⟩ := ih
    by_cases hb : (b + 1) * (b + 1) ≤ d
    · have e : isqrtBelow d (b + 1) = b + 1 := by simp [isqrtBelow, hb]
      rw [e]
      exact ⟨hb, le_refl _, fun n hn _ => hn⟩
    · have e : isqrtBelow d (b + 1) = isqrtBelow d b := by simp [isqrtBelow, hb]
      rw [e]
      refine ⟨h1, by omega, fun n hn hnd => ?_⟩
      rcases Nat.lt_or_ge n (b + 1) with hlt | hge
      · exact h3 n (by omega) hnd
      · have : n = b + 1 := by omega
        rw [this] at hnd
        exact absurd hnd hb

/-- The integer root: `k ≤ isqrtBelow d d` exactly when `k * k ≤ d`. -/
theorem isqrtBelow_le_iff (d k : Nat) : k ≤ isqrtBelow d d ↔ k * k ≤ d := by
  obtain ⟨h1, _, h3⟩ := isqrtBelow_spec d d
  constructor
  · intro hk
    exact le_trans (Nat.mul_le_mul hk hk) h1
  · intro hk
    apply h3 k _ hk
    rcases Nat.eq_zero_or_pos k with h0 | h0
    · omega
    · calc k = k * 1 := (Nat.mul_one k).symm
        _ ≤ k * k := Nat.mul_le_mul_left k h0
        _ ≤ d := hk

/-- The sample `sqrt` is faithful. -/
theorem sampleSqrt_faithful : SqrtFaithful sampleSqrt := by
  intro d k
  have hk := isqrtBelow_le_iff d k
  have hk1 := isqrtBelow_le_iff d (k + 1)
  have hroot := (isqrtBelow_le_iff d (isqrtBelow d d)).mp (le_refl _)
  have hnext : d < (isqrtBelow d d + 1) * (isqrtBelow d d + 1) := by
    by_contra hcon
    have := (isqrtBelow_le_iff d (isqrtBelow d d + 1)).mpr (by omega)
    omega
  unfold sampleSqrt
  by_cases hsq : isqrtBelow d d * isqrtBelow d d = d
  · rw [if_pos hsq]
    simp only [pow_zero, mul_one]
    constructor
    · rw [← hk]; exact Int.ofNat_le
    · constructor
      · intro h
        have h' : isqrtBelow d d ≤ k := Int.ofNat_le.mp h
        rw [← hsq]
        exact Nat.mul_le_mul h' h'
      · intro h
        have : isqrtBelow d d ≤ k := by
          by_contra hcon
          have hlt : k + 1 ≤ isqrtBelow d d := by omega
          have := hk1.mp hlt
          nlinarith
        exact Int.ofNat_le.mpr this
  · rw [if_neg hsq]
    simp only [pow_one]
    have hlt : isqrtBelow d d * isqrtBelow d d < d := lt_of_le_of_ne hroot hsq
    constructor
    · rw [← hk]
      constructor
      · intro h; omega
      · intro h; omega
    · constructor
      · intro h
        have h' : isqrtBelow d d + 1 ≤ k := by omega
        have := Nat.mul_le_mul h' h'
        omega
      · intro h
        have : isqrtBelow d d < k := by
          by_contra hcon
          have hle : k ≤ isqrtBelow d d := by omega
          have := Nat.mul_le_mul hle hle
          omega
        omega

/-! ## Offset bounds -/

/-- Ceiling division by a positive number. -/
theorem ceilDiv_spec (m P : Int) (hP : 0 < P) :
    m ≤ -((-m) / P) * P ∧ (-((-m) / P) - 1) * P < m := by
  have h1 := Int.ediv_mul_le (-m) (ne_of_gt hP)
  have h2 := Int.lt_ediv_add_one_mul_self (-m) hP
  constructor
  · nlinarith
  · nlinarith

/-- Floor division by a positive number. -/
theorem floorDiv_spec (m P : Int) (hP : 0 < P) :
    m / P * P ≤ m ∧ m < (m / P + 1) * P :=
  ⟨Int.ediv_mul_le m (ne_of_gt hP), Int.lt_ediv_add_one_mul_self m hP⟩

/-- The bound of the pixel-subtraction response is the least `z ≥ 0` with
`d ≤ (2 z)²`. -/
theorem pixelSubtractionBound_spec (sqrt : Nat → Dyadic) (hs : SqrtFaithful sqrt) (d : Nat) :
    0 ≤ pixelSubtractionBound sqrt d ∧
    (d : Int) ≤ (2 * pixelSubtractionBound sqrt d) * (2 * pixelSubtractionBound sqrt d) ∧
    (1 ≤ pixelSubtractionBound sqrt d →
      (2 * pixelSubtractionBound sqrt d - 2) * (2 * pixelSubtractionBound sqrt d - 2)
        < (d : Int)) := by
  have hpow : (0 : Int) < 2 ^ (sqrt d).exp := by positivity
  have hm0 : 0 ≤ (sqrt d).num := by
    have := ((hs d 0).1).mpr (by omega)
    simpa using this
  obtain ⟨c1, c2⟩ := ceilDiv_spec (sqrt d).num (2 ^ ((sqrt d).exp + 1)) (by positivity)
  have hz : pixelSubtractionBound sqrt d = -((-(sqrt d).num) / 2 ^ ((sqrt d).exp + 1)) := rfl
  rw [← hz] at c1 c2
  rw [pow_succ] at c1 c2
  generalize pixelSubtractionBound sqrt d = z at c1 c2 ⊢
  have hz0 : 0 ≤ z := by
    by_contra hneg
    have : z ≤ -1 := by omega
    nlinarith
  refine ⟨hz0, ?_, ?_⟩
  · have hu := ((hs d (2 * z.toNat)).2).mp (by
      push_cast
      rw [Int.toNat_of_nonneg hz0]
      nlinarith)
    have : ((d : Nat) : Int) ≤ ((2 * z.toNat * (2 * z.toNat) : Nat) : Int) := Int.ofNat_le.mpr hu
    push_cast at this
    rw [Int.toNat_of_nonneg hz0] at this
    exact this
  · intro h1
    have hu := (hs d (2 * z.toNat - 2)).2
    have hcast : ((2 * z.toNat - 2 : Nat) : Int) = 2 * z - 2 := by
      have : 2 ≤ 2 * z.toNat := by omega
      rw [Int.ofNat_sub this]
      push_cast
      rw [Int.toNat_of_nonneg hz0]
    rw [hcast] at hu
    have hnot : ¬ (sqrt d).num ≤ (2 * z - 2) * 2 ^ (sqrt d).exp := by
      intro hle
      nlinarith
    have hd : ¬ d ≤ (2 * z.toNat - 2) * (2 * z.toNat - 2) := fun h => hnot (hu.mpr h)
    have hd' : (2 * z.toNat - 2) * (2 * z.toNat - 2) < d := by omega
    have : (((2 * z.toNat - 2) * (2 * z.toNat - 2) : Nat) : Int) < (d : Int) := Int.ofNat_lt.mpr hd'
    rw [Int.natCast_mul, hcast] at this
    exact this

/-- The bound of the pixel-subtraction response is `⌈√d / 2⌉`. -/
theorem pixelSubtractionBound_eq_ceil (sqrt : Nat → Dyadic) (hs : SqrtFaithful sqrt) (d : Nat) :
    pixelSubtractionBound sqrt d = ⌈Real.sqrt (d : ℝ) / 2⌉ := by
  obtain ⟨hz0, hle, hlt⟩ := pixelSubtractionBound_spec sqrt hs d
  generalize pixelSubtractionBound sqrt d = z at hz0 hle hlt
  symm
  rw [Int.ceil_eq_iff]
  have hzr : (0 : ℝ) ≤ (z : ℝ) := by exact_mod_cast hz0
  constructor
  · rcases Int.lt_or_le z 1 with h | h
    · have hz : z = 0 := by omega
      rw [hz]
      have := Real.sqrt_nonneg (d : ℝ)
      push_cast
      linarith
    · have h2 := hlt h
      have h2r : ((2 * z - 2) * (2 * z - 2) : ℝ) < (d : ℝ) := by exact_mod_cast h2
      have hnn : (0 : ℝ) ≤ 2 * (z : ℝ) - 2 := by
        have : (1 : ℝ) ≤ (z : ℝ) := by exact_mod_cast h
        linarith
      have := (Real.lt_sqrt hnn).mpr (by rw [sq]; exact h2r)
      linarith
  · have hler : ((d : ℝ)) ≤ (2 * (z : ℝ)) ^ 2 := by
      rw [sq]; exact_mod_cast hle
    have := (Real.sqrt_le_left (by linarith : (0 : ℝ) ≤ 2 * (z : ℝ))).mpr hler
    linarith

/-- The bound of the hyperplane response: 0 for dimension 0, and for a positive
dimension the greatest `z` with `(2 z + 1)² ≤ d`. -/
theorem hyperplaneBound_spec (sqrt : Nat → Dyadic) (hs : SqrtFaithful sqrt) (d : Nat) :
    0 ≤ hyperplaneBound sqrt d ∧
    (d = 0 → hyperplaneBound sqrt d = 0) ∧
    (1 ≤ d →
      (2 * hyperplaneBound sqrt d + 1) * (2 * hyperplaneBound sqrt d + 1) ≤ (d : Int) ∧
      (d : Int) < (2 * hyperplaneBound sqrt d + 3) * (2 * hyperplaneBound sqrt d + 3)) := by
  have hpow : (0 : Int) < 2 ^ (sqrt d).exp := by positivity
  have hm0 : 0 ≤ (sqrt d).num := by
    have := ((hs d 0).1).mpr (by omega)
    simpa using this
  have hone := (hs d 1).1
  simp only [Nat.cast_one, one_mul, Nat.one_mul] at hone
  have hdef : hyperplaneBound sqrt d =
      if 0 ≤ (sqrt d).num - 2 ^ (sqrt d).exp
      then ((sqrt d).num - 2 ^ (sqrt d).exp) / 2 ^ ((sqrt d).exp + 1)
      else -((-((sqrt d).num - 2 ^ (sqrt d).exp)) / 2 ^ ((sqrt d).exp + 1)) := rfl
  rcases Nat.eq_zero_or_pos d with hd | hd
  · have hlt : (sqrt d).num < 2 ^ (sqrt d).exp := by
      by_contra hcon
      have := hone.mp (by omega)
      omega
    have hz : hyperplaneBound sqrt d = 0 := by
      rw [hdef, if_neg (by omega)]
      have hsmall : (-((sqrt d).num - 2 ^ (sqrt d).exp)) / 2 ^ ((sqrt d).exp + 1) = 0 := by
        apply Int.ediv_eq_zero_of_lt
        · omega
        · rw [pow_succ]; omega
      rw [hsmall]; rfl
    exact ⟨by omega, fun _ => hz, fun h => by omega⟩
  · have hge : (2 : Int) ^ (sqrt d).exp ≤ (sqrt d).num := hone.mpr hd
    rw [hdef, if_pos (by omega)]
    obtain ⟨f1, f2⟩ := floorDiv_spec ((sqrt d).num - 2 ^ (sqrt d).exp)
      (2 ^ ((sqrt d).exp + 1)) (by positivity)
    generalize ((sqrt d).num - 2 ^ (sqrt d).exp) / 2 ^ ((sqrt d).exp + 1) = z at f1 f2 ⊢
    rw [pow_succ] at f1 f2
    have hz0 : 0 ≤ z := by
      by_contra hneg
      have : z + 1 ≤ 0 := by omega
      nlinarith
    refine ⟨hz0, fun h => by omega, fun _ => ⟨?_, ?_⟩⟩
    · have hl := (hs d (2 * z.toNat + 1)).1
      have hcast : ((2 * z.toNat + 1 : Nat) : Int) = 2 * z + 1 := by
        push_cast
        rw [Int.toNat_of_nonneg hz0]
      rw [hcast] at hl
      have := hl.mp (by nlinarith)
      have h' : (((2 * z.toNat + 1) * (2 * z.toNat + 1) : Nat) : Int) ≤ (d : Int) :=
        Int.ofNat_le.mpr this
      rw [Int.natCast_mul, hcast] at h'
      exact h'
    · have hl := (hs d (2 * z.toNat + 3)).1
      have hcast : ((2 * z.toNat + 3 : Nat) : Int) = 2 * z + 3 := by
        push_cast
        rw [Int.toNat_of_nonneg hz0]
      rw [hcast] at hl
      have hnot : ¬ (2 * z + 3) * 2 ^ (sqrt d).exp ≤ (sqrt d).num := by
        intro hle
        nlinarith
      have hd' : ¬ (2 * z.toNat + 3) * (2 * z.toNat + 3) ≤ d := fun h => hnot (hl.mpr h)
      have h' : (d : Int) < (((2 * z.toNat + 3) * (2 * z.toNat + 3) : Nat) : Int) :=
        Int.ofNat_lt.mpr (by omega)
      rw [Int.natCast_mul, hcast] at h'
      exact h'

/-- For a positive dimension the bound of the hyperplane response is
`⌊(√d - 1) / 2⌋`. -/
theorem hyperplaneBound_eq_floor (sqrt : Nat → Dyadic) (hs : SqrtFaithful sqrt) (d : Nat)
    (hd : 1 ≤ d) : hyperplaneBound sqrt d = ⌊(Real.sqrt (d : ℝ) - 1) / 2⌋ := by
  obtain ⟨hz0, _, h⟩ := hyperplaneBound_spec sqrt hs d
  obtain ⟨hle, hlt⟩ := h hd
  generalize hyperplaneBound sqrt d = z at hz0 hle hlt
  symm
  rw [Int.floor_eq_iff]
  have hzr : (0 : ℝ) ≤ (z : ℝ) := by exact_mod_cast hz0
  constructor
  · have hler : (2 * (z : ℝ) + 1) ^ 2 ≤ (d : ℝ) := by
      rw [sq]; exact_mod_cast hle
    have := (Real.le_sqrt (by linarith : (0 : ℝ) ≤ 2 * (z : ℝ) + 1) (Nat.cast_nonneg d)).mpr hler
    linarith
  · have hltr : (d : ℝ) < (2 * (z : ℝ) + 3) ^ 2 := by
      rw [sq]; exact_mod_cast hlt
    have := (Real.sqrt_lt' (by linarith : (0 : ℝ) < 2 * (z : ℝ) + 3)).mpr hltr
    linarith

/-! ## The pixel-subtraction response -/

/-- A drawn point has both coordinates in `[lb, ub]`. -/
theorem drawPoint_range {σ : Type} (xFirst : Bool) (random : Random σ)
    (hr : random.ClosedRange) (lb ub : Int) (h : lb ≤ ub) (s : σ) :
    lb ≤ (drawPoint xFirst random lb ub s).1.x ∧ (drawPoint xFirst random lb ub s).1.x ≤ ub ∧
    lb ≤ (drawPoint xFirst random lb ub s).1.y ∧ (drawPoint xFirst random lb ub s).1.y ≤ ub := by
  obtain ⟨a1, a2⟩ := hr lb ub s h
  obtain ⟨b1, b2⟩ := hr lb ub (random.Next lb ub s).2 h
  unfold drawPoint
  cases xFirst
  · exact ⟨b1, b2, a1, a2⟩
  · exact ⟨a1, a2, b1, b2⟩

/-- Drawing a point calls `Next` twice. -/
theorem drawPoint_state {σ : Type} (xFirst : Bool) (random : Random σ) (lb ub : Int) (s : σ) :
    (drawPoint xFirst random lb ub s).2 = random.afterNext lb ub (random.afterNext lb ub s) := by
  unfold drawPoint Random.afterNext
  cases xFirst <;> rfl

/-- C11: for every dimension, every faithful `sqrt`, either argument order
and every random source with closed-range `Next`, the randomized constructor
of `PixelSubtractionResponse` calls `Next` exactly four times with the
bounds `-⌈√dimension / 2⌉` and `⌈√dimension / 2⌉`, whatever the dimension;
`offset_0` holds the results of the first two calls and `offset_1` those of
the last two (which of a pair becomes `x` is the compiler's choice), and
every coordinate of both lies in `[-⌈√dimension / 2⌉, +⌈√dimension / 2⌉]`. -/
theorem PixelSubtractionResponse_offsets {σ : Type} (sqrt : Nat → Dyadic)
    (hs : SqrtFaithful sqrt) (xFirst : Bool) (random : Random σ) (hr : random.ClosedRange)
    (s : σ) (dimensions : Nat) :
    (PixelSubtractionResponse.newRandom sqrt xFirst random s dimensions).2 =
      (random.afterNext (0 - ⌈Real.sqrt (dimensions : ℝ) / 2⌉)
        ⌈Real.sqrt (dimensions : ℝ) / 2⌉)^[4] s ∧
    (PixelSubtractionResponse.newRandom sqrt xFirst random s dimensions).1.dimensions
      = dimensions ∧
    (PixelSubtractionResponse.newRandom sqrt xFirst random s dimensions).1.offset_0 =
      (if xFirst then
        ⟨(random.Next (0 - ⌈Real.sqrt (dimensions : ℝ) / 2⌉)
            ⌈Real.sqrt (dimensions : ℝ) / 2⌉ s).1,
          (random.Next (0 - ⌈Real.sqrt (dimensions : ℝ) / 2⌉)
            ⌈Real.sqrt (dimensions : ℝ) / 2⌉
            ((random.afterNext (0 - ⌈Real.sqrt (dimensions : ℝ) / 2⌉)
              ⌈Real.sqrt (dimensions : ℝ) / 2⌉)^[1] s)).1⟩
      else
        ⟨(random.Next (0 - ⌈Real.sqrt (dimensions : ℝ) / 2⌉)
            ⌈Real.sqrt (dimensions : ℝ) / 2⌉
            ((random.afterNext (0 - ⌈Real.sqrt (dimensions : ℝ) / 2⌉)
              ⌈Real.sqrt (dimensions : ℝ) / 2⌉)^[1] s)).1,
          (random.Next (0 - ⌈Real.sqrt (dimensions : ℝ) / 2⌉)
            ⌈Real.sqrt (dimensions : ℝ) / 2⌉ s).1⟩) ∧
    (PixelSubtractionResponse.newRandom sqrt xFirst random s dimensions).1.offset_1 =
      (if xFirst then
        ⟨(random.Next (0 - ⌈Real.sqrt (dimensions : ℝ) / 2⌉)
            ⌈Real.sqrt (dimensions : ℝ) / 2⌉
            ((random.afterNext (0 - ⌈Real.sqrt (dimensions : ℝ) / 2⌉)
              ⌈Real.sqrt (dimensions : ℝ) / 2⌉)^[2] s)).1,
          (random.Next (0 - ⌈Real.sqrt (dimensions : ℝ) / 2⌉)
            ⌈Real.sqrt (dimensions : ℝ) / 2⌉
            ((random.afterNext (0 - ⌈Real.sqrt (dimensions : ℝ) / 2⌉)
              ⌈Real.sqrt (dimensions : ℝ) / 2⌉)^[3] s)).1⟩
      else
        ⟨(random.Next (0 - ⌈Real.sqrt (dimensions : ℝ) / 2⌉)
            ⌈Real.sqrt (dimensions : ℝ) / 2⌉
            ((random.afterNext (0 - ⌈Real.sqrt (dimensions : ℝ) / 2⌉)
              ⌈Real.sqrt (dimensions : ℝ) / 2⌉)^[3] s)).1,
          (random.Next (0 - ⌈Real.sqrt (dimensions : ℝ) / 2⌉)
            ⌈Real.sqrt (dimensions : ℝ) / 2⌉
            ((random.afterNext (0 - ⌈Real.sqrt (dimensions : ℝ) / 2⌉)
              ⌈Real.sqrt (dimensions : ℝ) / 2⌉)^[2] s)).1⟩) ∧
    (∀ p, (p = (PixelSubtractionResponse.newRandom sqrt xFirst random s dimensions).1.offset_0 ∨
        p = (PixelSubtractionResponse.newRandom sqrt xFirst random s dimensions).1.offset_1) →
      -⌈Real.sqrt (dimensions : ℝ) / 2⌉ ≤ p.x ∧ p.x ≤ ⌈Real.sqrt (dimensions : ℝ) / 2⌉ ∧
      -⌈Real.sqrt (dimensions : ℝ) / 2⌉ ≤ p.y ∧ p.y ≤ ⌈Real.sqrt (dimensions : ℝ) / 2⌉) := by
  have hub := pixelSubtractionBound_eq_ceil sqrt hs dimensions
  have h0 := (pixelSubtractionBound_spec sqrt hs dimensions).1
  rw [← hub]
  have hle : 0 - pixelSubtractionBound sqrt dimensions ≤ pixelSubtractionBound sqrt dimensions := by
    omega
  refine ⟨?_, rfl, ?_, ?_, ?_⟩
  · unfold PixelSubtractionResponse.newRandom
    simp only [drawPoint_state, Function.iterate_succ, Function.iterate_zero, Function.comp_apply,
      id_eq]
  · unfold PixelSubtractionResponse.newRandom drawPoint Random.afterNext
    cases xFirst <;> rfl
  · unfold PixelSubtractionResponse.newRandom drawPoint Random.afterNext
    cases xFirst <;> rfl
  · intro p hp
    have hneg : -pixelSubtractionBound sqrt dimensions
        = 0 - pixelSubtractionBound sqrt dimensions := by omega
    rw [hneg]
    rcases hp with hp | hp
    · rw [hp]
      exact drawPoint_range xFirst random hr _ _ hle s
    · rw [hp]
      exact drawPoint_range xFirst random hr _ _ hle _

/-- The always-upper-bound source answers within the closed range. -/
theorem upperSource_closedRange : upperSource.ClosedRange :=
  fun _ _ _ h => ⟨h, le_refl _⟩

/-- The cycling source answers within the closed range. -/
theorem cyclingSource_closedRange : cyclingSource.ClosedRange := by
  intro lb ub s h
  have hpos : (0 : Int) < ub - lb + 1 := by omega
  have h1 := Int.emod_nonneg (s : Int) (ne_of_gt hpos)
  have h2 := Int.emod_lt_of_pos (s : Int) hpos
  show lb ≤ lb + (s : Int) % (ub - lb + 1) ∧ lb + (s : Int) % (ub - lb + 1) ≤ ub
  constructor <;> omega

/-- Witness for C11: dimension 25 with the sample `sqrt` and the cycling
source, whose four draws -3, -2, -1, 0 become the offsets (-3, -2) and
(-1, 0). -/
theorem PixelSubtractionResponse_offsets_witness :
    ((PixelSubtractionResponse.newRandom sampleSqrt true cyclingSource 0 25).1.offset_0
        = ⟨-3, -2⟩ ∧
      (PixelSubtractionResponse.newRandom sampleSqrt true cyclingSource 0 25).1.offset_1
        = ⟨-1, 0⟩) ∧
    (PixelSubtractionResponse.newRandom sampleSqrt true cyclingSource 0 25).2 =
      (cyclingSource.afterNext (0 - ⌈Real.sqrt ((25 : Nat) : ℝ) / 2⌉)
        ⌈Real.sqrt ((25 : Nat) : ℝ) / 2⌉)^[4] 0 ∧
    (∀ p, (p = (PixelSubtractionResponse.newRandom sampleSqrt true cyclingSource 0 25).1.offset_0 ∨
        p = (PixelSubtractionResponse.newRandom sampleSqrt true cyclingSource 0 25).1.offset_1) →
      -⌈Real.sqrt ((25 : Nat) : ℝ) / 2⌉ ≤ p.x ∧ p.x ≤ ⌈Real.sqrt ((25 : Nat) : ℝ) / 2⌉ ∧
      -⌈Real.sqrt ((25 : Nat) : ℝ) / 2⌉ ≤ p.y ∧ p.y ≤ ⌈Real.sqrt ((25 : Nat) : ℝ) / 2⌉) :=
  ⟨⟨by decide, by decide⟩,
    (PixelSubtractionResponse_offsets sampleSqrt sampleSqrt_faithful true cyclingSource
      cyclingSource_closedRange 0 25).1,
    (PixelSubtractionResponse_offsets sampleSqrt sampleSqrt_faithful true cyclingSource
      cyclingSource_closedRange 0 25).2.2.2.2⟩

/-- C12, the failing input: for dimension 25, the square of the odd patch size
5, the pixel-subtraction bound is 3 and the always-upper-bound source yields
the offsets (3, 3), outside the documented range `(5 - 1) / 2 = 2`. -/
theorem PixelSubtractionResponse_outside_patch :
    pixelSubtractionBound sampleSqrt (5 * 5) = 3 ∧
    (PixelSubtractionResponse.newRandom sampleSqrt true upperSource () (5 * 5)).1.offset_0
      = ⟨3, 3⟩ ∧
    (PixelSubtractionResponse.newRandom sampleSqrt true upperSource () (5 * 5)).1.offset_1
      = ⟨3, 3⟩ ∧
    ¬ ((3 : Int) ≤ (5 - 1) / 2) := by
  decide

/-! ## The hyperplane response -/

/-- The filling loop of the hyperplane constructor after `C` iterations: the
vector keeps its length, `2 * C` draws were made, entry `c < C` is the point
drawn at the state reached after `2 * c` draws, and the later entries are
untouched. -/
theorem hyperplaneLoop_spec {σ : Type} (xFirst : Bool) (random : Random σ) (lb ub : Int)
    (s : σ) (d : Nat) (p0 : Point) (C : Nat) :
    (forRange C (fun c (st : List Point × σ) =>
        ((st.1.set c (drawPoint xFirst random lb ub st.2).1),
          (drawPoint xFirst random lb ub st.2).2)) (List.replicate d p0, s)).1.length = d ∧
    (forRange C (fun c (st : List Point × σ) =>
        ((st.1.set c (drawPoint xFirst random lb ub st.2).1),
          (drawPoint xFirst random lb ub st.2).2)) (List.replicate d p0, s)).2
      = (random.afterNext lb ub)^[2 * C] s ∧
    ∀ c, c < d →
      (forRange C (fun c (st : List Point × σ) =>
        ((st.1.set c (drawPoint xFirst random lb ub st.2).1),
          (drawPoint xFirst random lb ub st.2).2)) (List.replicate d p0, s)).1[c]? =
      some (if c < C then (drawPoint xFirst random lb ub ((random.afterNext lb ub)^[2 * c] s)).1
        else p0) := by
  induction C with
  | zero =>
    refine ⟨by simp [forRange_zero], by simp [forRange_zero], fun c hc => ?_⟩
    rw [forRange_zero]
    simp [hc]
  | succ C ih =>
    obtain ⟨h1, h2, h3⟩ := ih
    rw [forRange_succ]
    refine ⟨by simp only [List.length_set]; exact h1, ?_, fun c hc => ?_⟩
    · simp only [h2]
      rw [drawPoint_state, show 2 * (C + 1) = (2 * C + 1) + 1 by ring, Function.iterate_succ_apply',
        Function.iterate_succ_apply']
    · simp only [List.getElem?_set, h1, h2]
      by_cases hcC : C = c
      · subst hcC
        simp [hc]
      · rw [if_neg hcC, h3 c hc]
        by_cases hlt : c < C
        · rw [if_pos hlt, if_pos (by omega)]
        · rw [if_neg hlt, if_neg (by omega)]

/-- The offsets the hyperplane constructor produces. -/
theorem hyperplane_offsets_getElem? {σ : Type} (sqrt : Nat → Dyadic) (xFirst : Bool)
    (random : Random σ) (s : σ) (d : Nat) :
    (RandomHyperplaneFeatureResponse.newRandom sqrt xFirst random s d).1.offset.length = d ∧
    (RandomHyperplaneFeatureResponse.newRandom sqrt xFirst random s d).2 =
      (random.afterNext (0 - hyperplaneBound sqrt d) (hyperplaneBound sqrt d))^[2 * d] s ∧
    ∀ c, c < d →
      (RandomHyperplaneFeatureResponse.newRandom sqrt xFirst random s d).1.offset[c]? =
        some (drawPoint xFirst random (0 - hyperplaneBound sqrt d) (hyperplaneBound sqrt d)
          ((random.afterNext (0 - hyperplaneBound sqrt d) (hyperplaneBound sqrt d))^[2 * c]
            s)).1 := by
  obtain ⟨h1, h2, h3⟩ := hyperplaneLoop_spec xFirst random (0 - hyperplaneBound sqrt d)
    (hyperplaneBound sqrt d) s d ⟨0, 0⟩ d
  refine ⟨h1, h2, fun c hc => ?_⟩
  have := h3 c hc
  rw [if_pos hc] at this
  exact this

/-- C13: for every dimension `d`, every faithful `sqrt`, either argument
order and every random source with closed-range `Next`, the randomized
constructor of `RandomHyperplaneFeatureResponse` produces exactly `d`
offsets with `2 * d` calls of `Next`, and every coordinate of every offset
lies in `[-⌊(√d - 1) / 2⌋, +⌊(√d - 1) / 2⌋]`. -/
theorem RandomHyperplane_offsets {σ : Type} (sqrt : Nat → Dyadic) (hs : SqrtFaithful sqrt)
    (xFirst : Bool) (random : Random σ) (hr : random.ClosedRange) (s : σ) (d : Nat) :
    (RandomHyperplaneFeatureResponse.newRandom sqrt xFirst random s d).1.offset.length = d ∧
    (RandomHyperplaneFeatureResponse.newRandom sqrt xFirst random s d).1.dimensions = d ∧
    (RandomHyperplaneFeatureResponse.newRandom sqrt xFirst random s d).2 =
      (random.afterNext (0 - hyperplaneBound sqrt d) (hyperplaneBound sqrt d))^[2 * d] s ∧
    ∀ p ∈ (RandomHyperplaneFeatureResponse.newRandom sqrt xFirst random s d).1.offset,
      -⌊(Real.sqrt (d : ℝ) - 1) / 2⌋ ≤ p.x ∧ p.x ≤ ⌊(Real.sqrt (d : ℝ) - 1) / 2⌋ ∧
      -⌊(Real.sqrt (d : ℝ) - 1) / 2⌋ ≤ p.y ∧ p.y ≤ ⌊(Real.sqrt (d : ℝ) - 1) / 2⌋ := by
  obtain ⟨h1, h2, h3⟩ := hyperplane_offsets_getElem? sqrt xFirst random s d
  refine ⟨h1, rfl, h2, fun p hp => ?_⟩
  obtain ⟨c, hc, hget⟩ := List.getElem_of_mem hp
  have hcd : c < d := by rw [← h1]; exact hc
  have hd : 1 ≤ d := by omega
  have hsome := h3 c hcd
  rw [List.getElem?_eq_getElem hc, hget] at hsome
  simp only [Option.some.injEq] at hsome
  rw [← hyperplaneBound_eq_floor sqrt hs d hd, hsome]
  have h0 := (hyperplaneBound_spec sqrt hs d).1
  have hneg : -hyperplaneBound sqrt d = 0 - hyperplaneBound sqrt d := by omega
  rw [hneg]
  exact drawPoint_range xFirst random hr _ _ (by omega) _

/-- The counting source answers within the closed range. -/
theorem countingSource_closedRange : countingSource.ClosedRange :=
  fun _ _ _ h => ⟨le_refl _, h⟩

/-- Witness for C13: dimension 9 with the sample `sqrt` and the counting
source. -/
theorem RandomHyperplane_offsets_witness :
    (RandomHyperplaneFeatureResponse.newRandom sampleSqrt true countingSource 0 9).1.offset.length
      = 9 ∧
    (RandomHyperplaneFeatureResponse.newRandom sampleSqrt true countingSource 0 9).1.dimensions
      = 9 ∧
    (RandomHyperplaneFeatureResponse.newRandom sampleSqrt true countingSource 0 9).2 =
      (countingSource.afterNext (0 - hyperplaneBound sampleSqrt 9)
        (hyperplaneBound sampleSqrt 9))^[2 * 9] 0 ∧
    ∀ p ∈ (RandomHyperplaneFeatureResponse.newRandom sampleSqrt true countingSource 0 9).1.offset,
      -⌊(Real.sqrt ((9 : Nat) : ℝ) - 1) / 2⌋ ≤ p.x ∧
      p.x ≤ ⌊(Real.sqrt ((9 : Nat) : ℝ) - 1) / 2⌋ ∧
      -⌊(Real.sqrt ((9 : Nat) : ℝ) - 1) / 2⌋ ≤ p.y ∧
      p.y ≤ ⌊(Real.sqrt ((9 : Nat) : ℝ) - 1) / 2⌋ :=
  RandomHyperplane_offsets sampleSqrt sampleSqrt_faithful true countingSource
    countingSource_closedRange 0 9

/-- C14: a `RandomHyperplaneFeatureResponse` of dimension 0, default
constructed or built by the randomized constructor with `dimensions = 0`
(for any `sqrt`, argument order, random source and state), has an empty
offset list, leaves the random state as it was, and its response, the sum of
the intensities over its offsets, is 0 for every collection and index. -/
theorem RandomHyperplane_dimension_zero {σ : Type} (sqrt : Nat → Dyadic) (xFirst : Bool)
    (random : Random σ) (s : σ) (intensity : DataPointCollection → Nat → Point → Int)
    (data : DataPointCollection) (index : Nat) :
    RandomHyperplaneFeatureResponse.new.offset = [] ∧
    RandomHyperplaneFeatureResponse.new.dimensions = 0 ∧
    RandomHyperplaneFeatureResponse.new.GetResponse intensity data index = 0 ∧
    (RandomHyperplaneFeatureResponse.newRandom sqrt xFirst random s 0).1.offset = [] ∧
    (RandomHyperplaneFeatureResponse.newRandom sqrt xFirst random s 0).1.dimensions = 0 ∧
    (RandomHyperplaneFeatureResponse.newRandom sqrt xFirst random s 0).2 = s ∧
    (RandomHyperplaneFeatureResponse.newRandom sqrt xFirst random s 0).1.GetResponse
      intensity data index = 0 := by
  have e : RandomHyperplaneFeatureResponse.newRandom sqrt xFirst random s 0
      = (⟨[], 0⟩, s) := rfl
  rw [e]
  exact ⟨rfl, rfl, rfl, rfl, rfl, rfl, rfl⟩

/-! ## Reproducibility -/

/-- Related states stay related after any number of draws. -/
theorem sameOutputs_iterate {σ₁ σ₂ : Type} (random₁ : Random σ₁) (random₂ : Random σ₂)
    (R : σ₁ → σ₂ → Prop) (h : SameOutputs random₁ random₂ R) (lb ub : Int) (n : Nat) :
    ∀ s₁ s₂, R s₁ s₂ →
      R ((random₁.afterNext lb ub)^[n] s₁) ((random₂.afterNext lb ub)^[n] s₂) := by
  induction n with
  | zero => intro s₁ s₂ hR; exact hR
  | succ n ih =>
    intro s₁ s₂ hR
    rw [Function.iterate_succ_apply, Function.iterate_succ_apply]
    exact ih _ _ (h s₁ s₂ hR lb ub).2

/-- Related states give the same drawn point. -/
theorem sameOutputs_drawPoint {σ₁ σ₂ : Type} (random₁ : Random σ₁) (random₂ : Random σ₂)
    (R : σ₁ → σ₂ → Prop) (h : SameOutputs random₁ random₂ R) (xFirst : Bool) (lb ub : Int)
    (s₁ : σ₁) (s₂ : σ₂) (hR : R s₁ s₂) :
    (drawPoint xFirst random₁ lb ub s₁).1 = (drawPoint xFirst random₂ lb ub s₂).1 ∧
    R (drawPoint xFirst random₁ lb ub s₁).2 (drawPoint xFirst random₂ lb ub s₂).2 := by
  obtain ⟨a1, a2⟩ := h s₁ s₂ hR lb ub
  obtain ⟨b1, b2⟩ := h _ _ a2 lb ub
  unfold drawPoint
  cases xFirst
  · simp only [Bool.false_eq_true, if_false]
    exact ⟨by rw [a1, b1], b2⟩
  · simp only [if_true]
    exact ⟨by rw [a1, b1], b2⟩

/-- C15: two feature responses of the same dimension, built by the same
constructor from random sources that give the same outputs (in particular
from one source in one seeded state), have identical offsets, hence
identical responses for every collection and sample index; the sources end
in states that again give the same outputs. -/
theorem feature_response_reproducible {σ₁ σ₂ : Type} (sqrt : Nat → Dyadic) (xFirst : Bool)
    (random₁ : Random σ₁) (random₂ : Random σ₂) (R : σ₁ → σ₂ → Prop)
    (hsame : SameOutputs random₁ random₂ R) (s₁ : σ₁) (s₂ : σ₂) (hR : R s₁ s₂)
    (dimensions : Nat) (intensity : DataPointCollection → Nat → Point → Int)
    (data : DataPointCollection) (index : Nat) :
    (RandomHyperplaneFeatureResponse.newRandom sqrt xFirst random₁ s₁ dimensions).1 =
      (RandomHyperplaneFeatureResponse.newRandom sqrt xFirst random₂ s₂ dimensions).1 ∧
    R (RandomHyperplaneFeatureResponse.newRandom sqrt xFirst random₁ s₁ dimensions).2
      (RandomHyperplaneFeatureResponse.newRandom sqrt xFirst random₂ s₂ dimensions).2 ∧
    (RandomHyperplaneFeatureResponse.newRandom sqrt xFirst random₁ s₁ dimensions).1.GetResponse
        intensity data index =
      (RandomHyperplaneFeatureResponse.newRandom sqrt xFirst random₂ s₂ dimensions).1.GetResponse
        intensity data index ∧
    (PixelSubtractionResponse.newRandom sqrt xFirst random₁ s₁ dimensions).1 =
      (PixelSubtractionResponse.newRandom sqrt xFirst random₂ s₂ dimensions).1 ∧
    R (PixelSubtractionResponse.newRandom sqrt xFirst random₁ s₁ dimensions).2
      (PixelSubtractionResponse.newRandom sqrt xFirst random₂ s₂ dimensions).2 ∧
    (PixelSubtractionResponse.newRandom sqrt xFirst random₁ s₁ dimensions).1.GetResponse
        intensity data index =
      (PixelSubtractionResponse.newRandom sqrt xFirst random₂ s₂ dimensions).1.GetResponse
        intensity data index := by
  -- the hyperplane response
  obtain ⟨l1, f1, g1⟩ := hyperplane_offsets_getElem? sqrt xFirst random₁ s₁ dimensions
  obtain ⟨l2, f2, g2⟩ := hyperplane_offsets_getElem? sqrt xFirst random₂ s₂ dimensions
  have hoff : (RandomHyperplaneFeatureResponse.newRandom sqrt xFirst random₁ s₁ dimensions).1.offset
      = (RandomHyperplaneFeatureResponse.newRandom sqrt xFirst random₂ s₂ dimensions).1.offset := by
    apply List.ext_getElem?
    intro c
    by_cases hc : c < dimensions
    · rw [g1 c hc, g2 c hc]
      exact congrArg some (sameOutputs_drawPoint random₁ random₂ R hsame xFirst _ _ _ _
        (sameOutputs_iterate random₁ random₂ R hsame _ _ (2 * c) s₁ s₂ hR)).1
    · rw [List.getElem?_eq_none (by omega), List.getElem?_eq_none (by omega)]
  have hhyp : (RandomHyperplaneFeatureResponse.newRandom sqrt xFirst random₁ s₁ dimensions).1 =
      (RandomHyperplaneFeatureResponse.newRandom sqrt xFirst random₂ s₂ dimensions).1 := by
    have hd : (RandomHyperplaneFeatureResponse.newRandom sqrt xFirst random₁ s₁
        dimensions).1.dimensions =
        (RandomHyperplaneFeatureResponse.newRandom sqrt xFirst random₂ s₂
          dimensions).1.dimensions := rfl
    cases h1 : (RandomHyperplaneFeatureResponse.newRandom sqrt xFirst random₁ s₁ dimensions).1
    cases h2 : (RandomHyperplaneFeatureResponse.newRandom sqrt xFirst random₂ s₂ dimensions).1
    rw [h1, h2] at hoff hd
    simp only at hoff hd
    rw [hoff, hd]
  -- the pixel-subtraction response
  obtain ⟨p0, q0⟩ := sameOutputs_drawPoint random₁ random₂ R hsame xFirst
    (0 - pixelSubtractionBound sqrt dimensions) (pixelSubtractionBound sqrt dimensions) s₁ s₂ hR
  obtain ⟨p1, q1⟩ := sameOutputs_drawPoint random₁ random₂ R hsame xFirst
    (0 - pixelSubtractionBound sqrt dimensions) (pixelSubtractionBound sqrt dimensions) _ _ q0
  have hpix : (PixelSubtractionResponse.newRandom sqrt xFirst random₁ s₁ dimensions).1 =
      (PixelSubtractionResponse.newRandom sqrt xFirst random₂ s₂ dimensions).1 := by
    unfold PixelSubtractionResponse.newRandom
    simp only [p0, p1]
  refine ⟨hhyp, ?_, by rw [hhyp], hpix, q1, by rw [hpix]⟩
  rw [f1, f2]
  exact sameOutputs_iterate random₁ random₂ R hsame _ _ (2 * dimensions) s₁ s₂ hR

/-- Witness for C15: the counting source and the stateless lower-bound source
give the same outputs from any pair of states. -/
theorem feature_response_reproducible_witness :
    SameOutputs countingSource zeroSource (fun _ _ => True) ∧
    (RandomHyperplaneFeatureResponse.newRandom sampleSqrt true countingSource 0 9).1 =
      (RandomHyperplaneFeatureResponse.newRandom sampleSqrt true zeroSource () 9).1 ∧
    True ∧
    (RandomHyperplaneFeatureResponse.newRandom sampleSqrt true countingSource 0 9).1.GetResponse
        (fun _ _ p => p.x) sampleCollection 0 =
      (RandomHyperplaneFeatureResponse.newRandom sampleSqrt true zeroSource () 9).1.GetResponse
        (fun _ _ p => p.x) sampleCollection 0 ∧
    (PixelSubtractionResponse.newRandom sampleSqrt true countingSource 0 9).1 =
      (PixelSubtractionResponse.newRandom sampleSqrt true zeroSource () 9).1 ∧
    True ∧
    (PixelSubtractionResponse.newRandom sampleSqrt true countingSource 0 9).1.GetResponse
        (fun _ _ p => p.x) sampleCollection 0 =
      (PixelSubtractionResponse.newRandom sampleSqrt true zeroSource () 9).1.GetResponse
        (fun _ _ p => p.x) sampleCollection 0 :=
  ⟨fun _ _ _ _ _ => ⟨rfl, trivial⟩,
    feature_response_reproducible sampleSqrt true countingSource zeroSource (fun _ _ => True)
      (fun _ _ _ _ _ => ⟨rfl, trivial⟩) 0 () trivial 9 (fun _ _ p => p.x) sampleCollection 0⟩

/-! ## The normal-variate generator -/

/-- One level of `randn`: a rejected attempt recurses from the state after the
pair, an accepted one returns the `float` product `u * x`. -/
theorem randn_succ {σ : Type} (fp : FloatRounding) (boxMuller : Dyadic → Dyadic)
    (random : Random σ) (depth : Nat) (s : σ) :
    randn fp boxMuller random (depth + 1) s =
      if attemptRejected fp random s then randn fp boxMuller random depth (random.afterPair s)
      else some (fp.toFloat ((attemptU fp random s).mul (boxMuller (attemptW fp random s))),
        random.afterPair s) :=
  rfl

/-- While every attempt is rejected `randn` uses up any recursion depth. -/
theorem randn_none_of_rejected {σ : Type} (fp : FloatRounding) (boxMuller : Dyadic → Dyadic)
    (random : Random σ) :
    ∀ (depth : Nat) (s : σ),
      (∀ k, k < depth → attemptRejected fp random ((random.afterPair)^[k] s) = true) →
      randn fp boxMuller random depth s = none := by
  intro depth
  induction depth with
  | zero => intro s _; rfl
  | succ depth ih =>
    intro s h
    have h0 : attemptRejected fp random s = true := h 0 (by omega)
    rw [randn_succ, if_pos h0]
    apply ih
    intro k hk
    have := h (k + 1) (by omega)
    rwa [Function.iterate_succ_apply] at this

/-- C16 (as amended): for every rounding of the floating-point operations,
`randn` retries exactly when the `float w` is zero or greater than 1. If the
first `n` attempts are rejected and attempt `n` is accepted, it returns
`u * x` of that attempt after `n` retries and `2 * (n + 1)` draws, provided
the recursion depth `n + 1` is available, and does not return with less;
there is no bound on `n`, and when every attempt is rejected it never
returns, whatever depth is available. -/
theorem randn_returns {σ : Type} (fp : FloatRounding) (boxMuller : Dyadic → Dyadic)
    (random : Random σ) (s : σ) :
    (∀ depth, randn fp boxMuller random (depth + 1) s =
      if (attemptW fp random s).isZero || (attemptW fp random s).gtOne then
        randn fp boxMuller random depth (random.afterPair s)
      else some (fp.toFloat ((attemptU fp random s).mul (boxMuller (attemptW fp random s))),
        random.afterPair s)) ∧
    (∀ n, (∀ k, k < n → attemptRejected fp random ((random.afterPair)^[k] s) = true) →
      attemptRejected fp random ((random.afterPair)^[n] s) = false →
      (∀ depth, n < depth →
        randn fp boxMuller random depth s =
          some (fp.toFloat ((attemptU fp random ((random.afterPair)^[n] s)).mul
              (boxMuller (attemptW fp random ((random.afterPair)^[n] s)))),
            (random.afterPair)^[n + 1] s)) ∧
      (∀ depth, depth ≤ n → randn fp boxMuller random depth s = none)) ∧
    ((∀ k, attemptRejected fp random ((random.afterPair)^[k] s) = true) →
      ∀ depth, randn fp boxMuller random depth s = none) := by
  refine ⟨fun depth => randn_succ fp boxMuller random depth s, ?_, ?_⟩
  · intro n
    induction n generalizing s with
    | zero =>
      intro _ hacc
      refine ⟨fun depth hd => ?_, fun depth hd => ?_⟩
      · obtain ⟨m, rfl⟩ : ∃ m, depth = m + 1 := ⟨depth - 1, by omega⟩
        rw [randn_succ]
        simp only [Function.iterate_zero, id_eq] at hacc
        rw [if_neg (by simp [hacc])]
        rfl
      · have : depth = 0 := by omega
        rw [this]; rfl
    | succ n ih =>
      intro hrej hacc
      have h0 : attemptRejected fp random s = true := hrej 0 (by omega)
      have hrej' : ∀ k, k < n →
          attemptRejected fp random ((random.afterPair)^[k] (random.afterPair s)) = true := by
        intro k hk
        have := hrej (k + 1) (by omega)
        rwa [Function.iterate_succ_apply] at this
      have hacc' : attemptRejected fp random ((random.afterPair)^[n] (random.afterPair s))
          = false := by
        rwa [Function.iterate_succ_apply] at hacc
      obtain ⟨ih1, ih2⟩ := ih (random.afterPair s) hrej' hacc'
      refine ⟨fun depth hd => ?_, fun depth hd => ?_⟩
      · obtain ⟨m, rfl⟩ : ∃ m, depth = m + 1 := ⟨depth - 1, by omega⟩
        rw [randn_succ, if_pos h0, ih1 m (by omega)]
        rfl
      · cases depth with
        | zero => rfl
        | succ m => rw [randn_succ, if_pos h0]; exact ih2 m (by omega)
  · intro hall depth
    exact randn_none_of_rejected fp boxMuller random depth s (fun k _ => hall k)

/-- Witness for C16, in IEEE arithmetic: the retry source (doubles 0, 0, then
3/4) is rejected once (`w = 2`) and accepted at the second attempt
(`w = 1/2`), so `randn` returns with recursion depth 2 and not with depth 1.
At the rounding boundary, the draws 0 and `1/2 + 2 ^ (-21)` give the exact
sum `1 + 2 ^ (-40)`, which rounds to the `float` 1: the attempt is accepted. -/
theorem randn_returns_witness :
    (attemptRejected ieeeRounding retrySource ((retrySource.afterPair)^[0] 0) = true ∧
      attemptRejected ieeeRounding retrySource ((retrySource.afterPair)^[1] 0) = false) ∧
    (randn ieeeRounding (fun w => w) retrySource 2 0 =
        some (ieeeRounding.toFloat
          ((attemptU ieeeRounding retrySource ((retrySource.afterPair)^[1] 0)).mul
            ((fun w => w) (attemptW ieeeRounding retrySource ((retrySource.afterPair)^[1] 0)))),
          (retrySource.afterPair)^[1 + 1] 0) ∧
      randn ieeeRounding (fun w => w) retrySource 1 0 = none) ∧
    (attemptW ieeeRounding boundarySource 0 = ⟨8388608, 23⟩ ∧
      attemptRejected ieeeRounding boundarySource 0 = false) :=
  ⟨⟨by decide, by decide⟩,
    ⟨((randn_returns ieeeRounding (fun w => w) retrySource 0).2.1 1
        (fun k hk => by
          have hk0 : k = 0 := by omega
          subst hk0
          decide)
        (by decide)).1 2 (by omega),
      ((randn_returns ieeeRounding (fun w => w) retrySource 0).2.1 1
        (fun k hk => by
          have hk0 : k = 0 := by omega
          subst hk0
          decide)
        (by decide)).2 1 (by omega)⟩,
    ⟨by decide, by decide⟩⟩

/-- C16 (as stated) fails, in IEEE arithmetic: with `NextDouble` constantly
0.5 every attempt has `w = 0`, with `NextDouble` constantly 0 every attempt
has `w = 2`, and in both cases `randn` returns for no recursion depth. -/
theorem randn_returns_counterexample :
    ((attemptW ieeeRounding upperSource ()).isZero = true ∧
      ¬ ∃ depth, (randn ieeeRounding (fun w => w) upperSource depth ()).isSome = true) ∧
    ((attemptW ieeeRounding zeroSource ()).gtOne = true ∧
      ¬ ∃ depth, (randn ieeeRounding (fun w => w) zeroSource depth ()).isSome = true) := by
  refine ⟨⟨by decide, ?_⟩, ⟨by decide, ?_⟩⟩
  · rintro ⟨depth, h⟩
    have hnone : ∀ d : Nat, randn ieeeRounding (fun w => w) upperSource d () = none := by
      intro d
      induction d with
      | zero => rfl
      | succ d ih =>
        rw [randn_succ, if_pos (by decide)]
        exact ih
    rw [hnone depth] at h
    exact absurd h (by decide)
  · rintro ⟨depth, h⟩
    have hnone : ∀ d : Nat, randn ieeeRounding (fun w => w) zeroSource d () = none := by
      intro d
      induction d with
      | zero => rfl
      | succ d ih =>
        rw [randn_succ, if_pos (by decide)]
        exact ih
    rw [hnone depth] at h
    exact absurd h (by decide)

/-! ## Scalar members and small dimensions -/

/-- The classification pixel body leaves the scalar members alone. -/
theorem classificationPixel_header (L I : Mat) (r c : Nat) (s s' : LoadState)
    (h : classificationPixel L I r c s = Except.ok s') :
    s'.result.header = s.result.header := by
  unfold classificationPixel vecSet at h
  split at h
  · split at h
    · simp at h
    · simp only [Except.ok.injEq] at h
      subst h
      rfl
  · split at h
    · split at h
      · simp at h
      · split at h
        · simp at h
        · simp only [Except.ok.injEq] at h
          subst h
          rfl
    · simp only [Except.ok.injEq] at h
      subst h
      rfl

/-- The regression pixel body leaves the scalar members alone. -/
theorem regressionPixel_header (cn : Int) (Dm L I : Mat) (r c : Nat) (s s' : LoadState)
    (h : regressionPixel cn Dm L I r c s = Except.ok s') :
    s'.result.header = s.result.header := by
  unfold regressionPixel vecSet at h
  split at h
  · split at h
    · split at h
      · simp at h
      · split at h
        · split at h
          · simp at h
          · simp only [Except.ok.injEq] at h
            subst h
            rfl
        · simp only [Except.ok.injEq] at h
          subst h
          rfl
    · split at h
      · split at h
        · simp at h
        · split at h
          · simp at h
          · simp only [Except.ok.injEq] at h
            subst h
            rfl
      · simp only [Except.ok.injEq] at h
        subst h
        rfl
  · simp only [Except.ok.injEq] at h
    subst h
    rfl

/-- The pixel loops leave the scalar members alone. -/
theorem pixelLoops_header (cl : Bool) (cn : Int) (Dm L I : Mat) (s s' : LoadState)
    (h : pixelLoops cl cn Dm L I s = Except.ok s') : s'.result.header = s.result.header := by
  unfold pixelLoops at h
  cases cl with
  | true =>
    simp only [if_true] at h
    refine forEachM_invariant (fun t => t.result.header = s.result.header) _ ?_ _ s s' rfl h
    intro r s1 s2 hJ1 h1
    refine forEachM_invariant (fun t => t.result.header = s.result.header) _ ?_ _ s1 s2 hJ1 h1
    intro c s3 s4 hJ3 h3
    exact (classificationPixel_header L I r c s3 s4 h3).trans hJ3
  | false =>
    simp only [Bool.false_eq_true, if_false] at h
    refine forEachM_invariant (fun t => t.result.header = s.result.header) _ ?_ _ s s' rfl h
    intro r s1 s2 hJ1 h1
    refine forEachM_invariant (fun t => t.result.header = s.result.header) _ ?_ _ s1 s2 hJ1 h1
    intro c s3 s4 hJ3 h3
    exact (regressionPixel_header cn Dm L I r c s3 s4 h3).trans hJ3

/-- The image loop body leaves the scalar members alone. -/
theorem loadImage_header (U : IPUtils) (P : ProgramParameters) (cl : Bool) (cn : Int)
    (i : Int) (s s' : LoadState) (h : loadImage U P cl cn i s = Except.ok s') :
    s'.result.header = s.result.header := by
  unfold loadImage at h
  simp only at h
  split at h
  · simp only [Except.ok.injEq] at h; rw [← h]
  · split at h
    · simp only [Except.ok.injEq] at h; rw [← h]
    · split at h
      · simp at h
      · split at h
        · simp at h
        · split at h
          · simp at h
          · split at h
            · simp only [Except.ok.injEq] at h; rw [← h]
            · split at h
              · simp at h
              · split at h
                · simp at h
                · rename_i images hi e s1 hp
                  simp only [Except.ok.injEq] at h
                  have := pixelLoops_header cl cn _ _ _ _ s1 hp
                  subst h
                  exact this

/-- Every collection `LoadImages` returns has the scalar members set before
the image loop. -/
theorem LoadImages_header (U : IPUtils) (P : ProgramParameters) (cl : Bool) (cn : Int)
    (coll : DataPointCollection) (h : LoadImages U P cl cn = Except.ok coll) :
    coll.header = (initialCollection U P cl cn).header := by
  unfold LoadImages at h
  split at h
  · simp at h
  · split at h
    · simp at h
    · split at h
      · simp at h
      · split at h
        · simp at h
        · rename_i s hs
          simp only [Except.ok.injEq] at h
          have hh := forEachM_invariant
            (fun t => t.result.header = (initialCollection U P cl cn).header) _
            (fun i s1 s2 hJ hb => (loadImage_header U P cl cn i s1 s2 hb).trans hJ)
            _ _ s rfl hs
          rw [← h]
          unfold finalTrim
          split
          · exact hh
          · exact hh

/-- The hyperplane bound is 0 for the dimensions 1 to 8. -/
theorem hyperplaneBound_small (sqrt : Nat → Dyadic) (hs : SqrtFaithful sqrt) (d : Nat)
    (h1 : 1 ≤ d) (h8 : d ≤ 8) : hyperplaneBound sqrt d = 0 := by
  obtain ⟨h0, _, h⟩ := hyperplaneBound_spec sqrt hs d
  obtain ⟨a, _⟩ := h h1
  by_contra hne
  have hb : 1 ≤ hyperplaneBound sqrt d := by omega
  have hd : (d : Int) ≤ 8 := by exact_mod_cast h8
  nlinarith

/-- With a zero bound every offset of the hyperplane response is `(0, 0)`. -/
theorem hyperplane_offsets_zero {σ : Type} (sqrt : Nat → Dyadic) (xFirst : Bool)
    (random : Random σ) (hr : random.ClosedRange) (s : σ) (d : Nat)
    (hb : hyperplaneBound sqrt d = 0) :
    (RandomHyperplaneFeatureResponse.newRandom sqrt xFirst random s d).1.offset =
      List.replicate d ⟨0, 0⟩ := by
  obtain ⟨h1, _, h3⟩ := hyperplane_offsets_getElem? sqrt xFirst random s d
  rw [List.eq_replicate_iff]
  refine ⟨h1, fun p hp => ?_⟩
  obtain ⟨c, hc, hget⟩ := List.getElem_of_mem hp
  have hcd : c < d := by rw [← h1]; exact hc
  have hsome := h3 c hcd
  rw [List.getElem?_eq_getElem hc, hget] at hsome
  simp only [Option.some.injEq] at hsome
  rw [hb] at hsome
  obtain ⟨a1, a2, a3, a4⟩ := drawPoint_range xFirst random hr (0 - 0) 0 (by omega)
    ((random.afterNext (0 - 0) 0)^[2 * c] s)
  rw [← hsome] at a1 a2 a3 a4
  cases p with
  | mk x y =>
    simp only at a1 a2 a3 a4
    have hx : x = 0 := by omega
    have hy : y = 0 := by omega
    rw [hx, hy]

/-- C20: for every faithful `sqrt` and every dimension `d` with `1 ≤ d ≤ 8`
the offset bound `(int)((sqrt(d) - 1) / 2)` of the hyperplane response is 0,
so with a closed-range random source each of its `d` offsets is `(0, 0)`;
every collection `LoadImages` returns for a split function other than the
pixel difference has `dimension_ = PatchSize`, so this is the case for the
patch sizes 1 to 7 (odd whenever `LoadImages` returns). -/
theorem RandomHyperplane_small_dimension {σ : Type} (sqrt : Nat → Dyadic)
    (hs : SqrtFaithful sqrt) (xFirst : Bool) (random : Random σ) (hr : random.ClosedRange)
    (s : σ) :
    (∀ d, 1 ≤ d → d ≤ 8 →
      hyperplaneBound sqrt d = 0 ∧
      (RandomHyperplaneFeatureResponse.newRandom sqrt xFirst random s d).1.offset =
        List.replicate d ⟨0, 0⟩) ∧
    (∀ U progParams classification class_number coll,
      LoadImages U progParams classification class_number = Except.ok coll →
      progParams.SplitFunctionType ≠ SplitFunctionDescriptor.PixelDifference →
      coll.dimension_ = progParams.PatchSize ∧ progParams.PatchSize % 2 = 1 ∧
      (1 ≤ progParams.PatchSize → progParams.PatchSize ≤ 7 →
        (RandomHyperplaneFeatureResponse.newRandom sqrt xFirst random s
          coll.dimension_.toNat).1.offset =
          List.replicate progParams.PatchSize.toNat ⟨0, 0⟩)) := by
  constructor
  · intro d h1 h8
    have hb := hyperplaneBound_small sqrt hs d h1 h8
    exact ⟨hb, hyperplane_offsets_zero sqrt xFirst random hr s d hb⟩
  · intro U P cl cn coll hret hfam
    have hh := LoadImages_header U P cl cn coll hret
    have hdim : coll.dimension_ = P.PatchSize := by
      have := congrArg DataPointCollection.dimension_ hh
      simp only [DataPointCollection.header, initialCollection, if_neg hfam] at this
      exact this
    have hodd : P.PatchSize % 2 = 1 := by
      by_contra hne
      unfold LoadImages at hret
      split at hret
      · simp at hret
      · rw [if_pos ((patch_odd_iff _).mpr hne)] at hret
        simp at hret
    refine ⟨hdim, hodd, fun h1 h7 => ?_⟩
    rw [hdim]
    exact hyperplane_offsets_zero sqrt xFirst random hr s _
      (hyperplaneBound_small sqrt hs _ (by omega) (by omega))

/-- Witness for C20: the sample `sqrt` and the counting source at dimension 8,
and the sample batch loaded for the hyperplane family with patch size 5. -/
theorem RandomHyperplane_small_dimension_witness :
    (hyperplaneBound sampleSqrt 8 = 0 ∧
      (RandomHyperplaneFeatureResponse.newRandom sampleSqrt true countingSource 0 8).1.offset =
        List.replicate 8 ⟨0, 0⟩) ∧
    (LoadImages sampleUtils sampleParamsHyperplane true 0).toOption.map
        DataPointCollection.dimension_ = some 5 ∧
    (RandomHyperplaneFeatureResponse.newRandom sampleSqrt true countingSource 0 5).1.offset =
      List.replicate 5 ⟨0, 0⟩ :=
  ⟨(RandomHyperplane_small_dimension sampleSqrt sampleSqrt_faithful true countingSource
      countingSource_closedRange 0).1 8 (by decide) (by decide),
    by rfl,
    ((RandomHyperplane_small_dimension sampleSqrt sampleSqrt_faithful true countingSource
      countingSource_closedRange 0).2 sampleUtils sampleParamsHyperplane true 0
      { sampleCollection with dimension_ := 5 } (by rfl) (by decide)).2.2 (by decide)
      (by decide)⟩

/-! ## Writes within the preallocation -/

/-- A successful checked write was below the length and keeps it. -/
theorem vecSet_ok_iff {α : Type} (v v' : List α) (n : Nat) (x : α)
    (h : vecSet v n x = Except.ok v') : n < v.length ∧ v'.length = v.length := by
  unfold vecSet at h
  split at h
  · simp only [Except.ok.injEq] at h
    subst h
    exact ⟨by assumption, by simp⟩
  · simp at h

/-- The classification pixel body keeps the lengths and keeps the counters
within them. -/
theorem classificationPixel_within (L I : Mat) (r c : Nat) (s s' : LoadState)
    (nI nL nT nD : Nat) (hJ : CountersWithin s nI nL nT nD)
    (h : classificationPixel L I r c s = Except.ok s') : CountersWithin s' nI nL nT nD := by
  obtain ⟨a1, a2, a3, a4, a5, a6, a7, a8⟩ := hJ
  unfold classificationPixel at h
  split at h
  · split at h
    · simp at h
    · rename_i labels hl
      obtain ⟨b1, b2⟩ := vecSet_ok_iff _ _ _ _ hl
      simp only [Except.ok.injEq] at h
      subst h
      exact ⟨a1, by simp only; omega, a3, a4, a5, by simp only; omega, a7, a8⟩
  · split at h
    · split at h
      · simp at h
      · rename_i labels hl
        obtain ⟨b1, b2⟩ := vecSet_ok_iff _ _ _ _ hl
        split at h
        · simp at h
        · rename_i data hd
          obtain ⟨c1, c2⟩ := vecSet_ok_iff _ _ _ _ hd
          simp only [Except.ok.injEq] at h
          subst h
          exact ⟨a1, by simp only; omega, a3, by simp only; omega, a5, by simp only; omega, a7,
            by simp only; omega⟩
    · simp only [Except.ok.injEq] at h
      subst h
      exact ⟨a1, a2, a3, a4, a5, a6, a7, a8⟩

/-- The regression pixel body keeps the lengths and keeps the counters within
them. -/
theorem regressionPixel_within (cn : Int) (Dm L I : Mat) (r c : Nat) (s s' : LoadState)
    (nI nL nT nD : Nat) (hJ : CountersWithin s nI nL nT nD)
    (h : regressionPixel cn Dm L I r c s = Except.ok s') : CountersWithin s' nI nL nT nD := by
  obtain ⟨a1, a2, a3, a4, a5, a6, a7, a8⟩ := hJ
  unfold regressionPixel at h
  split at h
  · split at h
    · split at h
      · simp at h
      · rename_i targets ht
        obtain ⟨b1, b2⟩ := vecSet_ok_iff _ _ _ _ ht
        split at h
        · split at h
          · simp at h
          · rename_i data hd
            obtain ⟨c1, c2⟩ := vecSet_ok_iff _ _ _ _ hd
            simp only [Except.ok.injEq] at h
            subst h
            exact ⟨a1, a2, by simp only; omega, by simp only; omega, a5, a6,
              by simp only; omega, by simp only; omega⟩
        · simp only [Except.ok.injEq] at h
          subst h
          exact ⟨a1, a2, by simp only; omega, a4, a5, a6, by simp only; omega, a8⟩
    · split at h
      · split at h
        · simp at h
        · rename_i targets ht
          obtain ⟨b1, b2⟩ := vecSet_ok_iff _ _ _ _ ht
          split at h
          · simp at h
          · rename_i data hd
            obtain ⟨c1, c2⟩ := vecSet_ok_iff _ _ _ _ hd
            simp only [Except.ok.injEq] at h
            subst h
            exact ⟨a1, a2, by simp only; omega, by simp only; omega, a5, a6,
              by simp only; omega, by simp only; omega⟩
      · simp only [Except.ok.injEq] at h
        subst h
        exact ⟨a1, a2, a3, a4, a5, a6, a7, a8⟩
  · simp only [Except.ok.injEq] at h
    subst h
    exact ⟨a1, a2, a3, a4, a5, a6, a7, a8⟩

/-- The pixel loops keep the lengths and keep the counters within them. -/
theorem pixelLoops_within (cl : Bool) (cn : Int) (Dm L I : Mat) (s s' : LoadState)
    (nI nL nT nD : Nat) (hJ : CountersWithin s nI nL nT nD)
    (h : pixelLoops cl cn Dm L I s = Except.ok s') : CountersWithin s' nI nL nT nD := by
  unfold pixelLoops at h
  cases cl with
  | true =>
    simp only [if_true] at h
    refine forEachM_invariant (fun t => CountersWithin t nI nL nT nD) _ ?_ _ s s' hJ h
    intro r s1 s2 hJ1 h1
    refine forEachM_invariant (fun t => CountersWithin t nI nL nT nD) _ ?_ _ s1 s2 hJ1 h1
    intro c s3 s4 hJ3 h3
    exact classificationPixel_within L I r c s3 s4 nI nL nT nD hJ3 h3
  | false =>
    simp only [Bool.false_eq_true, if_false] at h
    refine forEachM_invariant (fun t => CountersWithin t nI nL nT nD) _ ?_ _ s s' hJ h
    intro r s1 s2 hJ1 h1
    refine forEachM_invariant (fun t => CountersWithin t nI nL nT nD) _ ?_ _ s1 s2 hJ1 h1
    intro c s3 s4 hJ3 h3
    exact regressionPixel_within cn Dm L I r c s3 s4 nI nL nT nD hJ3 h3

/-- The image loop body keeps the lengths and keeps the counters within them. -/
theorem loadImage_within (U : IPUtils) (P : ProgramParameters) (cl : Bool) (cn : Int)
    (i : Int) (s s' : LoadState) (nI nL nT nD : Nat) (hJ : CountersWithin s nI nL nT nD)
    (h : loadImage U P cl cn i s = Except.ok s') : CountersWithin s' nI nL nT nD := by
  unfold loadImage at h
  simp only at h
  split at h
  · simp only [Except.ok.injEq] at h; exact h ▸ hJ
  · split at h
    · simp only [Except.ok.injEq] at h; exact h ▸ hJ
    · split at h
      · simp at h
      · split at h
        · simp at h
        · split at h
          · simp at h
          · split at h
            · simp only [Except.ok.injEq] at h; exact h ▸ hJ
            · split at h
              · simp at h
              · split at h
                · simp at h
                · rename_i images hi e s1 hp
                  simp only [Except.ok.injEq] at h
                  obtain ⟨b1, b2⟩ := vecSet_ok_iff _ _ _ _ hi
                  obtain ⟨a1, a2, a3, a4, a5, a6, a7, a8⟩ := hJ
                  have hJ2 : CountersWithin
                      { s with result := { s.result with images_ := images } }
                      nI nL nT nD :=
                    ⟨by simp only; omega, a2, a3, a4, a5, a6, a7, a8⟩
                  obtain ⟨c1, c2, c3, c4, c5, c6, c7, c8⟩ :=
                    pixelLoops_within cl cn _ _ _ _ s1 nI nL nT nD hJ2 hp
                  have hno := pixelLoops_img_no cl cn _ _ _ _ s1 hp
                  simp only at hno
                  subst h
                  exact ⟨c1, c2, c3, c4, by simp only; omega, c6, c7, c8⟩

/-- The state on entry to the image loop has its counters within the
preallocated lengths. -/
theorem initialState_within (U : IPUtils) (P : ProgramParameters) (cl : Bool) (cn : Int) :
    CountersWithin (initialState U P cl cn) P.NumberTrainingImages.toNat
      (if cl then (initialCollection U P cl cn).data_vec_size else 0)
      (if cl then 0 else (initialCollection U P cl cn).data_vec_size)
      (if lowMemory P cl cn then 0 else (initialCollection U P cl cn).data_vec_size) := by
  unfold CountersWithin initialState initialCollection lowMemory
  refine ⟨by simp, ?_, ?_, ?_, Nat.zero_le _, Nat.zero_le _, Nat.zero_le _, Nat.zero_le _⟩
  · cases cl <;> simp
  · cases cl <;> simp
  · cases hl : (P.TrainOnZeroIR && (cl || cn == -1)) <;> simp

/-- With a non-negative image count whose preallocation fits `int` and frame
pairs of the configured size the image loop never writes out of bounds. -/
theorem imageLoop_in_bounds (U : IPUtils) (P : ProgramParameters) (cl : Bool) (cn : Int)
    (hcount : 0 ≤ P.NumberTrainingImages)
    (hfits : P.NumberTrainingImages * P.ImgHeight * P.ImgWidth < 2 ^ 31)
    (hs : FramesSized U P) :
    forEachM (loadImage U P cl cn) (imageIndices P) (initialState U P cl cn) ≠
      Except.error LoadError.out_of_bounds := by
  have hsz : ∀ i ∈ imageIndices P, ∀ ir d, framePair U P i = some (ir, d) → pairFormatOk ir d →
      d.rows = P.ImgHeight.toNat ∧ d.cols = P.ImgWidth.toNat := by
    intro i hi ir d hfp hok
    have := hs i hi (ir, d) (by rw [hfp]; rfl) hok
    simp only at this
    omega
  have hcap : Capacity cl (initialState U P cl cn) (imageIndices P).length
      (P.ImgHeight.toNat * P.ImgWidth.toNat) := by
    have hb := capacity_bound _ _ _ hcount hfits
    norm_num at hb
    rw [imageIndices_length]
    unfold Capacity initialState initialCollection
    simp only [Nat.zero_add, List.length_replicate, le_refl, true_and]
    refine ⟨?_, ?_, ?_⟩
    · cases cl <;> simp [hb]
    · cases cl <;> simp [hb]
    · cases hl : (P.TrainOnZeroIR && (cl || cn == -1)) <;> simp [hb]
  obtain ⟨h1, h2⟩ := imageLoop_spec U P cl cn P.ImgHeight.toNat P.ImgWidth.toNat
    (imageIndices P) (initialState U P cl cn) rfl hcap hsz
  by_cases hw : ∀ i ∈ imageIndices P, ∀ ir d, framePair U P i = some (ir, d) →
      pairFormatOk ir d
  · obtain ⟨s, hok, _⟩ := h1 hw
    rw [hok]
    simp
  · push_neg at hw
    obtain ⟨e, he, hk⟩ := h2 hw
    rw [he]
    rcases hk with hk | hk <;> rw [hk] <;> simp

/-- C19 (as amended): when the image count is non-negative, `count * height
* width` fits `int`, and every loaded frame pair that passes the format
checks has the configured size, no write of `LoadImages` is out of bounds:
neither the image loop nor `LoadImages` ends in the out-of-bounds error.
After every prefix of the image loop that completes, the four vectors have
their preallocated lengths (`count` for `images_`, `data_vec_size` or 0 for
the others) and no counter is past the length of its vector, and
`data_vec_size` is `count * height * width`. -/
theorem LoadImages_writes_in_bounds (U : IPUtils) (progParams : ProgramParameters)
    (classification : Bool) (class_number : Int)
    (hcount : 0 ≤ progParams.NumberTrainingImages)
    (hfits : progParams.NumberTrainingImages * progParams.ImgHeight * progParams.ImgWidth
      < 2 ^ 31)
    (hs : FramesSized U progParams) :
    LoadImages U progParams classification class_number ≠
      Except.error LoadError.out_of_bounds ∧
    forEachM (loadImage U progParams classification class_number) (imageIndices progParams)
      (initialState U progParams classification class_number) ≠
      Except.error LoadError.out_of_bounds ∧
    (∀ n s, forEachM (loadImage U progParams classification class_number)
        ((imageIndices progParams).take n)
        (initialState U progParams classification class_number) = Except.ok s →
      CountersWithin s progParams.NumberTrainingImages.toNat
        (if classification then
          (initialCollection U progParams classification class_number).data_vec_size else 0)
        (if classification then 0 else
          (initialCollection U progParams classification class_number).data_vec_size)
        (if lowMemory progParams classification class_number then 0 else
          (initialCollection U progParams classification class_number).data_vec_size)) ∧
    (0 ≤ progParams.ImgHeight → 0 ≤ progParams.ImgWidth →
      ((initialCollection U progParams classification class_number).data_vec_size : Int) =
        progParams.NumberTrainingImages * progParams.ImgHeight * progParams.ImgWidth) := by
  have hloop := imageLoop_in_bounds U progParams classification class_number hcount hfits hs
  refine ⟨?_, hloop, ?_, ?_⟩
  · unfold LoadImages
    split
    · simp
    · split
      · simp
      · split
        · simp
        · split
          · rename_i e he
            intro hcon
            simp only [Except.error.injEq] at hcon
            rw [hcon] at he
            exact hloop he
          · simp
  · intro n s h
    exact forEachM_invariant (fun t => CountersWithin t _ _ _ _) _
      (fun i s1 s2 hJ hb => loadImage_within U progParams classification class_number i s1 s2
        _ _ _ _ hJ hb) _ _ s
      (initialState_within U progParams classification class_number) h
  · intro hH hW
    have hp : 0 ≤ progParams.NumberTrainingImages * progParams.ImgHeight * progParams.ImgWidth :=
      Int.mul_nonneg (Int.mul_nonneg hcount hH) hW
    show (((progParams.NumberTrainingImages * progParams.ImgHeight * progParams.ImgWidth)
      % 2 ^ 32).toNat : Int) = _
    rw [Int.emod_eq_of_lt hp (lt_trans hfits (by norm_num)), Int.toNat_of_nonneg hp]

/-- Witness for C19: the sample batch in classification mode. -/
theorem LoadImages_writes_in_bounds_witness :
    (0 ≤ sampleParams.NumberTrainingImages ∧
      sampleParams.NumberTrainingImages * sampleParams.ImgHeight * sampleParams.ImgWidth
        < 2 ^ 31 ∧
      FramesSized sampleUtils sampleParams) ∧
    LoadImages sampleUtils sampleParams true 0 ≠ Except.error LoadError.out_of_bounds ∧
    (∀ n s, forEachM (loadImage sampleUtils sampleParams true 0)
        ((imageIndices sampleParams).take n) (initialState sampleUtils sampleParams true 0)
          = Except.ok s →
      CountersWithin s 2 8 0 8) :=
  ⟨⟨by decide, by decide, by decide⟩,
    (LoadImages_writes_in_bounds sampleUtils sampleParams true 0 (by decide) (by decide)
      (by decide)).1,
    (LoadImages_writes_in_bounds sampleUtils sampleParams true 0 (by decide) (by decide)
      (by decide)).2.2.1⟩

/-- The first write of the classification pixel loops fails when the label
vector is already full. -/
theorem pixelLoops_no_room (cn : Int) (Dm L I : Mat) (s : LoadState) (hr : 0 < Dm.rows)
    (hc : 0 < Dm.cols) (htz : s.result.train_on_zero = false) (hpix : I.ptr 0 0 ≠ 0)
    (hl : s.result.labels_.length ≤ s.label_no) :
    pixelLoops true cn Dm L I s = Except.error LoadError.out_of_bounds := by
  have hpx : classificationPixel L I 0 0 s = Except.error LoadError.out_of_bounds := by
    unfold classificationPixel vecSet
    rw [if_neg (by simp [htz]), if_pos hpix, if_neg (by omega)]
  obtain ⟨m, hm⟩ : ∃ m, Dm.rows = m + 1 := ⟨Dm.rows - 1, by omega⟩
  obtain ⟨k, hk⟩ : ∃ k, Dm.cols = k + 1 := ⟨Dm.cols - 1, by omega⟩
  unfold pixelLoops
  rw [if_pos rfl, hm, hk, List.range_succ_eq_map m, List.range_succ_eq_map k]
  simp only [forEachM, hpx]

/-- The loop body fails on a retained image with a nonzero first pixel when
the label vector is already full (classification without training on zero). -/
theorem loadImage_no_room (U : IPUtils) (P : ProgramParameters) (cn : Int) (i : Int)
    (s : LoadState) (ir d : Mat) (R : Retained) (hfp : framePair U P i = some (ir, d))
    (hok : pairFormatOk ir d) (hpl : s.result.pixelLabels_ = binTable U P)
    (hR : retainedAt U P i = some R) (hI : s.img_no < s.result.images_.length)
    (hr : 0 < R.depth_image.rows) (hc : 0 < R.depth_image.cols)
    (htz : s.result.train_on_zero = false) (hpix : R.ir_preprocessed.ptr 0 0 ≠ 0)
    (hl : s.result.labels_.length ≤ s.label_no) :
    loadImage U P true cn i s = Except.error LoadError.out_of_bounds := by
  rw [loadImage_good U P true cn i s ir d hfp hok hpl, hR]
  simp only
  rw [vecSet_ok _ _ _ hI]
  simp only
  rw [pixelLoops_no_room cn _ _ _ _ hr hc (by exact htz) hpix (by exact hl)]

/-- A loop whose first iteration throws, throws. -/
theorem forEachM_cons_error {ι σ : Type} (body : ι → σ → Except LoadError σ) (i : ι)
    (rest : List ι) (s : σ) (e : LoadError) (h : body i s = Except.error e) :
    forEachM body (i :: rest) s = Except.error e := by
  simp only [forEachM, h]

/-- C19 (as stated) fails: `2 ^ 30` requested images of 2 by 2 pixels, with
one frame pair of that size at index 0. The count is non-negative and every
loaded pair has the configured size, but `count * height * width` is
`2 ^ 32`, the label vector is preallocated with length 0 and the first label
write is out of bounds. -/
theorem LoadImages_writes_in_bounds_counterexample :
    0 ≤ sampleParamsOverflow.NumberTrainingImages ∧
    FramesSized sampleUtils sampleParamsOverflow ∧
    (initialCollection sampleUtils sampleParamsOverflow true 0).data_vec_size = 0 ∧
    LoadImages sampleUtils sampleParamsOverflow true 0 =
      Except.error LoadError.out_of_bounds := by
  have hfp0 : framePair sampleUtils sampleParamsOverflow 0 =
      some (⟨2, 2, MatType.CV_8UC1, [7, 0, 9, 1]⟩, ⟨2, 2, MatType.CV_16UC1, [0, 1, 2, 5]⟩) :=
    rfl
  have hfpn : ∀ i : Int, i ≠ 0 → framePair sampleUtils sampleParamsOverflow i = none := by
    intro i hi
    unfold framePair sampleUtils
    simp only [if_neg hi]
  refine ⟨by decide, ?_, rfl, ?_⟩
  · intro i _ p hp _
    by_cases hi : i = 0
    · subst hi
      rw [hfp0] at hp
      simp only [Option.mem_def, Option.some.injEq] at hp
      subst hp
      exact ⟨rfl, rfl⟩
    · rw [hfpn i hi] at hp
      simp at hp
  · have hidx : imageIndices sampleParamsOverflow =
        0 :: ((List.range 1073741823).map Nat.succ).map (fun (k : Nat) => (0 : Int) + (k : Int))
        := by
      have hN : sampleParamsOverflow.NumberTrainingImages.toNat = 1073741823 + 1 := by decide
      unfold imageIndices
      rw [hN, List.range_succ_eq_map, List.map_cons]
      congr 1
    have hR : retainedAt sampleUtils sampleParamsOverflow 0 =
        some ⟨⟨2, 2, MatType.CV_8UC1, [7, 0, 9, 1]⟩, ⟨2, 2, MatType.CV_16UC1, [0, 1, 2, 5]⟩,
          ⟨2, 2, MatType.CV_8UC1, [0, 1, 2, 0]⟩⟩ := by
      rfl
    have hlen : (initialState sampleUtils sampleParamsOverflow true 0).img_no <
        (initialState sampleUtils sampleParamsOverflow true 0).result.images_.length := by
      show 0 < (List.replicate _ _).length
      rw [List.length_replicate]
      decide
    have hfull : (initialState sampleUtils sampleParamsOverflow true 0).result.labels_.length
        ≤ (initialState sampleUtils sampleParamsOverflow true 0).label_no := by
      show (List.replicate 0 0).length ≤ 0
      decide
    have hbody : loadImage sampleUtils sampleParamsOverflow true 0 0
        (initialState sampleUtils sampleParamsOverflow true 0) =
        Except.error LoadError.out_of_bounds :=
      loadImage_no_room sampleUtils sampleParamsOverflow 0 0 _ _ _ _ hfp0 (by decide) rfl hR
        hlen (by decide) (by decide) rfl (by decide) hfull
    unfold LoadImages
    rw [if_neg (by decide), if_neg (by decide), if_neg (by decide), hidx,
      forEachM_cons_error _ _ _ _ _ hbody]

/-! ## Frame pairs that do not load -/

/-- The retained image of an index is what is retained of its frame pair. -/
theorem retainedAt_eq_bind (U : IPUtils) (P : ProgramParameters) (i : Int) :
    retainedAt U P i = (framePair U P i).bind (retainPair U P) := by
  unfold retainedAt retainPair
  cases framePair U P i with
  | none => rfl
  | some p => rfl

/-- The retained images are what is retained of the loaded pairs. -/
theorem retainedImages_eq_loaded (U : IPUtils) (P : ProgramParameters) :
    retainedImages U P = (loadedPairs U P).filterMap (retainPair U P) := by
  unfold retainedImages loadedPairs
  rw [List.filterMap_filterMap]
  congr 1
  funext i
  exact retainedAt_eq_bind U P i

/-- C17: an index whose frame pair does not load advances no counter. Take a
valid configuration with well-formed frame pairs of the configured size for
which the final trim applies, and any second image source, start index and
count (non-negative, preallocation within `int`) whose loaded frame pairs
are, in order, the loaded pairs of the first: `LoadImages` returns for both,
with identical `labels_`, `targets_`, `data_` and `images_`; the addresses
in `data_` use the ordinal of the image among the retained ones. -/
theorem LoadImages_skips_unreadable (U : IPUtils) (progParams : ProgramParameters)
    (classification : Bool) (class_number : Int)
    (imread' : Int → PathSuffix → Option Mat) (number' start' : Int)
    (hv : ValidConfiguration U progParams) (hw : FramesWellFormed U progParams)
    (hs : FramesSized U progParams)
    (htrim : trimApplies progParams classification class_number = true)
    (hcount' : 0 ≤ number')
    (hfits' : number' * progParams.ImgHeight * progParams.ImgWidth < 2 ^ 31)
    (hsub : loadedPairs { U with imread := imread' }
        { progParams with NumberTrainingImages := number', TrainingImagesStart := start' } =
      loadedPairs U progParams) :
    ∃ coll coll',
      LoadImages U progParams classification class_number = Except.ok coll ∧
      LoadImages { U with imread := imread' }
        { progParams with NumberTrainingImages := number', TrainingImagesStart := start' }
        classification class_number = Except.ok coll' ∧
      coll.labels_ = coll'.labels_ ∧ coll.targets_ = coll'.targets_ ∧
      coll.data_ = coll'.data_ ∧ coll.images_ = coll'.images_ ∧
      coll.data_ = corpusAddresses classification progParams.TrainOnZeroIR
        (lowMemory progParams classification class_number) class_number
        (progParams.ImgHeight * progParams.ImgWidth) progParams.ImgWidth 0
        ((loadedPairs U progParams).filterMap (retainPair U progParams)) := by
  have hret : retainedImages { U with imread := imread' }
      { progParams with NumberTrainingImages := number', TrainingImagesStart := start' } =
      retainedImages U progParams := by
    rw [retainedImages_eq_loaded, retainedImages_eq_loaded, hsub]
    rfl
  have hv' : ValidConfiguration { U with imread := imread' }
      { progParams with NumberTrainingImages := number', TrainingImagesStart := start' } :=
    ⟨hv.1, hv.2.1, hcount', hfits'⟩
  have hmem : ∀ i ∈ imageIndices
      { progParams with NumberTrainingImages := number', TrainingImagesStart := start' },
      ∀ p ∈ framePair { U with imread := imread' }
        { progParams with NumberTrainingImages := number', TrainingImagesStart := start' } i,
      ∃ j ∈ imageIndices progParams, p ∈ framePair U progParams j := by
    intro i hi p hp
    have hin : p ∈ loadedPairs { U with imread := imread' }
        { progParams with NumberTrainingImages := number', TrainingImagesStart := start' } :=
      List.mem_filterMap.mpr ⟨i, hi, hp⟩
    rw [hsub] at hin
    obtain ⟨j, hj, hpj⟩ := List.mem_filterMap.mp hin
    exact ⟨j, hj, hpj⟩
  have hw' : FramesWellFormed { U with imread := imread' }
      { progParams with NumberTrainingImages := number', TrainingImagesStart := start' } := by
    intro i hi p hp
    obtain ⟨j, hj, hpj⟩ := hmem i hi p hp
    exact hw j hj p hpj
  have hs' : FramesSized { U with imread := imread' }
      { progParams with NumberTrainingImages := number', TrainingImagesStart := start' } := by
    intro i hi p hp hok
    obtain ⟨j, hj, hpj⟩ := hmem i hi p hp
    exact hs j hj p hpj hok
  obtain ⟨coll, hc, _, hi1, hl1, ht1, hd1⟩ :=
    LoadImages_fields U progParams classification class_number hv hw hs
  obtain ⟨coll', hc', _, hi2, hl2, ht2, hd2⟩ :=
    LoadImages_fields { U with imread := imread' }
      { progParams with NumberTrainingImages := number', TrainingImagesStart := start' }
      classification class_number hv' hw' hs'
  have htrim' : trimApplies
      { progParams with NumberTrainingImages := number', TrainingImagesStart := start' }
      classification class_number = true := htrim
  rw [if_pos htrim, List.append_nil] at hi1 hl1 ht1 hd1
  rw [if_pos htrim', List.append_nil, hret] at hi2 hl2 ht2 hd2
  refine ⟨coll, coll', hc, hc', ?_, ?_, ?_, ?_, ?_⟩
  · rw [hl1, hl2]
  · rw [ht1, ht2]
  · rw [hd1, hd2]; rfl
  · rw [hi1, hi2]
  · rw [hd1, retainedImages_eq_loaded]

/-- Witness for C17: the sample batch (index 0 loads, index 1 does not)
against the one-image batch whose only pair, at file index 5, is the pair
that loads. -/
theorem LoadImages_skips_unreadable_witness :
    loadedPairs shiftedUtils shiftedParams = loadedPairs sampleUtils sampleParams ∧
    ∃ coll coll',
      LoadImages sampleUtils sampleParams true 0 = Except.ok coll ∧
      LoadImages shiftedUtils shiftedParams true 0 = Except.ok coll' ∧
      coll.labels_ = coll'.labels_ ∧ coll.targets_ = coll'.targets_ ∧
      coll.data_ = coll'.data_ ∧ coll.images_ = coll'.images_ ∧
      coll.data_ = corpusAddresses true sampleParams.TrainOnZeroIR
        (lowMemory sampleParams true 0) 0
        (sampleParams.ImgHeight * sampleParams.ImgWidth) sampleParams.ImgWidth 0
        ((loadedPairs sampleUtils sampleParams).filterMap
          (retainPair sampleUtils sampleParams)) :=
  ⟨by decide,
    LoadImages_skips_unreadable sampleUtils sampleParams true 0
      (fun i sfx => sampleUtils.imread (i - 5) sfx) 1 5 (by decide) (by decide) (by decide)
      (by decide) (by decide) (by decide) (by decide)⟩

/-! ## Decoding the index array -/

/-- Mapping over a raster selection maps the selected values. -/
theorem rasterSelect_map {α β : Type} (rows cols : Nat) (keep : Nat → Nat → Bool)
    (val : Nat → Nat → α) (g : α → β) :
    (rasterSelect rows cols keep val).map g =
      rasterSelect rows cols keep (fun r c => g (val r c)) := by
  unfold rasterSelect
  rw [List.map_flatMap]
  congr 1
  funext r
  rw [List.map_map]
  rfl

/-- The selected positions lie in the frame. -/
theorem rasterSelect_mem_pairs (rows cols : Nat) (keep : Nat → Nat → Bool) (p : Nat × Nat)
    (h : p ∈ rasterSelect rows cols keep Prod.mk) : p.1 < rows ∧ p.2 < cols := by
  unfold rasterSelect at h
  rw [List.mem_flatMap] at h
  obtain ⟨r, hr, hp⟩ := h
  rw [List.mem_map] at hp
  obtain ⟨c, hc, rfl⟩ := hp
  rw [List.mem_filter] at hc
  exact ⟨List.mem_range.mp hr, List.mem_range.mp hc.1⟩

/-- Entry `i` of a raster selection is the value at the `i`-th selected position. -/
theorem rasterSelect_getElem?_pairs {α : Type} (rows cols : Nat) (keep : Nat → Nat → Bool)
    (val : Nat → Nat → α) (i : Nat) :
    (rasterSelect rows cols keep val)[i]? =
      ((rasterSelect rows cols keep Prod.mk)[i]?).map (fun p => val p.1 p.2) := by
  rw [← List.getElem?_map, rasterSelect_map]

/-- A pixel offset `r * w + c` within a frame of `h` by `w` pixels is below `h * w`. -/
theorem pixel_offset_lt (h w r c : Nat) (hr : r < h) (hc : c < w) :
    (r : Int) * w + c < (h : Int) * w := by
  have h1 : ((r : Int) + 1) * w ≤ (h : Int) * w :=
    Int.mul_le_mul_of_nonneg_right (by omega) (by omega)
  have h2 : ((r : Int) + 1) * w = r * w + w := by ring
  omega

/-- The addresses recorded for one image increase along the raster scan. -/
theorem rasterSelect_addr_pairwise (h w k : Nat) (keep : Nat → Nat → Bool) :
    (rasterSelect h w keep (flatAddr ((h : Int) * w) w k)).Pairwise (fun a b => a < b) := by
  unfold rasterSelect
  rw [List.pairwise_flatMap]
  constructor
  · intro r _
    rw [List.pairwise_map]
    apply List.Pairwise.filter
    refine (List.pairwise_lt_range w).imp ?_
    intro a b hab
    unfold flatAddr
    have : (a : Int) < b := by exact_mod_cast hab
    omega
  · refine (List.pairwise_lt_range h).imp ?_
    intro r1 r2 hr x hx y hy
    rw [List.mem_map] at hx hy
    obtain ⟨c1, hc1, rfl⟩ := hx
    obtain ⟨c2, hc2, rfl⟩ := hy
    have hc1' := List.mem_range.mp (List.mem_filter.mp hc1).1
    unfold flatAddr
    have h1 := pixel_offset_lt r2 w r1 c1 hr hc1'
    have h2 : (0 : Int) ≤ c2 := by omega
    omega

/-- The addresses recorded for image `k` lie in its block of `h * w` addresses. -/
theorem rasterSelect_addr_range (h w k : Nat) (keep : Nat → Nat → Bool) (x : Int)
    (hx : x ∈ rasterSelect h w keep (flatAddr ((h : Int) * w) w k)) :
    (k : Int) * ((h : Int) * w) ≤ x ∧ x < ((k : Int) + 1) * ((h : Int) * w) := by
  obtain ⟨i, hi⟩ := List.mem_iff_getElem?.mp hx
  rw [rasterSelect_getElem?_pairs] at hi
  cases hp : (rasterSelect h w keep Prod.mk)[i]? with
  | none => rw [hp] at hi; simp at hi
  | some p =>
    rw [hp] at hi
    simp only [Option.map_some', Option.some.injEq] at hi
    obtain ⟨hr, hc⟩ := rasterSelect_mem_pairs h w keep p (List.mem_iff_getElem?.mpr ⟨i, hp⟩)
    have h1 := pixel_offset_lt h w p.1 p.2 hr hc
    have h2 : (0 : Int) ≤ (p.1 : Int) * w := by positivity
    have h3 : ((k : Int) + 1) * ((h : Int) * w) = k * ((h : Int) * w) + (h : Int) * w := by ring
    rw [← hi, h3]
    unfold flatAddr
    constructor <;> omega

/-- Decoding a flattened address: the image ordinal, the row and the column. -/
theorem flatAddr_decode (h w k r c : Nat) (hr : r < h) (hc : c < w) :
    flatAddr ((h : Int) * w) w k r c / ((h : Int) * w) = k ∧
    (flatAddr ((h : Int) * w) w k r c % ((h : Int) * w)) / w = r ∧
    flatAddr ((h : Int) * w) w k r c % w = c := by
  have hw : (0 : Int) < w := by omega
  have hh : (0 : Int) < h := by omega
  have hs : (0 : Int) < (h : Int) * w := Int.mul_pos hh hw
  have h1 := pixel_offset_lt h w r c hr hc
  have h0 : (0 : Int) ≤ (r : Int) * w + c := by positivity
  have e1 : flatAddr ((h : Int) * w) w k r c = ((r : Int) * w + c) + k * ((h : Int) * w) := by
    unfold flatAddr; ring
  have e2 : flatAddr ((h : Int) * w) w k r c = (c : Int) + ((k : Int) * h + r) * w := by
    unfold flatAddr; ring
  have e3 : (r : Int) * w + c = (c : Int) + r * w := by ring
  refine ⟨?_, ?_, ?_⟩
  · rw [e1, Int.add_mul_ediv_right _ _ (ne_of_gt hs), Int.ediv_eq_zero_of_lt h0 h1]
    simp
  · rw [e1, Int.add_mul_emod_self, Int.emod_eq_of_lt h0 h1, e3,
      Int.add_mul_ediv_right _ _ (ne_of_gt hw), Int.ediv_eq_zero_of_lt (by omega) (by omega)]
    simp
  · rw [e2, Int.add_mul_emod_self, Int.emod_eq_of_lt (by omega) (by omega)]

/-- The samples of one image as a raster selection of `sampleValue`. -/
theorem imageSamples_eq (cl tz : Bool) (cn : Int) (R : Retained) :
    (if cl then imageLabels tz R else imageTargets tz cn R) =
      rasterSelect R.depth_image.rows R.depth_image.cols (sampleIncluded cl tz cn R)
        (sampleValue cl R) := by
  cases cl with
  | true =>
    simp only [if_true]
    unfold imageLabels
    have e1 : sampleIncluded true tz 0 R = sampleIncluded true tz cn R := by
      funext r c
      simp [sampleIncluded]
    have e2 : R.depth_labels.ptr = sampleValue true R := by
      funext r c
      simp [sampleValue]
    rw [e1, e2]
  | false =>
    simp only [Bool.false_eq_true, if_false]
    unfold imageTargets
    have e2 : R.depth_image.ptr = sampleValue false R := by
      funext r c
      simp [sampleValue]
    rw [e2]

/-- Without low memory an address is recorded for exactly the samples. -/
theorem imageAddresses_eq (cl tz : Bool) (cn : Int) (step width : Int) (k : Nat)
    (R : Retained) (hlm : (tz && (cl || cn == -1)) = false) :
    imageAddresses cl tz false cn step width k R =
      rasterSelect R.depth_image.rows R.depth_image.cols (sampleIncluded cl tz cn R)
        (flatAddr step width k) := by
  unfold imageAddresses
  congr 1
  funext r c
  unfold addressRecorded
  cases cl with
  | true =>
    have htz : tz = false := by simpa using hlm
    simp [htz]
  | false => simp

/-- The samples of a corpus, one image at a time. -/
theorem corpusSamples_eq (cl tz : Bool) (cn : Int) (Rs : List Retained) :
    (if cl then corpusLabels cl tz Rs else corpusTargets cl tz cn Rs) =
      Rs.flatMap (fun R =>
        rasterSelect R.depth_image.rows R.depth_image.cols (sampleIncluded cl tz cn R)
          (sampleValue cl R)) := by
  have e : (fun R => rasterSelect R.depth_image.rows R.depth_image.cols
      (sampleIncluded cl tz cn R) (sampleValue cl R)) =
      fun R => if cl then imageLabels tz R else imageTargets tz cn R := by
    funext R
    rw [imageSamples_eq]
  rw [e]
  unfold corpusLabels corpusTargets
  cases cl <;> simp

/-- The index array of a corpus of images of `h` by `w` pixels, without low
memory: it increases strictly, the addresses of the images from ordinal `k`
on lie in their blocks, and entry `i` is the address of the pixel of which
entry `i` of the samples is the value. -/
theorem corpusAddresses_spec (cl tz : Bool) (cn : Int) (h w : Nat)
    (hlm : (tz && (cl || cn == -1)) = false) :
    ∀ (Rs : List Retained) (k : Nat),
      (∀ R ∈ Rs, R.depth_image.rows = h ∧ R.depth_image.cols = w) →
      (corpusAddresses cl tz false cn ((h : Int) * w) w k Rs).Pairwise (fun a b => a < b) ∧
      (∀ x ∈ corpusAddresses cl tz false cn ((h : Int) * w) w k Rs,
        (k : Int) * ((h : Int) * w) ≤ x ∧
        x < (((k + Rs.length : Nat) : Int)) * ((h : Int) * w)) ∧
      (∀ (i : Nat) (x : Int),
        (corpusAddresses cl tz false cn ((h : Int) * w) w k Rs)[i]? = some x →
        ∃ (j : Nat) (R : Retained) (r c : Nat), Rs[j]? = some R ∧ r < h ∧ c < w ∧
          x = flatAddr ((h : Int) * w) w (k + j) r c ∧
          (Rs.flatMap (fun R =>
            rasterSelect R.depth_image.rows R.depth_image.cols (sampleIncluded cl tz cn R)
              (sampleValue cl R)))[i]? = some (sampleValue cl R r c)) := by
  intro Rs
  induction Rs with
  | nil =>
    intro k _
    simp [corpusAddresses]
  | cons R Rs ih =>
    intro k hsz
    obtain ⟨hrows, hcols⟩ := hsz R (List.mem_cons_self _ _)
    obtain ⟨ih1, ih2, ih3⟩ := ih (k + 1) (fun R' hR' => hsz R' (List.mem_cons_of_mem _ hR'))
    rw [corpusAddresses_cons, imageAddresses_eq cl tz cn _ _ k R hlm, hrows, hcols]
    have hnn : (0 : Int) ≤ (h : Int) * w := by positivity
    refine ⟨?_, ?_, ?_⟩
    · rw [List.pairwise_append]
      refine ⟨rasterSelect_addr_pairwise h w k _, ih1, fun a ha b hb => ?_⟩
      have h1 := (rasterSelect_addr_range h w k _ a ha).2
      have h2 := (ih2 b hb).1
      push_cast at h2
      omega
    · intro x hx
      rw [List.mem_append] at hx
      have e : (((k + (R :: Rs).length : Nat) : Int)) * ((h : Int) * w) =
          (k : Int) * ((h : Int) * w) + (h : Int) * w + (Rs.length : Int) * ((h : Int) * w) := by
        simp only [List.length_cons]
        push_cast
        ring
      have hpos : (0 : Int) ≤ (Rs.length : Int) * ((h : Int) * w) := by positivity
      rcases hx with hx | hx
      · obtain ⟨a1, a2⟩ := rasterSelect_addr_range h w k _ x hx
        have e2 : ((k : Int) + 1) * ((h : Int) * w) = k * ((h : Int) * w) + (h : Int) * w := by
          ring
        rw [e]
        constructor <;> omega
      · obtain ⟨a1, a2⟩ := ih2 x hx
        have e2 : (((k + 1 : Nat) : Int)) * ((h : Int) * w) =
            k * ((h : Int) * w) + (h : Int) * w := by
          push_cast
          ring
        have e3 : (((k + 1 + Rs.length : Nat) : Int)) * ((h : Int) * w) =
            (k : Int) * ((h : Int) * w) + (h : Int) * w +
              (Rs.length : Int) * ((h : Int) * w) := by
          push_cast
          ring
        rw [e]
        rw [e2] at a1
        rw [e3] at a2
        constructor <;> omega
    · intro i x hx
      rw [List.flatMap_cons, hrows, hcols]
      have hlen : (rasterSelect h w (sampleIncluded cl tz cn R)
          (flatAddr ((h : Int) * w) w k)).length =
          (rasterSelect h w (sampleIncluded cl tz cn R) (sampleValue cl R)).length := by
        rw [← rasterSelect_map h w _ Prod.mk (fun p => flatAddr ((h : Int) * w) w k p.1 p.2),
          ← rasterSelect_map h w _ Prod.mk (fun p => sampleValue cl R p.1 p.2),
          List.length_map, List.length_map]
      by_cases hi : i < (rasterSelect h w (sampleIncluded cl tz cn R)
          (flatAddr ((h : Int) * w) w k)).length
      · rw [List.getElem?_append_left hi, rasterSelect_getElem?_pairs] at hx
        rw [List.getElem?_append_left (by rw [← hlen]; exact hi),
          rasterSelect_getElem?_pairs]
        cases hp : (rasterSelect h w (sampleIncluded cl tz cn R) Prod.mk)[i]? with
        | none => rw [hp] at hx; simp at hx
        | some p =>
          rw [hp] at hx
          simp only [Option.map_some', Option.some.injEq] at hx
          obtain ⟨hr, hc⟩ := rasterSelect_mem_pairs h w _ p
            (List.mem_iff_getElem?.mpr ⟨i, hp⟩)
          exact ⟨0, R, p.1, p.2, by simp, hr, hc, hx.symm, rfl⟩
      · rw [List.getElem?_append_right (by omega)] at hx
        obtain ⟨j, R', r, c, hj, hr, hc, hxe, hs⟩ := ih3 _ x hx
        refine ⟨j + 1, R', r, c, by simpa using hj, hr, hc, ?_, ?_⟩
        · rw [hxe]
          congr 1
          omega
        · rw [List.getElem?_append_right (by omega), ← hlen]
          exact hs

/-- Retained images have the configured size, as integers. -/
theorem retained_sized_int (U : IPUtils) (P : ProgramParameters) (hw : FramesWellFormed U P)
    (hs : FramesSized U P) (R : Retained) (hR : R ∈ retainedImages U P) :
    (R.depth_image.rows : Int) = P.ImgHeight ∧ (R.depth_image.cols : Int) = P.ImgWidth := by
  unfold retainedImages at hR
  rw [List.mem_filterMap] at hR
  obtain ⟨i, hi, hri⟩ := hR
  cases hfp : framePair U P i with
  | none => rw [retainedAt_none_of_not_loaded U P i hfp] at hri; simp at hri
  | some p =>
    obtain ⟨ir, d⟩ := p
    have hd := retainedAt_depth U P i ir d R hfp hri
    have hok := hw i hi (ir, d) (by rw [hfp]; rfl)
    have := hs i hi (ir, d) (by rw [hfp]; rfl) hok
    simp only at this
    rw [hd]
    exact this

/-- The index array of a corpus of images of `H` by `W` pixels, decoded. -/
theorem corpus_index_decodes (cl tz : Bool) (cn : Int) (H W : Int) (h w : Nat)
    (hH : H = (h : Int)) (hW : W = (w : Int)) (hlm : (tz && (cl || cn == -1)) = false)
    (Rs : List Retained) (hsz : ∀ R ∈ Rs, R.depth_image.rows = h ∧ R.depth_image.cols = w) :
    (corpusAddresses cl tz false cn (H * W) W 0 Rs).Pairwise (fun a b => a < b) ∧
    (∀ x ∈ corpusAddresses cl tz false cn (H * W) W 0 Rs,
      0 ≤ x ∧ x < (Rs.length : Int) * (H * W)) ∧
    (∀ (i : Nat) (x : Int), (corpusAddresses cl tz false cn (H * W) W 0 Rs)[i]? = some x →
      ∃ R, Rs[(x / (H * W)).toNat]? = some R ∧ 0 ≤ x / (H * W) ∧
        0 ≤ x % (H * W) / W ∧ x % (H * W) / W < H ∧ 0 ≤ x % W ∧ x % W < W ∧
        (Rs.flatMap (fun R =>
          rasterSelect R.depth_image.rows R.depth_image.cols (sampleIncluded cl tz cn R)
            (sampleValue cl R)))[i]? =
          some (sampleValue cl R (x % (H * W) / W).toNat (x % W).toNat)) := by
  subst hH hW
  obtain ⟨p1, p2, p3⟩ := corpusAddresses_spec cl tz cn h w hlm Rs 0 hsz
  refine ⟨p1, ?_, ?_⟩
  · intro x hx
    obtain ⟨a1, a2⟩ := p2 x hx
    simp only [Nat.cast_zero, zero_mul, Nat.zero_add] at a1 a2
    exact ⟨a1, a2⟩
  · intro i x hx
    obtain ⟨j, R, r, c, hj, hr, hc, hxe, hsv⟩ := p3 i x hx
    obtain ⟨d1, d2, d3⟩ := flatAddr_decode h w (0 + j) r c hr hc
    rw [← hxe] at d1 d2 d3
    rw [d1, d2, d3]
    simp only [Nat.zero_add, Int.toNat_ofNat] at hj hsv ⊢
    exact ⟨R, hj, by omega, by omega, by omega, by omega, by omega, hsv⟩

/-- C18: on a valid configuration (count `≥ 0`, `count * height * width`
within `int`) with well-formed frame pairs of the configured size, whenever
`LoadImages` materializes an index array (`low_memory` false) the returned
`data_` is strictly increasing, every entry is non-negative and smaller than
`retained_images * step`, and entry `i` decodes, as `image = idx / step`,
`row = (idx mod step) / width`, `col = idx mod width`, to a pixel inside the
frame of the retained image `image` whose bin label (classification) or
depth value (regression) is entry `i` of `labels_`, respectively `targets_`. -/
theorem LoadImages_index_decodes (U : IPUtils) (progParams : ProgramParameters)
    (classification : Bool) (class_number : Int) (hv : ValidConfiguration U progParams)
    (hw : FramesWellFormed U progParams) (hs : FramesSized U progParams)
    (hlm : lowMemory progParams classification class_number = false) :
    ∃ coll, LoadImages U progParams classification class_number = Except.ok coll ∧
      coll.low_memory = false ∧
      coll.step = progParams.ImgHeight * progParams.ImgWidth ∧
      coll.image_size = ⟨progParams.ImgWidth, progParams.ImgHeight⟩ ∧
      coll.images_ = (retainedImages U progParams).map Retained.ir_preprocessed ∧
      coll.data_.Pairwise (fun a b => a < b) ∧
      (∀ idx ∈ coll.data_, 0 ≤ idx ∧ idx < (coll.images_.length : Int) * coll.step) ∧
      (∀ (i : Nat) (idx : Int), coll.data_[i]? = some idx →
        ∃ R, (retainedImages U progParams)[(idx / coll.step).toNat]? = some R ∧
          coll.images_[(idx / coll.step).toNat]? = some R.ir_preprocessed ∧
          0 ≤ idx / coll.step ∧
          0 ≤ idx % coll.step / coll.image_size.width ∧
          idx % coll.step / coll.image_size.width < coll.image_size.height ∧
          0 ≤ idx % coll.image_size.width ∧
          idx % coll.image_size.width < coll.image_size.width ∧
          (coll.samples classification)[i]? =
            some (sampleValue classification R
              (idx % coll.step / coll.image_size.width).toNat
              (idx % coll.image_size.width).toNat)) := by
  obtain ⟨coll, hret, hhead, hI, hL, hT, hD⟩ :=
    LoadImages_fields U progParams classification class_number hv hw hs
  have htrim : trimApplies progParams classification class_number = true := by
    unfold trimApplies
    rw [hlm]
    rfl
  rw [if_pos htrim, List.append_nil] at hI hL hT hD
  obtain ⟨_, e2, e3, e4, _⟩ := header_fields hhead
  have hlow : coll.low_memory = false := by rw [e2]; exact hlm
  have hstep : coll.step = progParams.ImgHeight * progParams.ImgWidth := e3
  have hsize : coll.image_size = ⟨progParams.ImgWidth, progParams.ImgHeight⟩ := e4
  have hS : coll.samples classification =
      (retainedImages U progParams).flatMap (fun R =>
        rasterSelect R.depth_image.rows R.depth_image.cols
          (sampleIncluded classification progParams.TrainOnZeroIR class_number R)
          (sampleValue classification R)) := by
    rw [← corpusSamples_eq]
    unfold DataPointCollection.samples
    rw [hL, hT]
  refine ⟨coll, hret, hlow, hstep, hsize, hI, ?_⟩
  rw [hlm] at hD
  rw [hstep, hsize, hS, hD, hI, List.length_map]
  simp only
  cases hRs : retainedImages U progParams with
  | nil =>
    refine ⟨by simp [corpusAddresses], by simp [corpusAddresses], ?_⟩
    intro i idx hidx
    simp [corpusAddresses] at hidx
  | cons R0 Rt =>
    rw [← hRs]
    obtain ⟨hr0, hc0⟩ := retained_sized_int U progParams hw hs R0 (by rw [hRs]; simp)
    obtain ⟨q1, q2, q3⟩ := corpus_index_decodes classification progParams.TrainOnZeroIR
      class_number progParams.ImgHeight progParams.ImgWidth progParams.ImgHeight.toNat
      progParams.ImgWidth.toNat (by omega) (by omega) hlm (retainedImages U progParams)
      (fun R hR => retained_sized U progParams hw hs R hR)
    refine ⟨q1, q2, ?_⟩
    intro i idx hidx
    obtain ⟨R, g1, g2, g3, g4, g5, g6, g7⟩ := q3 i idx hidx
    refine ⟨R, g1, ?_, g2, g3, g4, g5, g6, g7⟩
    rw [List.getElem?_map, g1]
    rfl

/-- Witness for C18: the sample batch in classification mode, whose index
array is `[0, 2, 3]`. -/
theorem LoadImages_index_decodes_witness :
    (ValidConfiguration sampleUtils sampleParams ∧ FramesWellFormed sampleUtils sampleParams ∧
      FramesSized sampleUtils sampleParams ∧ lowMemory sampleParams true 0 = false) ∧
    ∃ coll, LoadImages sampleUtils sampleParams true 0 = Except.ok coll ∧
      coll.low_memory = false ∧
      coll.step = sampleParams.ImgHeight * sampleParams.ImgWidth ∧
      coll.image_size = ⟨sampleParams.ImgWidth, sampleParams.ImgHeight⟩ ∧
      coll.images_ = (retainedImages sampleUtils sampleParams).map Retained.ir_preprocessed ∧
      coll.data_.Pairwise (fun a b => a < b) ∧
      (∀ idx ∈ coll.data_, 0 ≤ idx ∧ idx < (coll.images_.length : Int) * coll.step) ∧
      (∀ (i : Nat) (idx : Int), coll.data_[i]? = some idx →
        ∃ R, (retainedImages sampleUtils sampleParams)[(idx / coll.step).toNat]? = some R ∧
          coll.images_[(idx / coll.step).toNat]? = some R.ir_preprocessed ∧
          0 ≤ idx / coll.step ∧
          0 ≤ idx % coll.step / coll.image_size.width ∧
          idx % coll.step / coll.image_size.width < coll.image_size.height ∧
          0 ≤ idx % coll.image_size.width ∧
          idx % coll.image_size.width < coll.image_size.width ∧
          (coll.samples true)[i]? =
            some (sampleValue true R
              (idx % coll.step / coll.image_size.width).toNat
              (idx % coll.image_size.width).toNat)) :=
  ⟨⟨by decide, by decide, by decide, by decide⟩,
    LoadImages_index_decodes sampleUtils sampleParams true 0 (by decide) (by decide)
      (by decide) (by decide)⟩

end Sherwood
